import Mathlib

/-!
LVGL software image transform (`src/draw/sw/lv_draw_sw_transform.c`)

A shallow embedding of the rotate/zoom resampler and the properties of it
that the specification states.

Conventions of the embedding

* `int32_t` values are integers reduced by `wrap32` after every arithmetic
  operation that can leave the 32-bit range (two's-complement wrap-around).
* `lv_coord_t` is the 16-bit signed type (the default LVGL configuration);
  a value stored into an `lv_coord_t` is reduced by `wrap16`.
* `>> k` on a signed value is the arithmetic shift, i.e. floor division by
  `2 ^ k` (Lean's `/` on `Int` with a positive divisor); `& 0xFF` is `% 256`.
* C division `/` truncates toward zero: `Int.tdiv`.
* A pointer is a buffer (a total function from index to value) together
  with an offset.  Byte offsets that are added to the source pointer are
  address arithmetic and are kept as unbounded integers.
* `none` stands for a run that does not return normally (division by zero,
  a loop whose 16-bit counter can never reach its bound, a fill whose
  length is negative before its conversion to `size_t`).
-/

namespace LvDrawSwTransform

/-! ## Machine integers -/

/-- Reduction of an integer to the `int32_t` range (two's complement). -/
def wrap32 (z : Int) : Int := (z + 2147483648) % 4294967296 - 2147483648

/-- Reduction of an integer to the 16-bit `lv_coord_t` range. -/
def wrap16 (z : Int) : Int := (z + 32768) % 65536 - 32768

/-- Addition of two `int32_t` values. -/
def add32 (a b : Int) : Int := wrap32 (a + b)

/-- Subtraction of two `int32_t` values. -/
def sub32 (a b : Int) : Int := wrap32 (a - b)

/-- Multiplication of two `int32_t` values. -/
def mul32 (a b : Int) : Int := wrap32 (a * b)

/-- The C expression `v << 8` on an `int32_t`. -/
def shl8 (v : Int) : Int := wrap32 (v * 256)

/-- Values an `lv_coord_t` can hold. -/
def is_coord (z : Int) : Prop := -32768 ≤ z ∧ z ≤ 32767

instance (z : Int) : Decidable (is_coord z) := by
  unfold is_coord; infer_instance

/-! ## Configuration and types the file takes from LVGL headers -/

/-- The colour depths for which the file has a pixel read (`LV_COLOR_DEPTH`
8, 16 or 32). -/
inductive ColorDepth
  | d8
  | d16
  | d32
deriving DecidableEq

/-- Modelled from the spec: `sizeof(lv_color_t)`, the "fixed per-pixel byte
size" of a pixel without alpha channel; the declaration of `lv_color_t` is
not part of the file. -/
def color_size : ColorDepth → Int
  | .d8 => 1
  | .d16 => 2
  | .d32 => 4

/-- Modelled from the spec: `LV_IMG_PX_SIZE_ALPHA_BYTE`, the "fixed per-pixel
byte size" of a pixel with alpha channel (the colour bytes followed by the
alpha byte, which is the last byte of the pixel); the macro is not part of
the file. -/
def LV_IMG_PX_SIZE_ALPHA_BYTE : ColorDepth → Int
  | .d8 => 2
  | .d16 => 3
  | .d32 => 4

/-- Modelled from the spec: the zoom sentinel `LV_IMG_ZOOM_NONE`
("256 = no zoom"); the macro is not part of the file. -/
def LV_IMG_ZOOM_NONE : Int := 256

/-- Modelled from the spec: `LV_OPA_50`, the "fixed 50% weight" of the last
colour mix; the enumerator (127 in LVGL) is not part of the file. -/
def LV_OPA_50 : Int := 127

/-- What the file uses but does not define: the colour depth it is compiled
for, the sine source `lv_trigo_sin` with its shift `LV_TRIGO_SHIFT`, and the
colour mixing primitive `lv_color_mix`. -/
structure Env where
  depth : ColorDepth
  lv_trigo_sin : Int → Int
  LV_TRIGO_SHIFT : Nat
  lv_color_mix : Int → Int → Int → Int

/-- The C type `lv_point_t`. -/
structure lv_point_t where
  x : Int
  y : Int

/-- The C type `lv_area_t`. -/
structure lv_area_t where
  x1 : Int
  y1 : Int
  x2 : Int
  y2 : Int

/-- Modelled from the spec: the pixel format of the source,
"pixel_format: {RGB, ARGB}"; the enumeration `lv_img_cf_t` is not part of
the file. -/
inductive lv_img_cf_t
  | LV_IMG_CF_TRUE_COLOR
  | LV_IMG_CF_TRUE_COLOR_ALPHA
deriving DecidableEq

/-- Modelled from the spec: `lv_img_cf_has_alpha`, "has alpha channel or
not"; the function is not part of the file. -/
def lv_img_cf_has_alpha : lv_img_cf_t → Bool
  | .LV_IMG_CF_TRUE_COLOR => false
  | .LV_IMG_CF_TRUE_COLOR_ALPHA => true

/-- The fields of `lv_draw_img_dsc_t` the transform reads: `angle` is an
`int16_t`, `zoom` a `uint16_t`, `antialias` a one-bit field. -/
structure lv_draw_img_dsc_t where
  angle : Int
  zoom : Int
  pivot : lv_point_t
  antialias : Bool

/-- The C type `point_transform_dsc_t` (its fields `x_in`, `y_in`, `x_out`,
`y_out` are never read or written and are left out). -/
structure point_transform_dsc_t where
  sinma : Int
  cosma : Int
  zoom : Int
  angle : Int
  pivot : lv_point_t

/-- Modelled from the spec: `lv_area_get_width`, the number of columns of an
area, returned as an `lv_coord_t`; the function is not part of the file. -/
def lv_area_get_width (a : lv_area_t) : Int := wrap16 (a.x2 - a.x1 + 1)

/-- Modelled from the spec: `lv_area_get_height`, the number of rows of an
area, returned as an `lv_coord_t`; the function is not part of the file. -/
def lv_area_get_height (a : lv_area_t) : Int := wrap16 (a.y2 - a.y1 + 1)

/-! ## Memory -/

/-- The byte `src[p]` of a byte buffer. -/
def byte (src : Int → Int) (p : Int) : Int := src p % 256

/-- The colour value (`.full`) read at byte offset `p`, for each colour
depth: one byte, `src_tmp[0] + (src_tmp[1] << 8)`, or the 32-bit word at `p`
(little endian). -/
def read_color (d : ColorDepth) (src : Int → Int) (p : Int) : Int :=
  match d with
  | .d8 => byte src p
  | .d16 => byte src p + byte src (p + 1) * 256
  | .d32 => byte src p + byte src (p + 1) * 256 + byte src (p + 2) * 65536
      + byte src (p + 3) * 16777216

/-- The two output buffers `cbuf` (colours) and `abuf` (alphas). -/
structure Bufs where
  cbuf : Int → Int
  abuf : Int → Int

/-- What one iteration of a sampler stores at its index: a colour, an alpha,
both or neither. -/
structure PxOut where
  color : Option Int
  alpha : Option Int

/-- One buffer cell after an optional store. -/
def store (buf : Int → Int) (i : Int) (v : Option Int) : Int → Int :=
  match v with
  | none => buf
  | some c => fun j => if j = i then c else buf j

/-- The stores of one iteration at index `i`. -/
def apply_px (o : PxOut) (i : Int) (b : Bufs) : Bufs :=
  ⟨store b.cbuf i o.color, store b.abuf i o.alpha⟩

/-- The loop `for(x = 0; x < n; x++)` of the samplers, writing at
`cbuf[x]` and `abuf[x]` where both pointers are `off` cells into the
buffers. -/
def row_loop (px : Int → PxOut) (off : Int) : Nat → Bufs → Bufs
  | 0, b => b
  | n + 1, b => apply_px (px n) (off + n) (row_loop px off n b)

/-- Modelled from the spec: `lv_memset_ff(abuf, len)`, which "pre-fills the
entire alpha row to fully opaque 0xFF"; the function is not part of the
file. -/
def lv_memset_ff (buf : Int → Int) (off : Int) (len : Nat) : Int → Int :=
  fun j => if off ≤ j ∧ j < off + len then 255 else buf j

/-! ## The point transform -/

/-- The C function `transform_point_upscaled`: the pair `(*xout, *yout)`. -/
def transform_point_upscaled (t : point_transform_dsc_t) (xin yin : Int) : Int × Int :=
  if t.angle = 0 ∧ t.zoom = LV_IMG_ZOOM_NONE then
    (shl8 xin, shl8 yin)
  else
    let xin := sub32 xin t.pivot.x
    let yin := sub32 yin t.pivot.y
    if t.angle = 0 then
      (add32 (mul32 xin t.zoom) (shl8 t.pivot.x),
       add32 (mul32 yin t.zoom) (shl8 t.pivot.y))
    else if t.zoom = LV_IMG_ZOOM_NONE then
      (add32 (sub32 (mul32 t.cosma xin) (mul32 t.sinma yin) / 4) (shl8 t.pivot.x),
       add32 (add32 (mul32 t.sinma xin) (mul32 t.cosma yin) / 4) (shl8 t.pivot.y))
    else
      (add32 (mul32 (sub32 (mul32 t.cosma xin) (mul32 t.sinma yin)) t.zoom / 1024)
         (shl8 t.pivot.x),
       add32 (mul32 (add32 (mul32 t.sinma xin) (mul32 t.cosma yin)) t.zoom / 1024)
         (shl8 t.pivot.y))

/-! ## The samplers -/

/-- The coordinate `xs_ups_start + ((xs_step * x) >> 8)` a sampler computes
for index `x`. -/
def sample_ups (start step x : Int) : Int := add32 start (mul32 step x / 256)

/-- The test `xs_int < 0 || xs_int >= src_w || ys_int < 0 || ys_int >= src_h`
of the three samplers. -/
def out_of_image (src_w src_h xs_int ys_int : Int) : Prop :=
  xs_int < 0 ∨ xs_int ≥ src_w ∨ ys_int < 0 ∨ ys_int ≥ src_h

instance (src_w src_h xs_int ys_int : Int) : Decidable (out_of_image src_w src_h xs_int ys_int) := by
  unfold out_of_image; infer_instance

/-- One iteration of the loop of `rgb_no_aa`, at index `x`. -/
def rgb_no_aa_px (env : Env) (src : Int → Int) (src_w src_h src_stride : Int)
    (xs_ups_start ys_ups_start xs_step ys_step : Int) (x : Int) : PxOut :=
  let xs_ups := sample_ups xs_ups_start xs_step x
  let ys_ups := sample_ups ys_ups_start ys_step x
  let xs_int := xs_ups / 256
  let ys_int := ys_ups / 256
  if out_of_image src_w src_h xs_int ys_int then
    ⟨none, some 0⟩
  else
    let src_tmp := ys_int * src_stride * color_size env.depth + xs_int * color_size env.depth
    ⟨some (read_color env.depth src src_tmp), none⟩

/-- The C function `rgb_no_aa`.  The alpha row is filled with `0xFF` first;
the fill length `x_end` is converted to `size_t`, so a negative `x_end` does
not return, and the 16-bit counter `x` never reaches an `x_end` above
32767. -/
def rgb_no_aa (env : Env) (src : Int → Int) (src_w src_h src_stride : Int)
    (xs_ups ys_ups xs_step ys_step x_end : Int) (off : Int) (bufs : Bufs) : Option Bufs :=
  if x_end < 0 ∨ 32767 < x_end then none
  else
    some (row_loop (rgb_no_aa_px env src src_w src_h src_stride xs_ups ys_ups xs_step ys_step)
      off x_end.toNat ⟨bufs.cbuf, lv_memset_ff bufs.abuf off x_end.toNat⟩)

/-- One iteration of the loop of `argb_no_aa`, at index `x`. -/
def argb_no_aa_px (env : Env) (src : Int → Int) (src_w src_h src_stride : Int)
    (xs_ups_start ys_ups_start xs_step ys_step : Int) (x : Int) : PxOut :=
  let xs_ups := sample_ups xs_ups_start xs_step x
  let ys_ups := sample_ups ys_ups_start ys_step x
  let xs_int := xs_ups / 256
  let ys_int := ys_ups / 256
  if out_of_image src_w src_h xs_int ys_int then
    ⟨none, some 0⟩
  else
    let src_tmp := ys_int * src_stride * LV_IMG_PX_SIZE_ALPHA_BYTE env.depth
      + xs_int * LV_IMG_PX_SIZE_ALPHA_BYTE env.depth
    ⟨some (read_color env.depth src src_tmp),
     some (byte src (src_tmp + (LV_IMG_PX_SIZE_ALPHA_BYTE env.depth - 1)))⟩

/-- The C function `argb_no_aa`; the 16-bit counter `x` never reaches an
`x_end` above 32767. -/
def argb_no_aa (env : Env) (src : Int → Int) (src_w src_h src_stride : Int)
    (xs_ups ys_ups xs_step ys_step x_end : Int) (off : Int) (bufs : Bufs) : Option Bufs :=
  if 32767 < x_end then none
  else
    some (row_loop (argb_no_aa_px env src src_w src_h src_stride xs_ups ys_ups xs_step ys_step)
      off x_end.toNat bufs)

/-- The direction `x_next` / `y_next` of the neighbour for an 8-bit
fraction. -/
def next_dir (fract : Int) : Int := if fract < 128 then -1 else 1

/-- The fraction after the remap `(0x7F - fract) * 2` or
`(fract - 0x80) * 2`. -/
def remap_fract (fract : Int) : Int :=
  if fract < 128 then (127 - fract) * 2 else (fract - 128) * 2

/-- The alpha `((a_n * fract) + (a_base * (0x100 - fract))) >> 8` stored
back into the `lv_opa_t` of the neighbour, computed only when the two alphas
differ. -/
def blend_opa (a_n a_base fract : Int) : Int :=
  if a_n ≠ a_base then (a_n * fract + a_base * (256 - fract)) / 256 % 256 else a_n

/-- The alpha of a sample whose neighbour is outside the image (lines
321-331). -/
def edge_opa (src_w src_h xs_int ys_int x_next y_next xs_fract ys_fract a : Int) : Int :=
  if (xs_int = 0 ∧ x_next < 0) ∨ (xs_int = src_w - 1 ∧ x_next > 0) then
    a * (255 - xs_fract) / 256 % 256
  else if (ys_int = 0 ∧ y_next < 0) ∨ (ys_int = src_h - 1 ∧ y_next > 0) then
    a * (255 - ys_fract) / 256 % 256
  else 0

/-- One iteration of the loop of `argb_and_rgb_aa`, at index `x`. -/
def argb_and_rgb_aa_px (env : Env) (src : Int → Int) (src_w src_h src_stride : Int)
    (xs_ups_start ys_ups_start xs_step ys_step : Int) (has_alpha : Bool) (x : Int) : PxOut :=
  let px_size := if has_alpha then LV_IMG_PX_SIZE_ALPHA_BYTE env.depth else color_size env.depth
  let alpha_byte := LV_IMG_PX_SIZE_ALPHA_BYTE env.depth - 1
  let xs_ups := sample_ups xs_ups_start xs_step x
  let ys_ups := sample_ups ys_ups_start ys_step x
  let xs_int := xs_ups / 256
  let ys_int := ys_ups / 256
  if out_of_image src_w src_h xs_int ys_int then
    ⟨none, some 0⟩
  else
    let x_next := next_dir (xs_ups % 256)
    let xs_fract := remap_fract (xs_ups % 256)
    let y_next := next_dir (ys_ups % 256)
    let ys_fract := remap_fract (ys_ups % 256)
    let src_tmp := ys_int * src_stride * px_size + xs_int * px_size
    if xs_int + x_next ≥ 0 ∧ xs_int + x_next ≤ src_w - 1 ∧
        ys_int + y_next ≥ 0 ∧ ys_int + y_next ≤ src_h - 1 then
      let px_base := src_tmp
      let px_hor := src_tmp + x_next * px_size
      let px_ver := src_tmp + y_next * src_stride * px_size
      let c_base := read_color env.depth src px_base
      let c_ver := read_color env.depth src px_ver
      let c_hor := read_color env.depth src px_hor
      let color :=
        if c_base = c_ver ∧ c_base = c_hor then c_base
        else
          env.lv_color_mix (env.lv_color_mix c_hor c_base xs_fract)
            (env.lv_color_mix c_ver c_base ys_fract) LV_OPA_50
      if has_alpha then
        let a_base := byte src (px_base + alpha_byte)
        let a_ver := blend_opa (byte src (px_ver + alpha_byte)) a_base ys_fract
        let a_hor := blend_opa (byte src (px_hor + alpha_byte)) a_base xs_fract
        let a := (a_ver + a_hor) / 2 % 256
        if a = 0 then ⟨none, some a⟩ else ⟨some color, some a⟩
      else
        ⟨some color, some 255⟩
    else
      let a := if has_alpha then byte src (src_tmp + alpha_byte) else 255
      ⟨some (read_color env.depth src src_tmp),
       some (edge_opa src_w src_h xs_int ys_int x_next y_next xs_fract ys_fract a)⟩

/-- The C function `argb_and_rgb_aa`; the 16-bit counter `x` never reaches
an `x_end` above 32767. -/
def argb_and_rgb_aa (env : Env) (src : Int → Int) (src_w src_h src_stride : Int)
    (xs_ups ys_ups xs_step ys_step x_end : Int) (off : Int) (bufs : Bufs)
    (has_alpha : Bool) : Option Bufs :=
  if 32767 < x_end then none
  else
    some (row_loop
      (argb_and_rgb_aa_px env src src_w src_h src_stride xs_ups ys_ups xs_step ys_step has_alpha)
      off x_end.toNat bufs)

/-! ## The driver -/

/-- Lines 77-95 of `lv_draw_sw_transform`: the descriptor `tr_dsc`.  The
division by `draw_dsc->zoom` does not return for a zero zoom. -/
def build_tr_dsc (env : Env) (draw_dsc : lv_draw_img_dsc_t) : Option point_transform_dsc_t :=
  if draw_dsc.zoom = 0 then none
  else
    let angle := wrap32 (-draw_dsc.angle)
    let zoom := Int.tdiv (256 * 256) draw_dsc.zoom
    let angle_low := Int.tdiv angle 10
    let angle_high := add32 angle_low 1
    let angle_rem := sub32 angle (mul32 angle_low 10)
    let s1 := env.lv_trigo_sin angle_low
    let s2 := env.lv_trigo_sin angle_high
    let c1 := env.lv_trigo_sin (add32 angle_low 90)
    let c2 := env.lv_trigo_sin (add32 angle_high 90)
    let sinma := Int.tdiv (add32 (mul32 s1 (sub32 10 angle_rem)) (mul32 s2 angle_rem)) 10
    let cosma := Int.tdiv (add32 (mul32 c1 (sub32 10 angle_rem)) (mul32 c2 angle_rem)) 10
    some
      { sinma := sinma / 2 ^ (env.LV_TRIGO_SHIFT - 10)
        cosma := cosma / 2 ^ (env.LV_TRIGO_SHIFT - 10)
        zoom := zoom
        angle := angle
        pivot := draw_dsc.pivot }

/-- The start coordinate and the per-pixel step a row hands to its sampler. -/
structure RowArgs where
  xs_ups : Int
  ys_ups : Int
  xs_step_256 : Int
  ys_step_256 : Int

/-- Lines 102-116 of `lv_draw_sw_transform`: the transform of the two end
points of row `y`, the step between them and the start coordinate; the
values the row computes when none of its divisions has a zero divisor (see
`row_args_checked`, which the driver runs). -/
def row_args (tr_dsc : point_transform_dsc_t) (dest_area : lv_area_t) (dest_w : Int)
    (y : Int) : RowArgs :=
  let p1 := transform_point_upscaled tr_dsc dest_area.x1 (dest_area.y1 + y)
  let p2 := transform_point_upscaled tr_dsc dest_area.x2 (dest_area.y1 + y)
  let xs_diff := sub32 p2.1 p1.1
  let ys_diff := sub32 p2.2 p1.2
  let xs_step_256 := if dest_w > 1 then Int.tdiv (mul32 256 xs_diff) (dest_w - 1) else 0
  let ys_step_256 := if dest_w > 1 then Int.tdiv (mul32 256 ys_diff) (dest_w - 1) else 0
  let xs_ups := add32 p1.1 (Int.tdiv (Int.tdiv (mul32 1 xs_step_256) 2) 256)
  let ys_ups := add32 p1.2 (Int.tdiv (Int.tdiv (mul32 1 ys_step_256) 2) 256)
  ⟨xs_ups, ys_ups, xs_step_256, ys_step_256⟩

/-- The C division `a / b` as it is executed: it does not return for a zero
divisor. -/
def div_checked (a b : Int) : Option Int := if b = 0 then none else some (Int.tdiv a b)

/-- Lines 102-116 of `lv_draw_sw_transform` as they are executed, every
division through `div_checked`: the two steps (divided by `dest_w - 1` only
under `dest_w > 1`, and 0 otherwise), then the two start coordinates (the
step divided by 2 and by 256). -/
def row_args_checked (tr_dsc : point_transform_dsc_t) (dest_area : lv_area_t) (dest_w : Int)
    (y : Int) : Option RowArgs :=
  let p1 := transform_point_upscaled tr_dsc dest_area.x1 (dest_area.y1 + y)
  let p2 := transform_point_upscaled tr_dsc dest_area.x2 (dest_area.y1 + y)
  let xs_diff := sub32 p2.1 p1.1
  let ys_diff := sub32 p2.2 p1.2
  (if dest_w > 1 then div_checked (mul32 256 xs_diff) (dest_w - 1) else some 0).bind
    fun xs_step_256 =>
  (if dest_w > 1 then div_checked (mul32 256 ys_diff) (dest_w - 1) else some 0).bind
    fun ys_step_256 =>
  (div_checked (mul32 1 xs_step_256) 2).bind fun xs_half =>
  (div_checked xs_half 256).bind fun xs_centre =>
  (div_checked (mul32 1 ys_step_256) 2).bind fun ys_half =>
  (div_checked ys_half 256).bind fun ys_centre =>
  some ⟨add32 p1.1 xs_centre, add32 p1.2 ys_centre, xs_step_256, ys_step_256⟩

/-- The body of the loop over the rows of `lv_draw_sw_transform` (lines
102-129) for row `y`, with `cbuf` and `abuf` at offset `off`. -/
def transform_row (env : Env) (tr_dsc : point_transform_dsc_t) (dest_area : lv_area_t)
    (src_buf : Int → Int) (src_w src_h src_stride : Int) (draw_dsc : lv_draw_img_dsc_t)
    (cf : lv_img_cf_t) (dest_w : Int) (y : Int) (off : Int) (bufs : Bufs) : Option Bufs :=
  match row_args_checked tr_dsc dest_area dest_w y with
  | none => none
  | some a =>
    if draw_dsc.antialias = false then
      if cf = lv_img_cf_t.LV_IMG_CF_TRUE_COLOR_ALPHA then
        argb_no_aa env src_buf src_w src_h src_stride a.xs_ups a.ys_ups a.xs_step_256
          a.ys_step_256 dest_w off bufs
      else
        rgb_no_aa env src_buf src_w src_h src_stride a.xs_ups a.ys_ups a.xs_step_256
          a.ys_step_256 dest_w off bufs
    else
      argb_and_rgb_aa env src_buf src_w src_h src_stride a.xs_ups a.ys_ups a.xs_step_256
        a.ys_step_256 dest_w off bufs (lv_img_cf_has_alpha cf)

/-- The loop `for(y = 0; y < dest_h; y++)` with the pointer advance
`cbuf += dest_w; abuf += dest_w` after each row; the state is the offset of
the two pointers and the buffers. -/
def rows_loop (row : Int → Int → Bufs → Option Bufs) (dest_w : Int) :
    Nat → Int × Bufs → Option (Int × Bufs)
  | 0, s => some s
  | n + 1, s =>
    match rows_loop row dest_w n s with
    | none => none
    | some (off, b) =>
      match row n off b with
      | none => none
      | some b2 => some (off + dest_w, b2)

/-- The C function `lv_draw_sw_transform` (the unused `draw_ctx` is left
out); the result is the contents of the two buffers after the call. -/
def lv_draw_sw_transform (env : Env) (dest_area : lv_area_t) (src_buf : Int → Int)
    (src_w src_h src_stride : Int) (draw_dsc : lv_draw_img_dsc_t) (cf : lv_img_cf_t)
    (bufs : Bufs) : Option Bufs :=
  match build_tr_dsc env draw_dsc with
  | none => none
  | some tr_dsc =>
    let dest_w := lv_area_get_width dest_area
    let dest_h := lv_area_get_height dest_area
    (rows_loop
      (transform_row env tr_dsc dest_area src_buf src_w src_h src_stride draw_dsc cf dest_w)
      dest_w dest_h.toNat (0, bufs)).map Prod.snd

/-! ## The images of the scenarios -/

/-- A byte buffer given by the list of its bytes (0 outside the list). -/
def buf_of (l : List Int) : Int → Int := fun p => if p < 0 then 0 else l.getD p.toNat 0

/-- The image of scenarios A and B at colour depth 32, 2 x 2 pixels of 4
bytes (blue, green, red, alpha): red at alpha 255, green at 255, blue at 128, white at 0. -/
def scenario_src : Int → Int :=
  buf_of [0, 0, 255, 255, 0, 255, 0, 255, 255, 0, 0, 128, 255, 255, 255, 0]

/-- An environment at colour depth 32 with a zero sine source and a colour
mix that returns its second colour. -/
def scenario_env : Env := ⟨ColorDepth.d32, fun _ => 0, 15, fun _ c2 _ => c2⟩

/-- Output buffers holding 7 in every cell. -/
def scenario_bufs : Bufs := ⟨fun _ => 7, fun _ => 7⟩

/-- An environment at colour depth 16 whose sine source has period 360 and
whose colour mix returns its second colour. -/
def periodic_env : Env := ⟨ColorDepth.d16, fun d => (d % 360) * 91, 15, fun _ c2 _ => c2⟩

/-- A draw descriptor with pivot (0, 0). -/
def draw_dsc_of (angle zoom : Int) (antialias : Bool) : lv_draw_img_dsc_t :=
  ⟨angle, zoom, ⟨0, 0⟩, antialias⟩

/-- The iteration of the sampler that a row of `lv_draw_sw_transform`
dispatches to. -/
def row_px (env : Env) (src : Int → Int) (src_w src_h src_stride : Int)
    (draw_dsc : lv_draw_img_dsc_t) (cf : lv_img_cf_t) (a : RowArgs) (x : Int) : PxOut :=
  if draw_dsc.antialias = false then
    if cf = lv_img_cf_t.LV_IMG_CF_TRUE_COLOR_ALPHA then
      argb_no_aa_px env src src_w src_h src_stride a.xs_ups a.ys_ups a.xs_step_256
        a.ys_step_256 x
    else
      rgb_no_aa_px env src src_w src_h src_stride a.xs_ups a.ys_ups a.xs_step_256
        a.ys_step_256 x
  else
    argb_and_rgb_aa_px env src src_w src_h src_stride a.xs_ups a.ys_ups a.xs_step_256
      a.ys_step_256 (lv_img_cf_has_alpha cf) x

/-! ## Statement vocabulary -/

/-- The byte offset `row * stride + col * pixel_size` of source pixel
`(col, row)`, with the stride counted in pixels as in the code. -/
def px_offset (px_size src_stride col row : Int) : Int :=
  row * src_stride * px_size + col * px_size

/-- The colour stored for source pixel `(col, row)` of an image without
alpha channel. -/
def rgb_color (d : ColorDepth) (src : Int → Int) (src_stride col row : Int) : Int :=
  read_color d src (px_offset (color_size d) src_stride col row)

/-- The colour stored for source pixel `(col, row)` of an image with alpha
channel. -/
def argb_color (d : ColorDepth) (src : Int → Int) (src_stride col row : Int) : Int :=
  read_color d src (px_offset (LV_IMG_PX_SIZE_ALPHA_BYTE d) src_stride col row)

/-- The alpha byte stored for source pixel `(col, row)` of an image with
alpha channel. -/
def argb_alpha (d : ColorDepth) (src : Int → Int) (src_stride col row : Int) : Int :=
  byte src (px_offset (LV_IMG_PX_SIZE_ALPHA_BYTE d) src_stride col row
    + (LV_IMG_PX_SIZE_ALPHA_BYTE d - 1))

/-- The size in bytes of a source pixel, with or without alpha channel. -/
def src_px_size (d : ColorDepth) (has_alpha : Bool) : Int :=
  if has_alpha then LV_IMG_PX_SIZE_ALPHA_BYTE d else color_size d

/-- The colour stored for source pixel `(col, row)`, with or without alpha
channel. -/
def src_color (d : ColorDepth) (has_alpha : Bool) (src : Int → Int)
    (src_stride col row : Int) : Int :=
  read_color d src (px_offset (src_px_size d has_alpha) src_stride col row)

/-- The alpha of source pixel `(col, row)`: its alpha byte, or `0xFF` for an
image without alpha channel. -/
def src_alpha (d : ColorDepth) (has_alpha : Bool) (src : Int → Int)
    (src_stride col row : Int) : Int :=
  if has_alpha then
    byte src (px_offset (src_px_size d has_alpha) src_stride col row
      + (LV_IMG_PX_SIZE_ALPHA_BYTE d - 1))
  else 255

/-- Source pixel `(col, row)` and its four neighbours hold the same colour
and the same alpha. -/
def flat_at (d : ColorDepth) (has_alpha : Bool) (src : Int → Int)
    (src_stride col row : Int) : Prop :=
  ∀ dx dy : Int, (dx = 0 ∧ (dy = 1 ∨ dy = -1)) ∨ (dy = 0 ∧ (dx = 1 ∨ dx = -1)) →
    src_color d has_alpha src src_stride (col + dx) (row + dy)
      = src_color d has_alpha src src_stride col row ∧
    src_alpha d has_alpha src src_stride (col + dx) (row + dy)
      = src_alpha d has_alpha src src_stride col row

/-- A 3 x 3 image with alpha channel at colour depth 32 whose nine pixels
all hold the bytes 10, 20, 30 and the alpha 200. -/
def flat_src : Int → Int := fun p => if p % 4 = 0 then 10 else if p % 4 = 1 then 20
  else if p % 4 = 2 then 30 else 200

/-- An environment at colour depth 8 whose colour mix is the linear
interpolation `(c1 * mix + c2 * (255 - mix)) / 255`. -/
def lerp_env : Env :=
  ⟨ColorDepth.d8, fun _ => 0, 15, fun c1 c2 mix => (c1 * mix + c2 * (255 - mix)) / 255⟩

/-- A 2 x 2 image with alpha channel at colour depth 8 (colour byte, alpha
byte): colour 0 at pixel (0, 0), colour 255 elsewhere, alpha 255
everywhere. -/
def mix_src : Int → Int := buf_of [0, 255, 255, 255, 255, 255, 255, 255]

/-- Line 82 of `lv_draw_sw_transform`: `angle_low = tr_dsc.angle / 10`. -/
def angle_low (angle : Int) : Int := Int.tdiv angle 10

/-- Line 84 of `lv_draw_sw_transform`:
`angle_rem = tr_dsc.angle - (angle_low * 10)`. -/
def angle_rem (angle : Int) : Int := sub32 angle (mul32 (angle_low angle) 10)

/-- Lines 340-341 of `transform_point_upscaled`: the identity fast path. -/
def tp_identity (xin yin : Int) : Int × Int := (shl8 xin, shl8 yin)

/-- Lines 345-350 of `transform_point_upscaled`: the zoom-only formula. -/
def tp_zoom (t : point_transform_dsc_t) (xin yin : Int) : Int × Int :=
  let xin := sub32 xin t.pivot.x
  let yin := sub32 yin t.pivot.y
  (add32 (mul32 xin t.zoom) (shl8 t.pivot.x), add32 (mul32 yin t.zoom) (shl8 t.pivot.y))

/-- Lines 345-346 and 353-354 of `transform_point_upscaled`: the
rotation-only formula, with the shift by 2. -/
def tp_rotate (t : point_transform_dsc_t) (xin yin : Int) : Int × Int :=
  let xin := sub32 xin t.pivot.x
  let yin := sub32 yin t.pivot.y
  (add32 (sub32 (mul32 t.cosma xin) (mul32 t.sinma yin) / 4) (shl8 t.pivot.x),
   add32 (add32 (mul32 t.sinma xin) (mul32 t.cosma yin) / 4) (shl8 t.pivot.y))

/-- Lines 345-346 and 357-358 of `transform_point_upscaled`: the combined
rotation and zoom formula, with the shift by 10. -/
def tp_rotate_zoom (t : point_transform_dsc_t) (xin yin : Int) : Int × Int :=
  let xin := sub32 xin t.pivot.x
  let yin := sub32 yin t.pivot.y
  (add32 (mul32 (sub32 (mul32 t.cosma xin) (mul32 t.sinma yin)) t.zoom / 1024)
     (shl8 t.pivot.x),
   add32 (mul32 (add32 (mul32 t.sinma xin) (mul32 t.cosma yin)) t.zoom / 1024)
     (shl8 t.pivot.y))

/-- Output buffers holding 8 in every cell. -/
def scenario_bufs2 : Bufs := ⟨fun _ => 8, fun _ => 8⟩

/-- Both directional neighbours of the sample `(xs, ys)` are inside the
image (the test of lines 257-260). -/
def neighbours_inside (src_w src_h xs ys : Int) : Prop :=
  xs / 256 + next_dir (xs % 256) ≥ 0 ∧ xs / 256 + next_dir (xs % 256) ≤ src_w - 1 ∧
  ys / 256 + next_dir (ys % 256) ≥ 0 ∧ ys / 256 + next_dir (ys % 256) ≤ src_h - 1

/-- Two runs of a sampler from the buffers `b1` and `b2`, with the results
`r1` and `r2`, agree on the row up to the cells `skip`: every cell `x` of
`[0, x_end)` has the same alpha in both runs; a cell outside `skip` has the
same colour in both runs, and a cell of `skip` keeps the colour it had
before the run; the cells from `x_end` on keep their contents. -/
def rows_agree (off x_end : Int) (skip : Int → Prop) (b1 b2 r1 r2 : Bufs) : Prop :=
  (∀ x, 0 ≤ x → x < x_end →
    r1.abuf (off + x) = r2.abuf (off + x) ∧
    (¬ skip x → r1.cbuf (off + x) = r2.cbuf (off + x)) ∧
    (skip x → r1.cbuf (off + x) = b1.cbuf (off + x) ∧ r2.cbuf (off + x) = b2.cbuf (off + x))) ∧
  (∀ i, x_end ≤ i →
    r1.cbuf (off + i) = b1.cbuf (off + i) ∧ r1.abuf (off + i) = b1.abuf (off + i) ∧
    r2.cbuf (off + i) = b2.cbuf (off + i) ∧ r2.abuf (off + i) = b2.abuf (off + i))

/-! ## Machine integers: basic facts -/

theorem wrap32_of_range {z : Int} (h1 : -2147483648 ≤ z) (h2 : z ≤ 2147483647) :
    wrap32 z = z := by
  unfold wrap32; omega

theorem wrap32_range (z : Int) : -2147483648 ≤ wrap32 z ∧ wrap32 z ≤ 2147483647 := by
  unfold wrap32; omega

theorem wrap16_of_range {z : Int} (h1 : -32768 ≤ z) (h2 : z ≤ 32767) : wrap16 z = z := by
  unfold wrap16; omega

theorem wrap16_range (z : Int) : -32768 ≤ wrap16 z ∧ wrap16 z ≤ 32767 := by
  unfold wrap16; omega

theorem byte_range (src : Int → Int) (p : Int) : 0 ≤ byte src p ∧ byte src p ≤ 255 := by
  unfold byte; omega

/-! ## The sampler loop -/

theorem store_eq (buf : Int → Int) (i : Int) (v : Option Int) (j : Int) :
    store buf i v j = if j = i then v.getD (buf j) else buf j := by
  cases v with
  | none => simp [store]
  | some c => simp [store]

theorem row_loop_abuf (px : Int → PxOut) (off : Int) (n : Nat) (b : Bufs) (i : Int) :
    (row_loop px off n b).abuf i =
      if off ≤ i ∧ i < off + n then ((px (i - off)).alpha).getD (b.abuf i) else b.abuf i := by
  induction n with
  | zero =>
    show b.abuf i = _
    rw [if_neg (by omega)]
  | succ n ih =>
    show store (row_loop px off n b).abuf (off + n) (px n).alpha i = _
    rw [store_eq, ih]
    by_cases hi : i = off + n
    · have h3 : i - off = n := by omega
      rw [if_pos hi, if_neg (by omega), if_pos (by omega), h3]
    · rw [if_neg hi]
      by_cases h : off ≤ i ∧ i < off + n
      · rw [if_pos h, if_pos (by omega)]
      · rw [if_neg h, if_neg (by omega)]

theorem row_loop_cbuf (px : Int → PxOut) (off : Int) (n : Nat) (b : Bufs) (i : Int) :
    (row_loop px off n b).cbuf i =
      if off ≤ i ∧ i < off + n then ((px (i - off)).color).getD (b.cbuf i) else b.cbuf i := by
  induction n with
  | zero =>
    show b.cbuf i = _
    rw [if_neg (by omega)]
  | succ n ih =>
    show store (row_loop px off n b).cbuf (off + n) (px n).color i = _
    rw [store_eq, ih]
    by_cases hi : i = off + n
    · have h3 : i - off = n := by omega
      rw [if_pos hi, if_neg (by omega), if_pos (by omega), h3]
    · rw [if_neg hi]
      by_cases h : off ≤ i ∧ i < off + n
      · rw [if_pos h, if_pos (by omega)]
      · rw [if_neg h, if_neg (by omega)]

/-- The alpha cell of index `x` after a sampler loop of `x_end` iterations. -/
theorem row_loop_abuf_at (px : Int → PxOut) (off x_end x : Int) (b : Bufs)
    (hx0 : 0 ≤ x) (hx : x < x_end) :
    (row_loop px off x_end.toNat b).abuf (off + x) = ((px x).alpha).getD (b.abuf (off + x)) := by
  have h1 : off ≤ off + x ∧ off + x < off + (x_end.toNat : Int) := by
    constructor <;> omega
  have h2 : off + x - off = x := by omega
  rw [row_loop_abuf, if_pos h1, h2]

/-- The colour cell of index `x` after a sampler loop of `x_end` iterations. -/
theorem row_loop_cbuf_at (px : Int → PxOut) (off x_end x : Int) (b : Bufs)
    (hx0 : 0 ≤ x) (hx : x < x_end) :
    (row_loop px off x_end.toNat b).cbuf (off + x) = ((px x).color).getD (b.cbuf (off + x)) := by
  have h1 : off ≤ off + x ∧ off + x < off + (x_end.toNat : Int) := by
    constructor <;> omega
  have h2 : off + x - off = x := by omega
  rw [row_loop_cbuf, if_pos h1, h2]

/-! ## The samplers: single cells -/

theorem rgb_no_aa_some (env : Env) (src : Int → Int)
    (src_w src_h src_stride xs_ups ys_ups xs_step ys_step x_end off : Int) (bufs : Bufs)
    (h0 : 0 ≤ x_end) (hend : x_end ≤ 32767) :
    rgb_no_aa env src src_w src_h src_stride xs_ups ys_ups xs_step ys_step x_end off bufs =
      some (row_loop (rgb_no_aa_px env src src_w src_h src_stride xs_ups ys_ups xs_step ys_step)
        off x_end.toNat ⟨bufs.cbuf, lv_memset_ff bufs.abuf off x_end.toNat⟩) := by
  unfold rgb_no_aa
  rw [if_neg (by omega)]

theorem argb_no_aa_some (env : Env) (src : Int → Int)
    (src_w src_h src_stride xs_ups ys_ups xs_step ys_step x_end off : Int) (bufs : Bufs)
    (hend : x_end ≤ 32767) :
    argb_no_aa env src src_w src_h src_stride xs_ups ys_ups xs_step ys_step x_end off bufs =
      some (row_loop (argb_no_aa_px env src src_w src_h src_stride xs_ups ys_ups xs_step ys_step)
        off x_end.toNat bufs) := by
  unfold argb_no_aa
  rw [if_neg (by omega)]

theorem argb_and_rgb_aa_some (env : Env) (src : Int → Int)
    (src_w src_h src_stride xs_ups ys_ups xs_step ys_step x_end off : Int) (bufs : Bufs)
    (has_alpha : Bool) (hend : x_end ≤ 32767) :
    argb_and_rgb_aa env src src_w src_h src_stride xs_ups ys_ups xs_step ys_step x_end off bufs
        has_alpha =
      some (row_loop
        (argb_and_rgb_aa_px env src src_w src_h src_stride xs_ups ys_ups xs_step ys_step has_alpha)
        off x_end.toNat bufs) := by
  unfold argb_and_rgb_aa
  rw [if_neg (by omega)]

theorem lv_memset_ff_at (buf : Int → Int) (off x_end x : Int) (hx0 : 0 ≤ x) (hx : x < x_end) :
    lv_memset_ff buf off x_end.toNat (off + x) = 255 := by
  unfold lv_memset_ff
  rw [if_pos (by omega)]

/-- C3: in each of the three samplers, an index `x` of the row whose sample
has its integer part outside `[0, src_w) x [0, src_h)` gets alpha 0 (the
call returns because `x_end` is within the range of the 16-bit counter). -/
theorem out_of_bounds_transparency (env : Env) (src : Int → Int)
    (src_w src_h src_stride xs_ups ys_ups xs_step ys_step x_end off : Int) (bufs : Bufs)
    (has_alpha : Bool) (x xs_int ys_int : Int)
    (hx0 : 0 ≤ x) (hx : x < x_end) (hend : x_end ≤ 32767)
    (hxs : xs_int = sample_ups xs_ups xs_step x / 256)
    (hys : ys_int = sample_ups ys_ups ys_step x / 256)
    (hout : xs_int < 0 ∨ xs_int ≥ src_w ∨ ys_int < 0 ∨ ys_int ≥ src_h) :
    (∃ r, rgb_no_aa env src src_w src_h src_stride xs_ups ys_ups xs_step ys_step x_end off bufs
        = some r ∧ r.abuf (off + x) = 0) ∧
    (∃ r, argb_no_aa env src src_w src_h src_stride xs_ups ys_ups xs_step ys_step x_end off bufs
        = some r ∧ r.abuf (off + x) = 0) ∧
    (∃ r, argb_and_rgb_aa env src src_w src_h src_stride xs_ups ys_ups xs_step ys_step x_end off
        bufs has_alpha = some r ∧ r.abuf (off + x) = 0) := by
  subst hxs hys
  have ho : out_of_image src_w src_h (sample_ups xs_ups xs_step x / 256)
      (sample_ups ys_ups ys_step x / 256) := hout
  refine ⟨⟨_, rgb_no_aa_some env src src_w src_h src_stride xs_ups ys_ups xs_step ys_step x_end
      off bufs (by omega) hend, ?_⟩,
    ⟨_, argb_no_aa_some env src src_w src_h src_stride xs_ups ys_ups xs_step ys_step x_end
      off bufs hend, ?_⟩,
    ⟨_, argb_and_rgb_aa_some env src src_w src_h src_stride xs_ups ys_ups xs_step ys_step x_end
      off bufs has_alpha hend, ?_⟩⟩
  · rw [row_loop_abuf_at _ _ _ _ _ hx0 hx]
    simp only [rgb_no_aa_px, if_pos ho, Option.getD_some]
  · rw [row_loop_abuf_at _ _ _ _ _ hx0 hx]
    simp only [argb_no_aa_px, if_pos ho, Option.getD_some]
  · rw [row_loop_abuf_at _ _ _ _ _ hx0 hx]
    simp only [argb_and_rgb_aa_px, if_pos ho, Option.getD_some]

/-- Witness of C3: index 1 of a two-cell row over the 2 x 2 scenario image,
sampled at column 5. -/
theorem out_of_bounds_transparency_witness :
    (∃ r, rgb_no_aa scenario_env scenario_src 2 2 2 1024 0 65536 0 2 0 scenario_bufs
        = some r ∧ r.abuf (0 + 1) = 0) ∧
    (∃ r, argb_no_aa scenario_env scenario_src 2 2 2 1024 0 65536 0 2 0 scenario_bufs
        = some r ∧ r.abuf (0 + 1) = 0) ∧
    (∃ r, argb_and_rgb_aa scenario_env scenario_src 2 2 2 1024 0 65536 0 2 0
        scenario_bufs true = some r ∧ r.abuf (0 + 1) = 0) :=
  out_of_bounds_transparency scenario_env scenario_src 2 2 2 1024 0 65536 0 2 0 scenario_bufs
    true 1 5 0 (by decide) (by decide) (by decide) (by decide) (by decide) (by decide)

/-- C4: without antialiasing, an index `x` of the row whose sample has the
integer part `(xs_int, ys_int)` inside the image gets the colour stored for
source pixel `(xs_int, ys_int)`, and as alpha that pixel's alpha byte
(`argb_no_aa`) or `0xFF` (`rgb_no_aa`); `rgb_no_aa` leaves alpha `0xFF` for
exactly the in-bounds samples and 0 for the others. -/
theorem nearest_neighbour_sampling (env : Env) (src : Int → Int)
    (src_w src_h src_stride xs_ups ys_ups xs_step ys_step x_end off : Int) (bufs : Bufs)
    (x xs_int ys_int : Int)
    (hx0 : 0 ≤ x) (hx : x < x_end) (hend : x_end ≤ 32767)
    (hxs : xs_int = sample_ups xs_ups xs_step x / 256)
    (hys : ys_int = sample_ups ys_ups ys_step x / 256) :
    (∃ r, rgb_no_aa env src src_w src_h src_stride xs_ups ys_ups xs_step ys_step x_end off bufs
        = some r ∧
      ((0 ≤ xs_int ∧ xs_int < src_w ∧ 0 ≤ ys_int ∧ ys_int < src_h) →
        r.cbuf (off + x) = rgb_color env.depth src src_stride xs_int ys_int) ∧
      r.abuf (off + x) =
        if 0 ≤ xs_int ∧ xs_int < src_w ∧ 0 ≤ ys_int ∧ ys_int < src_h then 255 else 0) ∧
    (∃ r, argb_no_aa env src src_w src_h src_stride xs_ups ys_ups xs_step ys_step x_end off bufs
        = some r ∧
      ((0 ≤ xs_int ∧ xs_int < src_w ∧ 0 ≤ ys_int ∧ ys_int < src_h) →
        r.cbuf (off + x) = argb_color env.depth src src_stride xs_int ys_int ∧
        r.abuf (off + x) = argb_alpha env.depth src src_stride xs_int ys_int)) := by
  subst hxs hys
  refine ⟨⟨_, rgb_no_aa_some env src src_w src_h src_stride xs_ups ys_ups xs_step ys_step x_end
      off bufs (by omega) hend, ?_, ?_⟩,
    ⟨_, argb_no_aa_some env src src_w src_h src_stride xs_ups ys_ups xs_step ys_step x_end
      off bufs hend, ?_⟩⟩
  · intro hin
    have ho : ¬ out_of_image src_w src_h (sample_ups xs_ups xs_step x / 256)
        (sample_ups ys_ups ys_step x / 256) := by unfold out_of_image; omega
    rw [row_loop_cbuf_at _ _ _ _ _ hx0 hx]
    simp only [rgb_no_aa_px, if_neg ho, Option.getD_some, rgb_color, px_offset]
  · rw [row_loop_abuf_at _ _ _ _ _ hx0 hx]
    by_cases hin : 0 ≤ sample_ups xs_ups xs_step x / 256 ∧ sample_ups xs_ups xs_step x / 256 < src_w
        ∧ 0 ≤ sample_ups ys_ups ys_step x / 256 ∧ sample_ups ys_ups ys_step x / 256 < src_h
    · have ho : ¬ out_of_image src_w src_h (sample_ups xs_ups xs_step x / 256)
          (sample_ups ys_ups ys_step x / 256) := by unfold out_of_image; omega
      rw [if_pos hin]
      simp only [rgb_no_aa_px, if_neg ho, Option.getD_none]
      exact lv_memset_ff_at _ _ _ _ hx0 hx
    · have ho : out_of_image src_w src_h (sample_ups xs_ups xs_step x / 256)
          (sample_ups ys_ups ys_step x / 256) := by unfold out_of_image; omega
      rw [if_neg hin]
      simp only [rgb_no_aa_px, if_pos ho, Option.getD_some]
  · intro hin
    have ho : ¬ out_of_image src_w src_h (sample_ups xs_ups xs_step x / 256)
        (sample_ups ys_ups ys_step x / 256) := by unfold out_of_image; omega
    rw [row_loop_cbuf_at _ _ _ _ _ hx0 hx, row_loop_abuf_at _ _ _ _ _ hx0 hx]
    simp only [argb_no_aa_px, if_neg ho, Option.getD_some, argb_color, argb_alpha, px_offset,
      and_self]

/-- Witness of C4: index 1 of a two-cell row over the 2 x 2 scenario image,
sampled at source pixel (1, 0). -/
theorem nearest_neighbour_sampling_witness :
    (∃ r, rgb_no_aa scenario_env scenario_src 2 2 2 128 0 65536 0 2 0 scenario_bufs = some r ∧
      ((0 ≤ (1 : Int) ∧ (1 : Int) < 2 ∧ 0 ≤ (0 : Int) ∧ (0 : Int) < 2) →
        r.cbuf (0 + 1) = rgb_color scenario_env.depth scenario_src 2 1 0) ∧
      r.abuf (0 + 1) =
        if 0 ≤ (1 : Int) ∧ (1 : Int) < 2 ∧ 0 ≤ (0 : Int) ∧ (0 : Int) < 2 then 255 else 0) ∧
    (∃ r, argb_no_aa scenario_env scenario_src 2 2 2 128 0 65536 0 2 0 scenario_bufs = some r ∧
      ((0 ≤ (1 : Int) ∧ (1 : Int) < 2 ∧ 0 ≤ (0 : Int) ∧ (0 : Int) < 2) →
        r.cbuf (0 + 1) = argb_color scenario_env.depth scenario_src 2 1 0 ∧
        r.abuf (0 + 1) = argb_alpha scenario_env.depth scenario_src 2 1 0)) :=
  nearest_neighbour_sampling scenario_env scenario_src 2 2 2 128 0 65536 0 2 0 scenario_bufs
    1 1 0 (by decide) (by decide) (by decide) (by decide) (by decide)

/-! ## The point transform and the descriptor -/

theorem shl8_coord {p : Int} (h : is_coord p) : shl8 p = 256 * p := by
  unfold is_coord at h
  unfold shl8 wrap32; omega

/-- C8: the pivot is a fixed point of `transform_point_upscaled`: for every
descriptor whose pivot has `lv_coord_t` coordinates, the transform of the
pivot is `(256 * pivot.x, 256 * pivot.y)`, whatever the angle, the inverse
zoom and the sine and cosine coefficients are. -/
theorem pivot_fixed_point (t : point_transform_dsc_t)
    (hx : is_coord t.pivot.x) (hy : is_coord t.pivot.y) :
    transform_point_upscaled t t.pivot.x t.pivot.y = (256 * t.pivot.x, 256 * t.pivot.y) := by
  have e0 : wrap32 0 = 0 := by decide
  have ex := shl8_coord hx
  have ey := shl8_coord hy
  have rx : wrap32 (256 * t.pivot.x) = 256 * t.pivot.x := by
    unfold is_coord at hx
    exact wrap32_of_range (by omega) (by omega)
  have ry : wrap32 (256 * t.pivot.y) = 256 * t.pivot.y := by
    unfold is_coord at hy
    exact wrap32_of_range (by omega) (by omega)
  unfold transform_point_upscaled
  split
  · rw [ex, ey]
  · simp only [sub32, mul32, add32, sub_self, e0, zero_mul, mul_zero, zero_add, add_zero,
      Int.zero_ediv, ex, ey, rx, ry, ite_self]

/-- Witness of C8: a rotating and zooming descriptor with pivot (5, -7). -/
theorem pivot_fixed_point_witness :
    transform_point_upscaled ⟨300, 900, 128, -450, ⟨5, -7⟩⟩ 5 (-7) = (256 * 5, 256 * (-7)) :=
  pivot_fixed_point ⟨300, 900, 128, -450, ⟨5, -7⟩⟩ (by decide) (by decide)

/-- C9: for a zoom in `1..65535` the descriptor is built, its inverse zoom
is `65536 / zoom` (integer division) and it is at least 1. -/
theorem inverse_zoom_invariant (env : Env) (draw_dsc : lv_draw_img_dsc_t)
    (h1 : 1 ≤ draw_dsc.zoom) (h2 : draw_dsc.zoom ≤ 65535) :
    ∃ t, build_tr_dsc env draw_dsc = some t ∧ t.zoom = 65536 / draw_dsc.zoom ∧ 1 ≤ t.zoom := by
  have hz : draw_dsc.zoom ≠ 0 := by omega
  have e : Int.tdiv (256 * 256) draw_dsc.zoom = 65536 / draw_dsc.zoom := by
    rw [Int.tdiv_eq_ediv (by norm_num) (by omega)]
    norm_num
  have hpos : 1 ≤ (65536 : Int) / draw_dsc.zoom :=
    Int.le_ediv_of_mul_le (by omega) (by omega)
  unfold build_tr_dsc
  rw [if_neg hz]
  exact ⟨_, rfl, e, by rw [e]; exact hpos⟩

/-- Witness of C9: zoom 512 gives the inverse zoom 128. -/
theorem inverse_zoom_invariant_witness :
    ∃ t, build_tr_dsc scenario_env (draw_dsc_of 0 512 false) = some t ∧
      t.zoom = 65536 / (draw_dsc_of 0 512 false).zoom ∧ 1 ≤ t.zoom :=
  inverse_zoom_invariant scenario_env (draw_dsc_of 0 512 false) (by decide) (by decide)

/-- C10: with a sine source of period 360 degrees, the sine and cosine
coefficients built for the draw angle 3600 differ from the ones built for
the draw angle 0 by at most 2 units each (the zoom is not zero, so both
descriptors are built). -/
theorem full_turn_consistency (env : Env) (d0 d1 : lv_draw_img_dsc_t)
    (hper : ∀ d k : Int, env.lv_trigo_sin (d + 360 * k) = env.lv_trigo_sin d)
    (ha0 : d0.angle = 0) (ha1 : d1.angle = 3600) (hz0 : d0.zoom ≠ 0) (hz1 : d1.zoom ≠ 0) :
    ∃ t0 t1, build_tr_dsc env d0 = some t0 ∧ build_tr_dsc env d1 = some t1 ∧
      |t1.sinma - t0.sinma| ≤ 2 ∧ |t1.cosma - t0.cosma| ≤ 2 := by
  have p0 : env.lv_trigo_sin (-360) = env.lv_trigo_sin 0 := by
    have := hper 0 (-1); norm_num at this; exact this
  have p1 : env.lv_trigo_sin (-359) = env.lv_trigo_sin 1 := by
    have := hper 1 (-1); norm_num at this; exact this
  have p2 : env.lv_trigo_sin (-270) = env.lv_trigo_sin 90 := by
    have := hper 90 (-1); norm_num at this; exact this
  have p3 : env.lv_trigo_sin (-269) = env.lv_trigo_sin 91 := by
    have := hper 91 (-1); norm_num at this; exact this
  have k1 : wrap32 (-3600) = -3600 := by decide
  have k2 : Int.tdiv (-3600) 10 = -360 := by decide
  have k3 : add32 (-360) 1 = -359 := by decide
  have k4 : sub32 (-3600) (mul32 (-360) 10) = 0 := by decide
  have k5 : add32 (-360) 90 = -270 := by decide
  have k6 : add32 (-359) 90 = -269 := by decide
  have j1 : wrap32 (-0) = 0 := by decide
  have j2 : Int.tdiv 0 10 = 0 := by decide
  have j3 : add32 0 1 = 1 := by decide
  have j4 : sub32 0 (mul32 0 10) = 0 := by decide
  have j5 : add32 0 90 = 90 := by decide
  have j6 : add32 1 90 = 91 := by decide
  unfold build_tr_dsc
  rw [if_neg hz0, if_neg hz1]
  refine ⟨_, _, rfl, rfl, ?_, ?_⟩
  · simp only [ha0, ha1, k1, k2, k3, k4, k5, k6, j1, j2, j3, j4, j5, j6, p0, p1, p2, p3,
      sub_self, abs_zero]
    norm_num
  · simp only [ha0, ha1, k1, k2, k3, k4, k5, k6, j1, j2, j3, j4, j5, j6, p0, p1, p2, p3,
      sub_self, abs_zero]
    norm_num

/-- Witness of C10: the sine source `91 * (d mod 360)`. -/
theorem full_turn_consistency_witness :
    ∃ t0 t1, build_tr_dsc periodic_env (draw_dsc_of 0 256 false) = some t0 ∧
      build_tr_dsc periodic_env (draw_dsc_of 3600 256 false) = some t1 ∧
      |t1.sinma - t0.sinma| ≤ 2 ∧ |t1.cosma - t0.cosma| ≤ 2 :=
  full_turn_consistency periodic_env (draw_dsc_of 0 256 false) (draw_dsc_of 3600 256 false)
    (by intro d k; show (d + 360 * k) % 360 * 91 = d % 360 * 91; congr 1; omega)
    rfl rfl (by decide) (by decide)

/-! ## The antialiased sampler at the image edge -/

theorem remap_fract_range (f : Int) (h0 : 0 ≤ f) (h1 : f ≤ 255) :
    0 ≤ remap_fract f ∧ remap_fract f ≤ 254 := by
  unfold remap_fract
  split <;> omega

/-- The feathered alpha `(a * (0xFF - fract)) >> 8` of an 8-bit alpha and a
remapped fraction fits in 8 bits and is below `0xFF`. -/
theorem feather_range (a fr : Int) (ha0 : 0 ≤ a) (ha1 : a ≤ 255) (hf0 : 0 ≤ fr)
    (hf1 : fr ≤ 254) :
    a * (255 - fr) / 256 % 256 = a * (255 - fr) / 256 ∧ 0 ≤ a * (255 - fr) / 256 ∧
      a * (255 - fr) / 256 ≤ 254 := by
  have h1 : 0 ≤ a * (255 - fr) := Int.mul_nonneg ha0 (by omega)
  have h2 : a * (255 - fr) ≤ 255 * 255 := by nlinarith
  omega

theorem edge_opa_left (src_w src_h ys_int y_next xs_fract ys_fract a : Int) :
    edge_opa src_w src_h 0 ys_int (-1) y_next xs_fract ys_fract a
      = a * (255 - xs_fract) / 256 % 256 := by
  unfold edge_opa
  rw [if_pos (by omega)]

theorem edge_opa_single (f y_next xs_fract ys_fract a : Int) :
    edge_opa 1 1 0 0 (next_dir f) y_next xs_fract ys_fract a
      = a * (255 - xs_fract) / 256 % 256 := by
  unfold edge_opa next_dir
  by_cases h : f < 128
  · rw [if_pos h, if_pos (by omega)]
  · rw [if_neg h, if_pos (by omega)]

/-- The stores of `argb_and_rgb_aa` for a sample inside a 1 x 1 image. -/
theorem aa_px_single_pixel (env : Env) (src : Int → Int)
    (src_stride xs_ups ys_ups xs_step ys_step : Int) (has_alpha : Bool) (x : Int)
    (hxs : sample_ups xs_ups xs_step x / 256 = 0) (hys : sample_ups ys_ups ys_step x / 256 = 0) :
    argb_and_rgb_aa_px env src 1 1 src_stride xs_ups ys_ups xs_step ys_step has_alpha x =
      ⟨some (read_color env.depth src 0),
       some ((if has_alpha then byte src (LV_IMG_PX_SIZE_ALPHA_BYTE env.depth - 1) else 255)
         * (255 - remap_fract (sample_ups xs_ups xs_step x % 256)) / 256 % 256)⟩ := by
  have ho : ¬ out_of_image 1 1 0 0 := by unfold out_of_image; omega
  have hn : ¬ (0 + next_dir (sample_ups xs_ups xs_step x % 256) ≥ 0 ∧
      0 + next_dir (sample_ups xs_ups xs_step x % 256) ≤ 1 - 1 ∧
      0 + next_dir (sample_ups ys_ups ys_step x % 256) ≥ 0 ∧
      0 + next_dir (sample_ups ys_ups ys_step x % 256) ≤ 1 - 1) := by
    unfold next_dir
    split <;> omega
  simp only [argb_and_rgb_aa_px, hxs, hys, if_neg ho, if_neg hn, edge_opa_single]
  simp only [zero_mul, zero_add, add_zero]

/-- The stores of `argb_and_rgb_aa` for a sample in the leftmost column whose
x fraction is below `0x80`. -/
theorem aa_px_left_edge (env : Env) (src : Int → Int)
    (src_w src_h src_stride xs_ups ys_ups xs_step ys_step : Int) (has_alpha : Bool)
    (x f ys_int : Int)
    (hw : 1 ≤ src_w) (hf0 : 0 ≤ f) (hf1 : f ≤ 127)
    (hxs : sample_ups xs_ups xs_step x = f)
    (hys : sample_ups ys_ups ys_step x / 256 = ys_int)
    (hy0 : 0 ≤ ys_int) (hy1 : ys_int < src_h) :
    (argb_and_rgb_aa_px env src src_w src_h src_stride xs_ups ys_ups xs_step ys_step has_alpha
        x).alpha =
      some ((if has_alpha then argb_alpha env.depth src src_stride 0 ys_int else 255)
        * (1 + 2 * f) / 256) := by
  have hx0 : f / 256 = 0 := by omega
  have hxf : f % 256 = f := by omega
  have ho : ¬ out_of_image src_w src_h 0 ys_int := by unfold out_of_image; omega
  have hnd : next_dir f = -1 := by unfold next_dir; rw [if_pos (by omega)]
  have hrf : remap_fract f = (127 - f) * 2 := by unfold remap_fract; rw [if_pos (by omega)]
  have hn : ¬ ((0 : Int) + -1 ≥ 0 ∧ (0 : Int) + -1 ≤ src_w - 1 ∧
      ys_int + next_dir (sample_ups ys_ups ys_step x % 256) ≥ 0 ∧
      ys_int + next_dir (sample_ups ys_ups ys_step x % 256) ≤ src_h - 1) := by omega
  have e255 : (255 : Int) - (127 - f) * 2 = 1 + 2 * f := by ring
  simp only [argb_and_rgb_aa_px, hxs, hys, hx0, hxf, hnd, hrf, if_neg ho, if_neg hn,
    edge_opa_left, e255, argb_alpha, px_offset]
  simp only [zero_mul, add_zero]
  congr 1
  cases has_alpha with
  | false =>
    simp only [Bool.false_eq_true, if_false]
    omega
  | true =>
    simp only [if_true]
    have hb := byte_range src
      (ys_int * src_stride * LV_IMG_PX_SIZE_ALPHA_BYTE env.depth
        + (LV_IMG_PX_SIZE_ALPHA_BYTE env.depth - 1))
    generalize byte src (ys_int * src_stride * LV_IMG_PX_SIZE_ALPHA_BYTE env.depth
        + (LV_IMG_PX_SIZE_ALPHA_BYTE env.depth - 1)) = a at hb ⊢
    have h1 : 0 ≤ a * (1 + 2 * f) := Int.mul_nonneg hb.1 (by omega)
    have h2 : a * (1 + 2 * f) ≤ 255 * 255 := by nlinarith [hb.2]
    omega

/-- Counterexample to C6: a 1 x 1 image without alpha channel sampled at the
centre of its pixel (upscaled coordinate (128, 128), integer part (0, 0))
with antialiasing gets alpha 254, not `0xFF`. -/
theorem single_pixel_rgb_aa_counterexample :
    sample_ups 128 0 0 / 256 = 0 ∧
    ∃ r, argb_and_rgb_aa scenario_env scenario_src 1 1 1 128 128 0 0 1 0 scenario_bufs false
        = some r ∧ r.abuf 0 = 254 ∧ r.abuf 0 ≠ 255 := by
  refine ⟨by decide, _, argb_and_rgb_aa_some _ _ _ _ _ _ _ _ _ _ _ _ _ (by decide), ?_, ?_⟩
  · decide
  · decide

/-- C6 (amended): for a 1 x 1 image without alpha channel and every sample
whose integer part is (0, 0), `argb_and_rgb_aa` writes the colour of the
single source pixel and the feathered alpha
`(0xFF * (0xFF - xs_fract)) >> 8`, where `xs_fract` is the remapped x
fraction; this alpha is at most 254. -/
theorem single_pixel_rgb_aa (env : Env) (src : Int → Int)
    (src_stride xs_ups ys_ups xs_step ys_step x_end off : Int) (bufs : Bufs) (x : Int)
    (hx0 : 0 ≤ x) (hx : x < x_end) (hend : x_end ≤ 32767)
    (hxs : sample_ups xs_ups xs_step x / 256 = 0)
    (hys : sample_ups ys_ups ys_step x / 256 = 0) :
    ∃ r, argb_and_rgb_aa env src 1 1 src_stride xs_ups ys_ups xs_step ys_step x_end off bufs
        false = some r ∧
      r.cbuf (off + x) = rgb_color env.depth src src_stride 0 0 ∧
      r.abuf (off + x) = 255 * (255 - remap_fract (sample_ups xs_ups xs_step x % 256)) / 256 ∧
      r.abuf (off + x) ≤ 254 := by
  have hpx := aa_px_single_pixel env src src_stride xs_ups ys_ups xs_step ys_step false x hxs hys
  have hr := remap_fract_range (sample_ups xs_ups xs_step x % 256) (by omega) (by omega)
  have hf := feather_range 255 (remap_fract (sample_ups xs_ups xs_step x % 256)) (by omega)
    (by omega) hr.1 hr.2
  refine ⟨_, argb_and_rgb_aa_some env src 1 1 src_stride xs_ups ys_ups xs_step ys_step x_end
    off bufs false hend, ?_, ?_, ?_⟩
  · rw [row_loop_cbuf_at _ _ _ _ _ hx0 hx, hpx]
    simp only [Option.getD_some, rgb_color, px_offset, zero_mul, add_zero]
  · rw [row_loop_abuf_at _ _ _ _ _ hx0 hx, hpx]
    simp only [Option.getD_some, Bool.false_eq_true, if_false]
    exact hf.1
  · rw [row_loop_abuf_at _ _ _ _ _ hx0 hx, hpx]
    simp only [Option.getD_some, Bool.false_eq_true, if_false]
    rw [hf.1]
    exact hf.2.2

/-- Witness of C6 (amended): the first pixel of the scenario image as a
1 x 1 image, sampled at (200, 40). -/
theorem single_pixel_rgb_aa_witness :
    ∃ r, argb_and_rgb_aa scenario_env scenario_src 1 1 1 200 40 0 0 1 0 scenario_bufs
        false = some r ∧
      r.cbuf (0 + 0) = rgb_color scenario_env.depth scenario_src 1 0 0 ∧
      r.abuf (0 + 0) = 255 * (255 - remap_fract (sample_ups 200 0 0 % 256)) / 256 ∧
      r.abuf (0 + 0) ≤ 254 :=
  single_pixel_rgb_aa scenario_env scenario_src 1 200 40 0 0 1 0 scenario_bufs 0
    (by decide) (by decide) (by decide) (by decide) (by decide)

theorem base_alpha_range (d : ColorDepth) (src : Int → Int) (src_stride col row : Int)
    (has_alpha : Bool) :
    0 ≤ (if has_alpha then argb_alpha d src src_stride col row else 255) ∧
      (if has_alpha then argb_alpha d src src_stride col row else 255) ≤ 255 := by
  cases has_alpha with
  | false => simp
  | true =>
    simp only [if_true]
    exact byte_range _ _

/-- C7: in `argb_and_rgb_aa`, for a sample in the leftmost source column
whose x coordinate is the fraction `f < 0x80` (so `xs_int = 0`) and whose
row `ys_int` is inside the image, the written alpha is monotone in `f`: of
two runs on the same base pixel with fractions `f1 ≤ f2`, the first writes
an alpha that is not above the second, and at `f1 = 0` it writes 0. -/
theorem edge_feathering_monotone (env : Env) (src : Int → Int)
    (src_w src_h src_stride xs1 ys1 xs2 ys2 xs_step ys_step x_end off : Int)
    (bufs1 bufs2 : Bufs) (has_alpha : Bool) (x f1 f2 ys_int : Int)
    (hx0 : 0 ≤ x) (hx : x < x_end) (hend : x_end ≤ 32767) (hw : 1 ≤ src_w)
    (hs1 : sample_ups xs1 xs_step x = f1) (hs2 : sample_ups xs2 xs_step x = f2)
    (hy1 : sample_ups ys1 ys_step x / 256 = ys_int)
    (hy2 : sample_ups ys2 ys_step x / 256 = ys_int)
    (hyb : 0 ≤ ys_int ∧ ys_int < src_h)
    (hf0 : 0 ≤ f1) (hf : f1 ≤ f2) (hf2 : f2 ≤ 127) :
    ∃ r1 r2,
      argb_and_rgb_aa env src src_w src_h src_stride xs1 ys1 xs_step ys_step x_end off bufs1
        has_alpha = some r1 ∧
      argb_and_rgb_aa env src src_w src_h src_stride xs2 ys2 xs_step ys_step x_end off bufs2
        has_alpha = some r2 ∧
      r1.abuf (off + x) ≤ r2.abuf (off + x) ∧ (f1 = 0 → r1.abuf (off + x) = 0) := by
  have e1 := aa_px_left_edge env src src_w src_h src_stride xs1 ys1 xs_step ys_step has_alpha
    x f1 ys_int hw hf0 (by omega) hs1 hy1 hyb.1 hyb.2
  have e2 := aa_px_left_edge env src src_w src_h src_stride xs2 ys2 xs_step ys_step has_alpha
    x f2 ys_int hw (by omega) hf2 hs2 hy2 hyb.1 hyb.2
  have ha := base_alpha_range env.depth src src_stride 0 ys_int has_alpha
  refine ⟨_, _, argb_and_rgb_aa_some env src src_w src_h src_stride xs1 ys1 xs_step ys_step
      x_end off bufs1 has_alpha hend,
    argb_and_rgb_aa_some env src src_w src_h src_stride xs2 ys2 xs_step ys_step
      x_end off bufs2 has_alpha hend, ?_, ?_⟩
  · rw [row_loop_abuf_at _ _ _ _ _ hx0 hx, row_loop_abuf_at _ _ _ _ _ hx0 hx, e1, e2]
    simp only [Option.getD_some]
    exact Int.ediv_le_ediv (by norm_num)
      (Int.mul_le_mul_of_nonneg_left (by omega) ha.1)
  · intro h0
    rw [row_loop_abuf_at _ _ _ _ _ hx0 hx, e1, h0]
    simp only [Option.getD_some]
    omega

/-- Witness of C7: the scenario image, row 1, fractions 16 and 100. -/
theorem edge_feathering_monotone_witness :
    ∃ r1 r2,
      argb_and_rgb_aa scenario_env scenario_src 2 2 2 16 300 0 0 1 0 scenario_bufs
        true = some r1 ∧
      argb_and_rgb_aa scenario_env scenario_src 2 2 2 100 400 0 0 1 0 scenario_bufs
        true = some r2 ∧
      r1.abuf (0 + 0) ≤ r2.abuf (0 + 0) ∧ ((16 : Int) = 0 → r1.abuf (0 + 0) = 0) :=
  edge_feathering_monotone scenario_env scenario_src 2 2 2 16 300 100 400 0 0 1 0
    scenario_bufs scenario_bufs true 0 16 100 1
    (by decide) (by decide) (by decide) (by decide) (by decide) (by decide) (by decide)
    (by decide) (by decide) (by decide) (by decide) (by decide)

/-! ## The loop over the rows -/

/-- What a sampler does to a row: cells outside `[off, off + dest_w)` keep
their contents. -/
theorem row_loop_frame (px : Int → PxOut) (off : Int) (n : Nat) (b : Bufs) (i : Int)
    (hi : i < off ∨ off + n ≤ i) :
    (row_loop px off n b).cbuf i = b.cbuf i ∧ (row_loop px off n b).abuf i = b.abuf i := by
  rw [row_loop_cbuf, row_loop_abuf, if_neg (by omega), if_neg (by omega)]
  exact ⟨rfl, rfl⟩

/-- Invariant of the loop over the rows: when every row returns, leaves the
cells outside its own `dest_w` cells alone and establishes `P y x` on its
cell `x`, then the loop returns and cell `y * dest_w + x` satisfies `P y x`
for every row `y` below `n`. -/
theorem rows_loop_spec (row : Int → Int → Bufs → Option Bufs) (dest_w : Int) (hw : 0 ≤ dest_w)
    (P : Int → Int → Int → Int → Prop) (N : Nat)
    (hrow : ∀ (y : Nat), y < N → ∀ (off : Int) (b : Bufs), ∃ b2, row y off b = some b2 ∧
      (∀ i, (i < off ∨ off + dest_w ≤ i) → b2.cbuf i = b.cbuf i ∧ b2.abuf i = b.abuf i) ∧
      (∀ x, 0 ≤ x → x < dest_w → P y x (b2.cbuf (off + x)) (b2.abuf (off + x))))
    (bufs : Bufs) (n : Nat) (hn : n ≤ N) :
    ∃ r, rows_loop row dest_w n (0, bufs) = some ((n : Int) * dest_w, r) ∧
      ∀ (y : Nat), y < n → ∀ x, 0 ≤ x → x < dest_w →
        P y x (r.cbuf ((y : Int) * dest_w + x)) (r.abuf ((y : Int) * dest_w + x)) := by
  induction n with
  | zero =>
    refine ⟨bufs, ?_, ?_⟩
    · simp [rows_loop]
    · intro y hy
      omega
  | succ n ih =>
    obtain ⟨r, hr, hP⟩ := ih (by omega)
    obtain ⟨b2, hb2, hframe, hval⟩ := hrow n (by omega) ((n : Int) * dest_w) r
    refine ⟨b2, ?_, ?_⟩
    · simp only [rows_loop, hr, hb2]
      congr 2
      push_cast
      ring
    · intro y hy x hx0 hx
      by_cases hyn : y = n
      · subst hyn
        exact hval x hx0 hx
      · have hlt : y < n := by omega
        have h1 : ((y : Int) + 1) * dest_w ≤ (n : Int) * dest_w :=
          Int.mul_le_mul_of_nonneg_right (by omega) hw
        have h2 : (y : Int) * dest_w + x < (n : Int) * dest_w := by
          have : ((y : Int) + 1) * dest_w = (y : Int) * dest_w + dest_w := by ring
          omega
        have hf := hframe ((y : Int) * dest_w + x) (Or.inl h2)
        rw [hf.1, hf.2]
        exact hP y hlt x hx0 hx

/-! ## The samplers: whole rows -/

theorem argb_no_aa_row (env : Env) (src : Int → Int)
    (src_w src_h src_stride xs_ups ys_ups xs_step ys_step x_end off : Int) (b : Bufs)
    (hend : x_end ≤ 32767) :
    ∃ b2, argb_no_aa env src src_w src_h src_stride xs_ups ys_ups xs_step ys_step x_end off b
        = some b2 ∧
      (∀ i, (i < off ∨ off + x_end ≤ i) → b2.cbuf i = b.cbuf i ∧ b2.abuf i = b.abuf i) ∧
      (∀ x, 0 ≤ x → x < x_end →
        b2.cbuf (off + x) = ((argb_no_aa_px env src src_w src_h src_stride xs_ups ys_ups
          xs_step ys_step x).color).getD (b.cbuf (off + x)) ∧
        b2.abuf (off + x) = ((argb_no_aa_px env src src_w src_h src_stride xs_ups ys_ups
          xs_step ys_step x).alpha).getD (b.abuf (off + x))) := by
  refine ⟨_, argb_no_aa_some env src src_w src_h src_stride xs_ups ys_ups xs_step ys_step x_end
    off b hend, ?_, ?_⟩
  · intro i hi
    exact row_loop_frame _ _ _ _ _ (by omega)
  · intro x hx0 hx
    exact ⟨row_loop_cbuf_at _ _ _ _ _ hx0 hx, row_loop_abuf_at _ _ _ _ _ hx0 hx⟩

theorem rgb_no_aa_row (env : Env) (src : Int → Int)
    (src_w src_h src_stride xs_ups ys_ups xs_step ys_step x_end off : Int) (b : Bufs)
    (h0 : 0 ≤ x_end) (hend : x_end ≤ 32767) :
    ∃ b2, rgb_no_aa env src src_w src_h src_stride xs_ups ys_ups xs_step ys_step x_end off b
        = some b2 ∧
      (∀ i, (i < off ∨ off + x_end ≤ i) → b2.cbuf i = b.cbuf i ∧ b2.abuf i = b.abuf i) ∧
      (∀ x, 0 ≤ x → x < x_end →
        b2.cbuf (off + x) = ((rgb_no_aa_px env src src_w src_h src_stride xs_ups ys_ups
          xs_step ys_step x).color).getD (b.cbuf (off + x)) ∧
        b2.abuf (off + x) = ((rgb_no_aa_px env src src_w src_h src_stride xs_ups ys_ups
          xs_step ys_step x).alpha).getD 255) := by
  refine ⟨_, rgb_no_aa_some env src src_w src_h src_stride xs_ups ys_ups xs_step ys_step x_end
    off b h0 hend, ?_, ?_⟩
  · intro i hi
    have hf := row_loop_frame (rgb_no_aa_px env src src_w src_h src_stride xs_ups ys_ups
      xs_step ys_step) off x_end.toNat ⟨b.cbuf, lv_memset_ff b.abuf off x_end.toNat⟩ i (by omega)
    refine ⟨hf.1, ?_⟩
    rw [hf.2]
    show lv_memset_ff b.abuf off x_end.toNat i = b.abuf i
    unfold lv_memset_ff
    rw [if_neg (by omega)]
  · intro x hx0 hx
    refine ⟨row_loop_cbuf_at _ _ _ _ _ hx0 hx, ?_⟩
    rw [row_loop_abuf_at _ _ _ _ _ hx0 hx]
    have hm := lv_memset_ff_at b.abuf off x_end x hx0 hx
    show Option.getD _ (lv_memset_ff b.abuf off x_end.toNat (off + x)) = _
    rw [hm]

theorem argb_and_rgb_aa_row (env : Env) (src : Int → Int)
    (src_w src_h src_stride xs_ups ys_ups xs_step ys_step x_end off : Int) (b : Bufs)
    (has_alpha : Bool) (hend : x_end ≤ 32767) :
    ∃ b2, argb_and_rgb_aa env src src_w src_h src_stride xs_ups ys_ups xs_step ys_step x_end off
        b has_alpha = some b2 ∧
      (∀ i, (i < off ∨ off + x_end ≤ i) → b2.cbuf i = b.cbuf i ∧ b2.abuf i = b.abuf i) ∧
      (∀ x, 0 ≤ x → x < x_end →
        b2.cbuf (off + x) = ((argb_and_rgb_aa_px env src src_w src_h src_stride xs_ups ys_ups
          xs_step ys_step has_alpha x).color).getD (b.cbuf (off + x)) ∧
        b2.abuf (off + x) = ((argb_and_rgb_aa_px env src src_w src_h src_stride xs_ups ys_ups
          xs_step ys_step has_alpha x).alpha).getD (b.abuf (off + x))) := by
  refine ⟨_, argb_and_rgb_aa_some env src src_w src_h src_stride xs_ups ys_ups xs_step ys_step
    x_end off b has_alpha hend, ?_, ?_⟩
  · intro i hi
    exact row_loop_frame _ _ _ _ _ (by omega)
  · intro x hx0 hx
    exact ⟨row_loop_cbuf_at _ _ _ _ _ hx0 hx, row_loop_abuf_at _ _ _ _ _ hx0 hx⟩

/-! ## The driver on the identity transform -/

theorem build_tr_dsc_fields (env : Env) (draw_dsc : lv_draw_img_dsc_t)
    (hz : draw_dsc.zoom ≠ 0) :
    ∃ t, build_tr_dsc env draw_dsc = some t ∧ t.angle = wrap32 (-draw_dsc.angle) ∧
      t.zoom = Int.tdiv (256 * 256) draw_dsc.zoom ∧ t.pivot = draw_dsc.pivot := by
  unfold build_tr_dsc
  rw [if_neg hz]
  exact ⟨_, rfl, rfl, rfl, rfl⟩

theorem transform_point_identity (t : point_transform_dsc_t) (xin yin : Int)
    (ha : t.angle = 0) (hz : t.zoom = 256) (hx : is_coord xin) (hy : is_coord yin) :
    transform_point_upscaled t xin yin = (256 * xin, 256 * yin) := by
  unfold transform_point_upscaled
  rw [if_pos ⟨ha, hz⟩, shl8_coord hx, shl8_coord hy]

/-- The per-pixel step of a row under the identity transform. -/
theorem identity_step (x1 x2 : Int) (hlt : x1 < x2) (hw : x2 - x1 + 1 ≤ 32767) :
    Int.tdiv (mul32 256 (sub32 (256 * x2) (256 * x1))) (x2 - x1 + 1 - 1) = 65536 := by
  have e : mul32 256 (sub32 (256 * x2) (256 * x1)) = 65536 * (x2 - x1) := by
    unfold mul32 sub32 wrap32; omega
  have e2 : x2 - x1 + 1 - 1 = x2 - x1 := by ring
  rw [e, e2]
  exact Int.mul_tdiv_cancel 65536 (by omega)

/-- The sampler arguments of row `y` under the identity transform: start
`256 * x1 + 128` and step 65536 on the x axis for a row of at least two
cells (start `256 * x1` and step 0 for a single cell), start
`256 * (y1 + y)` and step 0 on the y axis. -/
theorem identity_row_args (t : point_transform_dsc_t) (a : lv_area_t) (y : Int)
    (ha : t.angle = 0) (hz : t.zoom = 256)
    (hx1 : is_coord a.x1) (hx2 : is_coord a.x2) (hy : is_coord (a.y1 + y)) (hle : a.x1 ≤ a.x2)
    (hw : a.x2 - a.x1 + 1 ≤ 32767) :
    row_args t a (a.x2 - a.x1 + 1) y =
      ⟨256 * a.x1 + (if a.x1 < a.x2 then 128 else 0), 256 * (a.y1 + y),
       if a.x1 < a.x2 then 65536 else 0, 0⟩ := by
  have e1 := transform_point_identity t a.x1 (a.y1 + y) ha hz hx1 hy
  have e2 := transform_point_identity t a.x2 (a.y1 + y) ha hz hx2 hy
  have k0 : mul32 256 (sub32 (256 * (a.y1 + y)) (256 * (a.y1 + y))) = 0 := by
    rw [sub32, sub_self]; decide
  have hys : (if a.x2 - a.x1 + 1 > 1
      then Int.tdiv (mul32 256 (sub32 (256 * (a.y1 + y)) (256 * (a.y1 + y))))
        (a.x2 - a.x1 + 1 - 1) else 0) = 0 := by
    rw [k0, Int.zero_tdiv, ite_self]
  have hxs : (if a.x2 - a.x1 + 1 > 1
      then Int.tdiv (mul32 256 (sub32 (256 * a.x2) (256 * a.x1))) (a.x2 - a.x1 + 1 - 1)
      else 0) = (if a.x1 < a.x2 then 65536 else 0) := by
    by_cases hlt : a.x1 < a.x2
    · rw [if_pos (by omega), if_pos hlt, identity_step a.x1 a.x2 hlt hw]
    · rw [if_neg (by omega), if_neg hlt]
  have k0y : Int.tdiv (Int.tdiv (mul32 1 0) 2) 256 = 0 := by decide
  have hyu : add32 (256 * (a.y1 + y)) 0 = 256 * (a.y1 + y) := by
    unfold is_coord at hy
    unfold add32 wrap32; omega
  have hxu : add32 (256 * a.x1)
      (Int.tdiv (Int.tdiv (mul32 1 (if a.x1 < a.x2 then 65536 else 0)) 2) 256)
      = 256 * a.x1 + (if a.x1 < a.x2 then 128 else 0) := by
    unfold is_coord at hx1
    by_cases hlt : a.x1 < a.x2
    · rw [if_pos hlt, if_pos hlt]
      have k : Int.tdiv (Int.tdiv (mul32 1 65536) 2) 256 = 128 := by decide
      rw [k]
      unfold add32 wrap32; omega
    · rw [if_neg hlt, if_neg hlt, k0y]
      unfold add32 wrap32; omega
  unfold row_args
  simp only [e1, e2, hys, hxs, k0y, hyu, hxu]

/-- The sample of cell `x` of a row under the identity transform: integer
part `(x1 + x, y1 + y)`. -/
theorem identity_sample (x1 x2 yy x : Int) (hx1 : is_coord x1) (hx2 : is_coord x2)
    (hy : is_coord yy) (hw : x2 - x1 + 1 ≤ 32767) (hx0 : 0 ≤ x) (hx : x < x2 - x1 + 1) :
    sample_ups (256 * x1 + (if x1 < x2 then 128 else 0)) (if x1 < x2 then 65536 else 0) x / 256
      = x1 + x ∧
    sample_ups (256 * yy) 0 x / 256 = yy := by
  unfold is_coord at hx1 hx2 hy
  constructor
  · by_cases hlt : x1 < x2
    · rw [if_pos hlt, if_pos hlt]
      unfold sample_ups add32 mul32 wrap32; omega
    · rw [if_neg hlt, if_neg hlt]
      have : x = 0 := by omega
      subst this
      unfold sample_ups add32 mul32 wrap32; omega
  · unfold sample_ups add32 mul32 wrap32; omega

theorem div_checked_of_ne (a b : Int) (h : b ≠ 0) : div_checked a b = some (Int.tdiv a b) := by
  unfold div_checked
  rw [if_neg h]

/-- No division of a row has a zero divisor, whatever `dest_w` is: the
division by `dest_w - 1` is executed only under `dest_w > 1`, and the other
divisors are 2 and 256; so the row computes the values of `row_args`. -/
theorem row_args_checked_eq (t : point_transform_dsc_t) (area : lv_area_t) (dest_w y : Int) :
    row_args_checked t area dest_w y = some (row_args t area dest_w y) := by
  unfold row_args_checked row_args
  by_cases h : dest_w > 1
  · simp only [if_pos h, div_checked_of_ne _ (dest_w - 1) (by omega),
      div_checked_of_ne _ 2 (by decide), div_checked_of_ne _ 256 (by decide),
      Option.some_bind]
  · simp only [if_neg h, div_checked_of_ne _ 2 (by decide),
      div_checked_of_ne _ 256 (by decide), Option.some_bind]

/-- One row of the driver: it returns, leaves the cells outside its own
`dest_w` cells alone, and cell `x` holds what the selected sampler stores for
index `x` (the alpha of an in-bounds cell of `rgb_no_aa` is the `0xFF` of
the fill). -/
theorem transform_row_cells (env : Env) (t : point_transform_dsc_t) (area : lv_area_t)
    (src : Int → Int) (src_w src_h src_stride : Int) (dsc : lv_draw_img_dsc_t)
    (cf : lv_img_cf_t) (dest_w y off : Int) (b : Bufs)
    (h0 : 0 ≤ dest_w) (hend : dest_w ≤ 32767) :
    ∃ b2, transform_row env t area src src_w src_h src_stride dsc cf dest_w y off b = some b2 ∧
      (∀ i, (i < off ∨ off + dest_w ≤ i) → b2.cbuf i = b.cbuf i ∧ b2.abuf i = b.abuf i) ∧
      (∀ x, 0 ≤ x → x < dest_w →
        b2.cbuf (off + x) = ((row_px env src src_w src_h src_stride dsc cf
          (row_args t area dest_w y) x).color).getD (b.cbuf (off + x)) ∧
        b2.abuf (off + x) = ((row_px env src src_w src_h src_stride dsc cf
          (row_args t area dest_w y) x).alpha).getD
            (if dsc.antialias = false ∧ cf ≠ lv_img_cf_t.LV_IMG_CF_TRUE_COLOR_ALPHA
              then 255 else b.abuf (off + x))) := by
  unfold transform_row
  rw [row_args_checked_eq]
  simp only []
  unfold row_px
  by_cases haa : dsc.antialias = false
  · by_cases hcf : cf = lv_img_cf_t.LV_IMG_CF_TRUE_COLOR_ALPHA
    · simp only [if_pos haa, if_pos hcf]
      have hc : ¬ (dsc.antialias = false ∧ cf ≠ lv_img_cf_t.LV_IMG_CF_TRUE_COLOR_ALPHA) :=
        fun h => h.2 hcf
      simp only [if_neg hc]
      exact argb_no_aa_row env src src_w src_h src_stride _ _ _ _ dest_w off b hend
    · simp only [if_pos haa, if_neg hcf]
      have hc : dsc.antialias = false ∧ cf ≠ lv_img_cf_t.LV_IMG_CF_TRUE_COLOR_ALPHA :=
        ⟨haa, hcf⟩
      simp only [if_pos hc]
      exact rgb_no_aa_row env src src_w src_h src_stride _ _ _ _ dest_w off b h0 hend
  · simp only [if_neg haa]
    have hc : ¬ (dsc.antialias = false ∧ cf ≠ lv_img_cf_t.LV_IMG_CF_TRUE_COLOR_ALPHA) :=
      fun h => haa h.1
    simp only [if_neg hc]
    exact argb_and_rgb_aa_row env src src_w src_h src_stride _ _ _ _ dest_w off b _ hend

/-- The driver: for a non-zero zoom and an area whose width and height fit
`lv_coord_t`, the call returns, and when every cell `x` of every row `y`
satisfies `P y x` after its row, every cell `y * dest_w + x` satisfies it
after the call. -/
theorem lv_draw_sw_transform_cells (env : Env) (area : lv_area_t) (src : Int → Int)
    (src_w src_h src_stride : Int) (dsc : lv_draw_img_dsc_t) (cf : lv_img_cf_t) (bufs : Bufs)
    (t : point_transform_dsc_t) (ht : build_tr_dsc env dsc = some t)
    (hx : area.x1 ≤ area.x2 + 1) (hy : area.y1 ≤ area.y2 + 1)
    (hw : area.x2 - area.x1 + 1 ≤ 32767) (hh : area.y2 - area.y1 + 1 ≤ 32767)
    (P : Int → Int → Int → Int → Prop)
    (hP : ∀ (y x : Int) (b : Bufs), 0 ≤ y → y < area.y2 - area.y1 + 1 → 0 ≤ x →
      x < area.x2 - area.x1 + 1 →
      P y x
        (((row_px env src src_w src_h src_stride dsc cf
          (row_args t area (area.x2 - area.x1 + 1) y) x).color).getD (b.cbuf x))
        (((row_px env src src_w src_h src_stride dsc cf
          (row_args t area (area.x2 - area.x1 + 1) y) x).alpha).getD
            (if dsc.antialias = false ∧ cf ≠ lv_img_cf_t.LV_IMG_CF_TRUE_COLOR_ALPHA
              then 255 else b.abuf x))) :
    ∃ r, lv_draw_sw_transform env area src src_w src_h src_stride dsc cf bufs = some r ∧
      ∀ y x, 0 ≤ y → y < area.y2 - area.y1 + 1 → 0 ≤ x → x < area.x2 - area.x1 + 1 →
        P y x (r.cbuf (y * (area.x2 - area.x1 + 1) + x))
          (r.abuf (y * (area.x2 - area.x1 + 1) + x)) := by
  have hW : lv_area_get_width area = area.x2 - area.x1 + 1 :=
    wrap16_of_range (by omega) (by omega)
  have hH : lv_area_get_height area = area.y2 - area.y1 + 1 :=
    wrap16_of_range (by omega) (by omega)
  have hrow : ∀ (y : Nat), y < (area.y2 - area.y1 + 1).toNat → ∀ (off : Int) (b : Bufs),
      ∃ b2, transform_row env t area src src_w src_h src_stride dsc cf
          (area.x2 - area.x1 + 1) y off b = some b2 ∧
        (∀ i, (i < off ∨ off + (area.x2 - area.x1 + 1) ≤ i) →
          b2.cbuf i = b.cbuf i ∧ b2.abuf i = b.abuf i) ∧
        (∀ x, 0 ≤ x → x < area.x2 - area.x1 + 1 →
          P y x (b2.cbuf (off + x)) (b2.abuf (off + x))) := by
    intro y hyN off b
    obtain ⟨b2, e, hf, hv⟩ := transform_row_cells env t area src src_w src_h src_stride dsc cf
      (area.x2 - area.x1 + 1) y off b (by omega) hw
    refine ⟨b2, e, hf, ?_⟩
    intro x hx0 hx1
    have h := hP y x ⟨fun i => b.cbuf (off + i), fun i => b.abuf (off + i)⟩ (by omega)
      (by omega) hx0 hx1
    rw [(hv x hx0 hx1).1, (hv x hx0 hx1).2]
    exact h
  obtain ⟨r, hr, hcells⟩ := rows_loop_spec
    (transform_row env t area src src_w src_h src_stride dsc cf (area.x2 - area.x1 + 1))
    (area.x2 - area.x1 + 1) (by omega) P (area.y2 - area.y1 + 1).toNat hrow bufs
    (area.y2 - area.y1 + 1).toNat (le_refl _)
  refine ⟨r, ?_, ?_⟩
  · unfold lv_draw_sw_transform
    simp only [ht, hW, hH, hr, Option.map_some']
  · intro y x hy0 hy1 hx0 hx1
    have h := hcells y.toNat (by omega) x hx0 hx1
    have e : ((y.toNat : Nat) : Int) = y := Int.toNat_of_nonneg hy0
    rw [e] at h
    exact h

theorem argb_no_aa_px_in (env : Env) (src : Int → Int)
    (src_w src_h src_stride xs ys sx sy x xi yi : Int)
    (hxi : sample_ups xs sx x / 256 = xi) (hyi : sample_ups ys sy x / 256 = yi)
    (hin : 0 ≤ xi ∧ xi < src_w ∧ 0 ≤ yi ∧ yi < src_h) :
    argb_no_aa_px env src src_w src_h src_stride xs ys sx sy x =
      ⟨some (argb_color env.depth src src_stride xi yi),
       some (argb_alpha env.depth src src_stride xi yi)⟩ := by
  have ho : ¬ out_of_image src_w src_h xi yi := by unfold out_of_image; omega
  simp only [argb_no_aa_px, hxi, hyi, if_neg ho, argb_color, argb_alpha, px_offset]

theorem rgb_no_aa_px_in (env : Env) (src : Int → Int)
    (src_w src_h src_stride xs ys sx sy x xi yi : Int)
    (hxi : sample_ups xs sx x / 256 = xi) (hyi : sample_ups ys sy x / 256 = yi)
    (hin : 0 ≤ xi ∧ xi < src_w ∧ 0 ≤ yi ∧ yi < src_h) :
    rgb_no_aa_px env src src_w src_h src_stride xs ys sx sy x =
      ⟨some (rgb_color env.depth src src_stride xi yi), none⟩ := by
  have ho : ¬ out_of_image src_w src_h xi yi := by unfold out_of_image; omega
  simp only [rgb_no_aa_px, hxi, hyi, if_neg ho, rgb_color, px_offset]

theorem build_tr_dsc_identity (env : Env) (dsc : lv_draw_img_dsc_t)
    (hang : dsc.angle = 0) (hzoom : dsc.zoom = 256) :
    ∃ t, build_tr_dsc env dsc = some t ∧ t.angle = 0 ∧ t.zoom = 256 := by
  obtain ⟨t, ht, ha, hz, _⟩ := build_tr_dsc_fields env dsc (by omega)
  refine ⟨t, ht, ?_, ?_⟩
  · rw [ha, hang]; decide
  · rw [hz, hzoom]; decide

/-- Counterexample to C1: for the destination area (0,0)-(32767,0), whose
16-bit coordinates satisfy `x1 ≤ x2` and `y1 ≤ y2`, the identity transform
of the 2 x 2 scenario image without antialiasing writes nothing: cell 0,
the cell of destination pixel (0, 0), keeps its old contents 7 instead of
the colour of source pixel (0, 0). -/
theorem identity_no_aa_counterexample :
    is_coord 0 ∧ is_coord 32767 ∧
    ∃ r, lv_draw_sw_transform scenario_env ⟨0, 0, 32767, 0⟩ scenario_src 2 2 2
        (draw_dsc_of 0 256 false) lv_img_cf_t.LV_IMG_CF_TRUE_COLOR_ALPHA scenario_bufs = some r ∧
      r.cbuf ((0 - 0) * lv_area_get_width ⟨0, 0, 32767, 0⟩ + (0 - 0)) = 7 ∧
      argb_color scenario_env.depth scenario_src 2 0 0 = 4294901760 := by
  refine ⟨by decide, by decide, scenario_bufs, ?_, ?_, ?_⟩
  · rfl
  · rfl
  · decide

/-- C1 (amended): for draw angle 0, zoom 256, antialias off, any pivot and
a destination area with 16-bit coordinates, `x1 ≤ x2`, `y1 ≤ y2` whose
width and height are at most 32767 (they fit `lv_coord_t`), the call
returns and every destination pixel `(x, y)` of the area with `0 ≤ x < w`
and `0 ≤ y < h` has, at index `(y - y1) * dest_w + (x - x1)`, the colour of
source pixel `(x, y)` and as alpha the source alpha byte (ARGB) or `0xFF`
(RGB). -/
theorem identity_no_aa (env : Env) (area : lv_area_t) (src : Int → Int)
    (src_w src_h src_stride : Int) (dsc : lv_draw_img_dsc_t) (cf : lv_img_cf_t) (bufs : Bufs)
    (hang : dsc.angle = 0) (hzoom : dsc.zoom = 256) (haa : dsc.antialias = false)
    (hx1 : is_coord area.x1) (hx2 : is_coord area.x2)
    (hy1 : is_coord area.y1) (hy2 : is_coord area.y2)
    (hx : area.x1 ≤ area.x2) (hy : area.y1 ≤ area.y2)
    (hw : area.x2 - area.x1 + 1 ≤ 32767) (hh : area.y2 - area.y1 + 1 ≤ 32767) :
    ∃ r, lv_draw_sw_transform env area src src_w src_h src_stride dsc cf bufs = some r ∧
      ∀ x y, area.x1 ≤ x → x ≤ area.x2 → area.y1 ≤ y → y ≤ area.y2 →
        0 ≤ x → x < src_w → 0 ≤ y → y < src_h →
        r.cbuf ((y - area.y1) * (area.x2 - area.x1 + 1) + (x - area.x1)) =
          (if cf = lv_img_cf_t.LV_IMG_CF_TRUE_COLOR_ALPHA
            then argb_color env.depth src src_stride x y
            else rgb_color env.depth src src_stride x y) ∧
        r.abuf ((y - area.y1) * (area.x2 - area.x1 + 1) + (x - area.x1)) =
          (if cf = lv_img_cf_t.LV_IMG_CF_TRUE_COLOR_ALPHA
            then argb_alpha env.depth src src_stride x y else 255) := by
  obtain ⟨t, ht, hta, htz⟩ := build_tr_dsc_identity env dsc hang hzoom
  obtain ⟨r, hr, hcells⟩ := lv_draw_sw_transform_cells env area src src_w src_h src_stride dsc
    cf bufs t ht (by omega) (by omega) hw hh
    (fun y x c a => (0 ≤ area.x1 + x ∧ area.x1 + x < src_w ∧ 0 ≤ area.y1 + y ∧
        area.y1 + y < src_h) →
      c = (if cf = lv_img_cf_t.LV_IMG_CF_TRUE_COLOR_ALPHA
          then argb_color env.depth src src_stride (area.x1 + x) (area.y1 + y)
          else rgb_color env.depth src src_stride (area.x1 + x) (area.y1 + y)) ∧
      a = (if cf = lv_img_cf_t.LV_IMG_CF_TRUE_COLOR_ALPHA
          then argb_alpha env.depth src src_stride (area.x1 + x) (area.y1 + y) else 255))
    (by
      intro y x b hy0 hyh hx0 hxw hin
      have hyc : is_coord (area.y1 + y) :=
        ⟨by have := hy1.1; omega, by have := hy2.2; omega⟩
      have hs := identity_sample area.x1 area.x2 (area.y1 + y) x hx1 hx2 hyc hw hx0 hxw
      rw [identity_row_args t area y hta htz hx1 hx2 hyc hx hw]
      unfold row_px
      by_cases hcf : cf = lv_img_cf_t.LV_IMG_CF_TRUE_COLOR_ALPHA
      · simp only [if_pos haa, if_pos hcf]
        rw [argb_no_aa_px_in env src src_w src_h src_stride _ _ _ _ x _ _ hs.1 hs.2 hin]
        exact ⟨rfl, rfl⟩
      · have hc : dsc.antialias = false ∧ cf ≠ lv_img_cf_t.LV_IMG_CF_TRUE_COLOR_ALPHA :=
          ⟨haa, hcf⟩
        simp only [if_pos haa, if_neg hcf, if_pos hc]
        rw [rgb_no_aa_px_in env src src_w src_h src_stride _ _ _ _ x _ _ hs.1 hs.2 hin]
        exact ⟨rfl, rfl⟩)
  refine ⟨r, hr, ?_⟩
  intro x y h1 h2 h3 h4 h5 h6 h7 h8
  have h := hcells (y - area.y1) (x - area.x1) (by omega) (by omega) (by omega) (by omega)
  have ex : area.x1 + (x - area.x1) = x := by ring
  have ey : area.y1 + (y - area.y1) = y := by ring
  rw [ex, ey] at h
  exact h ⟨h5, h6, h7, h8⟩

/-- Witness of C1 (amended): scenario A, the 2 x 2 image onto the area
(0,0)-(1,1). -/
theorem identity_no_aa_witness :
    ∃ r, lv_draw_sw_transform scenario_env ⟨0, 0, 1, 1⟩ scenario_src 2 2 2
        (draw_dsc_of 0 256 false) lv_img_cf_t.LV_IMG_CF_TRUE_COLOR_ALPHA scenario_bufs = some r ∧
      ∀ x y, (0 : Int) ≤ x → x ≤ 1 → (0 : Int) ≤ y → y ≤ 1 →
        0 ≤ x → x < 2 → 0 ≤ y → y < 2 →
        r.cbuf ((y - 0) * ((1 : Int) - 0 + 1) + (x - 0)) =
          (if lv_img_cf_t.LV_IMG_CF_TRUE_COLOR_ALPHA = lv_img_cf_t.LV_IMG_CF_TRUE_COLOR_ALPHA
            then argb_color scenario_env.depth scenario_src 2 x y
            else rgb_color scenario_env.depth scenario_src 2 x y) ∧
        r.abuf ((y - 0) * ((1 : Int) - 0 + 1) + (x - 0)) =
          (if lv_img_cf_t.LV_IMG_CF_TRUE_COLOR_ALPHA = lv_img_cf_t.LV_IMG_CF_TRUE_COLOR_ALPHA
            then argb_alpha scenario_env.depth scenario_src 2 x y else 255) :=
  identity_no_aa scenario_env ⟨0, 0, 1, 1⟩ scenario_src 2 2 2 (draw_dsc_of 0 256 false)
    lv_img_cf_t.LV_IMG_CF_TRUE_COLOR_ALPHA scenario_bufs rfl rfl rfl
    (by decide) (by decide) (by decide) (by decide) (by decide) (by decide) (by decide)
    (by decide)

/-! ## The driver on the 2x zoom -/

theorem transform_point_zoom_128 (t : point_transform_dsc_t) (xin yin : Int)
    (ha : t.angle = 0) (hz : t.zoom = 128) (hpx : t.pivot.x = 0) (hpy : t.pivot.y = 0)
    (hx : is_coord xin) (hy : is_coord yin) :
    transform_point_upscaled t xin yin = (128 * xin, 128 * yin) := by
  have hn : ¬ (t.angle = 0 ∧ t.zoom = LV_IMG_ZOOM_NONE) := by
    rw [hz]; unfold LV_IMG_ZOOM_NONE; omega
  unfold transform_point_upscaled
  rw [if_neg hn]
  simp only [if_pos ha, hz, hpx, hpy]
  unfold is_coord at hx hy
  have ex : add32 (mul32 (sub32 xin 0) 128) (shl8 0) = 128 * xin := by
    unfold add32 mul32 sub32 shl8 wrap32; omega
  have ey : add32 (mul32 (sub32 yin 0) 128) (shl8 0) = 128 * yin := by
    unfold add32 mul32 sub32 shl8 wrap32; omega
  rw [ex, ey]

/-- The per-pixel step of a row under the inverse zoom 128. -/
theorem zoom_128_step (x1 x2 : Int) (hlt : x1 < x2) (hw : x2 - x1 + 1 ≤ 32767) :
    Int.tdiv (mul32 256 (sub32 (128 * x2) (128 * x1))) (x2 - x1 + 1 - 1) = 32768 := by
  have e : mul32 256 (sub32 (128 * x2) (128 * x1)) = 32768 * (x2 - x1) := by
    unfold mul32 sub32 wrap32; omega
  have e2 : x2 - x1 + 1 - 1 = x2 - x1 := by ring
  rw [e, e2]
  exact Int.mul_tdiv_cancel 32768 (by omega)

/-- The sampler arguments of row `y` under the inverse zoom 128 with the
pivot at the origin. -/
theorem zoom_128_row_args (t : point_transform_dsc_t) (a : lv_area_t) (y : Int)
    (ha : t.angle = 0) (hz : t.zoom = 128) (hpx : t.pivot.x = 0) (hpy : t.pivot.y = 0)
    (hx1 : is_coord a.x1) (hx2 : is_coord a.x2) (hy : is_coord (a.y1 + y)) (hle : a.x1 ≤ a.x2)
    (hw : a.x2 - a.x1 + 1 ≤ 32767) :
    row_args t a (a.x2 - a.x1 + 1) y =
      ⟨128 * a.x1 + (if a.x1 < a.x2 then 64 else 0), 128 * (a.y1 + y),
       if a.x1 < a.x2 then 32768 else 0, 0⟩ := by
  have e1 := transform_point_zoom_128 t a.x1 (a.y1 + y) ha hz hpx hpy hx1 hy
  have e2 := transform_point_zoom_128 t a.x2 (a.y1 + y) ha hz hpx hpy hx2 hy
  have k0 : mul32 256 (sub32 (128 * (a.y1 + y)) (128 * (a.y1 + y))) = 0 := by
    rw [sub32, sub_self]; decide
  have hys : (if a.x2 - a.x1 + 1 > 1
      then Int.tdiv (mul32 256 (sub32 (128 * (a.y1 + y)) (128 * (a.y1 + y))))
        (a.x2 - a.x1 + 1 - 1) else 0) = 0 := by
    rw [k0, Int.zero_tdiv, ite_self]
  have hxs : (if a.x2 - a.x1 + 1 > 1
      then Int.tdiv (mul32 256 (sub32 (128 * a.x2) (128 * a.x1))) (a.x2 - a.x1 + 1 - 1)
      else 0) = (if a.x1 < a.x2 then 32768 else 0) := by
    by_cases hlt : a.x1 < a.x2
    · rw [if_pos (by omega), if_pos hlt, zoom_128_step a.x1 a.x2 hlt hw]
    · rw [if_neg (by omega), if_neg hlt]
  have k0y : Int.tdiv (Int.tdiv (mul32 1 0) 2) 256 = 0 := by decide
  have hyu : add32 (128 * (a.y1 + y)) 0 = 128 * (a.y1 + y) := by
    unfold is_coord at hy
    unfold add32 wrap32; omega
  have hxu : add32 (128 * a.x1)
      (Int.tdiv (Int.tdiv (mul32 1 (if a.x1 < a.x2 then 32768 else 0)) 2) 256)
      = 128 * a.x1 + (if a.x1 < a.x2 then 64 else 0) := by
    unfold is_coord at hx1
    by_cases hlt : a.x1 < a.x2
    · rw [if_pos hlt, if_pos hlt]
      have k : Int.tdiv (Int.tdiv (mul32 1 32768) 2) 256 = 64 := by decide
      rw [k]
      unfold add32 wrap32; omega
    · rw [if_neg hlt, if_neg hlt, k0y]
      unfold add32 wrap32; omega
  unfold row_args
  simp only [e1, e2, hys, hxs, k0y, hyu, hxu]

/-- The sample of cell `x` of a row under the inverse zoom 128: integer part
`((x1 + x) div 2, yy div 2)`. -/
theorem zoom_128_sample (x1 x2 yy x : Int) (hx1 : is_coord x1) (hx2 : is_coord x2)
    (hy : is_coord yy) (hw : x2 - x1 + 1 ≤ 32767) (hx0 : 0 ≤ x) (hx : x < x2 - x1 + 1) :
    sample_ups (128 * x1 + (if x1 < x2 then 64 else 0)) (if x1 < x2 then 32768 else 0) x / 256
      = (x1 + x) / 2 ∧
    sample_ups (128 * yy) 0 x / 256 = yy / 2 := by
  unfold is_coord at hx1 hx2 hy
  constructor
  · by_cases hlt : x1 < x2
    · rw [if_pos hlt, if_pos hlt]
      unfold sample_ups add32 mul32 wrap32; omega
    · rw [if_neg hlt, if_neg hlt]
      have : x = 0 := by omega
      subst this
      unfold sample_ups add32 mul32 wrap32; omega
  · unfold sample_ups add32 mul32 wrap32; omega

/-- Counterexample to C5: for a source of width 16384 the destination area
(0,0)-(32767,1) has 16-bit coordinates, but its width 32768 does not fit
`lv_coord_t`; the call writes nothing, and cell 0 keeps its old contents 7
instead of the colour of source pixel (0, 0). -/
theorem upscale_2x_no_aa_counterexample :
    is_coord (2 * 16384 - 1) ∧
    ∃ r, lv_draw_sw_transform scenario_env ⟨0, 0, 2 * 16384 - 1, 2 * 1 - 1⟩ scenario_src
        16384 1 16384 (draw_dsc_of 0 512 false) lv_img_cf_t.LV_IMG_CF_TRUE_COLOR_ALPHA
        scenario_bufs = some r ∧
      r.cbuf 0 = 7 ∧ argb_color scenario_env.depth scenario_src 16384 (0 / 2) (0 / 2)
        = 4294901760 := by
  refine ⟨by decide, scenario_bufs, ?_, ?_, ?_⟩
  · rfl
  · rfl
  · decide

/-- C5 (amended): for draw angle 0, zoom 512, antialias off, pivot (0,0),
an ARGB source of size `w x h` with `w ≤ 16383` and `h ≤ 16383` (so that the
destination width `2w` and height `2h` fit `lv_coord_t`) and the
destination area (0,0)-(2w-1, 2h-1), the call returns and every destination
pixel `(i, j)` has, at index `j * 2w + i`, the colour and the alpha of
source pixel `(i div 2, j div 2)`. -/
theorem upscale_2x_no_aa (env : Env) (src : Int → Int) (w h src_stride : Int)
    (dsc : lv_draw_img_dsc_t) (bufs : Bufs)
    (hang : dsc.angle = 0) (hzoom : dsc.zoom = 512) (haa : dsc.antialias = false)
    (hpx : dsc.pivot.x = 0) (hpy : dsc.pivot.y = 0)
    (hw0 : 0 ≤ w) (hw : w ≤ 16383) (hh0 : 0 ≤ h) (hh : h ≤ 16383) :
    ∃ r, lv_draw_sw_transform env ⟨0, 0, 2 * w - 1, 2 * h - 1⟩ src w h src_stride dsc
        lv_img_cf_t.LV_IMG_CF_TRUE_COLOR_ALPHA bufs = some r ∧
      ∀ i j, 0 ≤ i → i < 2 * w → 0 ≤ j → j < 2 * h →
        r.cbuf (j * (2 * w) + i) = argb_color env.depth src src_stride (i / 2) (j / 2) ∧
        r.abuf (j * (2 * w) + i) = argb_alpha env.depth src src_stride (i / 2) (j / 2) := by
  obtain ⟨t, ht, hta, htz, htp⟩ := build_tr_dsc_fields env dsc (by omega)
  have hta0 : t.angle = 0 := by rw [hta, hang]; decide
  have htz128 : t.zoom = 128 := by rw [htz, hzoom]; decide
  have htpx : t.pivot.x = 0 := by rw [htp, hpx]
  have htpy : t.pivot.y = 0 := by rw [htp, hpy]
  have c0 : is_coord 0 := by decide
  have cx2 : is_coord (2 * w - 1) := ⟨by omega, by omega⟩
  obtain ⟨r, hr, hcells⟩ := lv_draw_sw_transform_cells env ⟨0, 0, 2 * w - 1, 2 * h - 1⟩ src w h
    src_stride dsc lv_img_cf_t.LV_IMG_CF_TRUE_COLOR_ALPHA bufs t ht
    (by show (0 : Int) ≤ 2 * w - 1 + 1; omega) (by show (0 : Int) ≤ 2 * h - 1 + 1; omega)
    (by show 2 * w - 1 - 0 + 1 ≤ 32767; omega) (by show 2 * h - 1 - 0 + 1 ≤ 32767; omega)
    (fun y x c a => c = argb_color env.depth src src_stride ((0 + x) / 2) ((0 + y) / 2) ∧
      a = argb_alpha env.depth src src_stride ((0 + x) / 2) ((0 + y) / 2))
    (by
      intro y x b hy0 hyh hx0 hxw
      have hyh2 : y < 2 * h - 1 - 0 + 1 := hyh
      have hxw2 : x < 2 * w - 1 - 0 + 1 := hxw
      have hyc : is_coord (0 + y) := ⟨by omega, by omega⟩
      have hs := zoom_128_sample 0 (2 * w - 1) (0 + y) x c0 cx2 hyc (by omega) hx0 hxw2
      have hra := zoom_128_row_args t ⟨0, 0, 2 * w - 1, 2 * h - 1⟩ y hta0 htz128 htpx htpy
        c0 cx2 hyc (by show (0 : Int) ≤ 2 * w - 1; omega)
        (by show 2 * w - 1 - 0 + 1 ≤ 32767; omega)
      rw [hra]
      have hin : 0 ≤ (0 + x) / 2 ∧ (0 + x) / 2 < w ∧ 0 ≤ (0 + y) / 2 ∧ (0 + y) / 2 < h := by
        omega
      unfold row_px
      simp only [if_pos haa, if_true]
      rw [argb_no_aa_px_in env src w h src_stride _ _ _ _ x _ _ hs.1 hs.2 hin]
      exact ⟨rfl, rfl⟩)
  refine ⟨r, hr, ?_⟩
  intro i j hi0 hi hj0 hj
  have h := hcells j i hj0 (by show j < 2 * h - 1 - 0 + 1; omega) hi0
    (by show i < 2 * w - 1 - 0 + 1; omega)
  have e1 : (2 * w - 1 - 0 + 1 : Int) = 2 * w := by ring
  have e2 : ∀ z : Int, 0 + z = z := fun z => zero_add z
  simp only [e1, e2] at h
  exact h

/-- Witness of C5 (amended): scenario B, the 2 x 2 image onto the 4 x 4
area. -/
theorem upscale_2x_no_aa_witness :
    ∃ r, lv_draw_sw_transform scenario_env ⟨0, 0, 2 * 2 - 1, 2 * 2 - 1⟩ scenario_src 2 2 2
        (draw_dsc_of 0 512 false) lv_img_cf_t.LV_IMG_CF_TRUE_COLOR_ALPHA scenario_bufs = some r ∧
      ∀ i j, 0 ≤ i → i < 2 * 2 → 0 ≤ j → j < 2 * 2 →
        r.cbuf (j * (2 * 2) + i) = argb_color scenario_env.depth scenario_src 2 (i / 2) (j / 2) ∧
        r.abuf (j * (2 * 2) + i) = argb_alpha scenario_env.depth scenario_src 2 (i / 2) (j / 2) :=
  upscale_2x_no_aa scenario_env scenario_src 2 2 2 (draw_dsc_of 0 512 false) scenario_bufs
    rfl rfl rfl rfl rfl (by decide) (by decide) (by decide) (by decide)

/-! ## The driver on the identity transform with antialiasing -/

theorem next_dir_cases (f : Int) : next_dir f = -1 ∨ next_dir f = 1 := by
  unfold next_dir
  by_cases h : f < 128
  · rw [if_pos h]; exact Or.inl rfl
  · rw [if_neg h]; exact Or.inr rfl

theorem blend_opa_same (a fr : Int) : blend_opa a a fr = a := by
  unfold blend_opa
  rw [if_neg (by simp)]

/-- The stores of `argb_and_rgb_aa` for a sample whose base pixel is an
interior pixel of the image with a flat neighbourhood: the alpha of the base
pixel and, unless that alpha is 0 in an image with alpha channel, its
colour. -/
theorem aa_px_flat (env : Env) (src : Int → Int)
    (src_w src_h src_stride xs ys sx sy : Int) (has_alpha : Bool) (x xi yi : Int)
    (hxi : sample_ups xs sx x / 256 = xi) (hyi : sample_ups ys sy x / 256 = yi)
    (hx1 : 1 ≤ xi) (hx2 : xi + 1 < src_w) (hy1 : 1 ≤ yi) (hy2 : yi + 1 < src_h)
    (hflat : flat_at env.depth has_alpha src src_stride xi yi) :
    (argb_and_rgb_aa_px env src src_w src_h src_stride xs ys sx sy has_alpha x).alpha
      = some (src_alpha env.depth has_alpha src src_stride xi yi) ∧
    (src_alpha env.depth has_alpha src src_stride xi yi ≠ 0 →
      (argb_and_rgb_aa_px env src src_w src_h src_stride xs ys sx sy has_alpha x).color
        = some (src_color env.depth has_alpha src src_stride xi yi)) := by
  have ho : ¬ out_of_image src_w src_h xi yi := by unfold out_of_image; omega
  have hdx := next_dir_cases (sample_ups xs sx x % 256)
  have hdy := next_dir_cases (sample_ups ys sy x % 256)
  have hn : xi + next_dir (sample_ups xs sx x % 256) ≥ 0 ∧
      xi + next_dir (sample_ups xs sx x % 256) ≤ src_w - 1 ∧
      yi + next_dir (sample_ups ys sy x % 256) ≥ 0 ∧
      yi + next_dir (sample_ups ys sy x % 256) ≤ src_h - 1 := by
    rcases hdx with h | h <;> rcases hdy with h' | h' <;> rw [h, h'] <;> omega
  have hh := hflat (next_dir (sample_ups xs sx x % 256)) 0
    (Or.inr ⟨rfl, by rcases hdx with h | h <;> rw [h] <;> simp⟩)
  have hv := hflat 0 (next_dir (sample_ups ys sy x % 256))
    (Or.inl ⟨rfl, by rcases hdy with h | h <;> rw [h] <;> simp⟩)
  have eh : yi * src_stride * src_px_size env.depth has_alpha
      + xi * src_px_size env.depth has_alpha
      + next_dir (sample_ups xs sx x % 256) * src_px_size env.depth has_alpha
      = px_offset (src_px_size env.depth has_alpha) src_stride
        (xi + next_dir (sample_ups xs sx x % 256)) (yi + 0) := by
    unfold px_offset; ring
  have ev : yi * src_stride * src_px_size env.depth has_alpha
      + xi * src_px_size env.depth has_alpha
      + next_dir (sample_ups ys sy x % 256) * src_stride * src_px_size env.depth has_alpha
      = px_offset (src_px_size env.depth has_alpha) src_stride
        (xi + 0) (yi + next_dir (sample_ups ys sy x % 256)) := by
    unfold px_offset; ring
  have eb : yi * src_stride * src_px_size env.depth has_alpha
      + xi * src_px_size env.depth has_alpha
      = px_offset (src_px_size env.depth has_alpha) src_stride xi yi := rfl
  have hps : (if has_alpha = true then LV_IMG_PX_SIZE_ALPHA_BYTE env.depth
      else color_size env.depth) = src_px_size env.depth has_alpha := rfl
  have hc1 := hh.1
  have hc2 := hv.1
  have ha1 := hh.2
  have ha2 := hv.2
  unfold src_color at hc1 hc2
  unfold argb_and_rgb_aa_px
  simp only [hxi, hyi, if_neg ho, if_pos hn, hps]
  rw [eh, ev, eb, hc1, hc2]
  simp only [add_zero, and_self, if_true]
  cases has_alpha with
  | false =>
    simp only [Bool.false_eq_true, if_false, src_alpha, src_color, true_and]
    intro _
    trivial
  | true =>
    unfold src_alpha at ha1 ha2
    simp only [if_true, add_zero] at ha1 ha2
    simp only [if_true, ha1, ha2, blend_opa_same, src_alpha, src_color]
    have hb := byte_range src (px_offset (src_px_size env.depth true) src_stride xi yi
      + (LV_IMG_PX_SIZE_ALPHA_BYTE env.depth - 1))
    generalize byte src (px_offset (src_px_size env.depth true) src_stride xi yi
      + (LV_IMG_PX_SIZE_ALPHA_BYTE env.depth - 1)) = a at hb ⊢
    have e : (a + a) / 2 % 256 = a := by omega
    rw [e]
    by_cases h0 : a = 0
    · simp only [if_pos h0, true_and]
      intro h
      exact absurd h0 h
    · simp only [if_neg h0, true_and]
      intro _
      trivial

/-- Counterexample to C2: the identity transform of the 2 x 2 scenario image
with antialiasing onto the area (0,0)-(1,1) writes alpha 0 for destination
pixel (0, 0), whose source alpha is 255, and alpha 191 for destination
pixel (0, 1), whose source alpha is 128. -/
theorem identity_aa_counterexample :
    ∃ r, lv_draw_sw_transform scenario_env ⟨0, 0, 1, 1⟩ scenario_src 2 2 2
        (draw_dsc_of 0 256 true) lv_img_cf_t.LV_IMG_CF_TRUE_COLOR_ALPHA scenario_bufs = some r ∧
      r.abuf ((0 - 0) * 2 + (0 - 0)) = 0 ∧
      argb_alpha scenario_env.depth scenario_src 2 0 0 = 255 ∧
      r.abuf ((1 - 0) * 2 + (0 - 0)) = 191 ∧
      argb_alpha scenario_env.depth scenario_src 2 0 1 = 128 := by
  refine ⟨_, rfl, ?_, ?_, ?_, ?_⟩ <;> decide

/-- C2 (amended): for draw angle 0, zoom 256, antialias on, a source with or
without alpha channel and a destination area (16-bit coordinates) whose
width and height are at most 32767, the call returns, and every
destination pixel `(x, y)` of the area that is an interior pixel of the
source (`1 ≤ x ≤ w - 2`, `1 ≤ y ≤ h - 2`) whose four neighbours hold the
same colour and alpha as source pixel `(x, y)` receives exactly the alpha
of source pixel `(x, y)` (`0xFF` without alpha channel) and, unless that
alpha is 0, exactly its colour. -/
theorem identity_aa_flat (env : Env) (area : lv_area_t) (src : Int → Int)
    (src_w src_h src_stride : Int) (dsc : lv_draw_img_dsc_t) (cf : lv_img_cf_t) (bufs : Bufs)
    (hang : dsc.angle = 0) (hzoom : dsc.zoom = 256) (haa : dsc.antialias = true)
    (hx1 : is_coord area.x1) (hx2 : is_coord area.x2)
    (hy1 : is_coord area.y1) (hy2 : is_coord area.y2)
    (hx : area.x1 ≤ area.x2) (hy : area.y1 ≤ area.y2)
    (hw : area.x2 - area.x1 + 1 ≤ 32767) (hh : area.y2 - area.y1 + 1 ≤ 32767) :
    ∃ r, lv_draw_sw_transform env area src src_w src_h src_stride dsc cf bufs = some r ∧
      ∀ x y, area.x1 ≤ x → x ≤ area.x2 → area.y1 ≤ y → y ≤ area.y2 →
        1 ≤ x → x + 1 < src_w → 1 ≤ y → y + 1 < src_h →
        flat_at env.depth (lv_img_cf_has_alpha cf) src src_stride x y →
        r.abuf ((y - area.y1) * (area.x2 - area.x1 + 1) + (x - area.x1)) =
          src_alpha env.depth (lv_img_cf_has_alpha cf) src src_stride x y ∧
        (src_alpha env.depth (lv_img_cf_has_alpha cf) src src_stride x y ≠ 0 →
          r.cbuf ((y - area.y1) * (area.x2 - area.x1 + 1) + (x - area.x1)) =
            src_color env.depth (lv_img_cf_has_alpha cf) src src_stride x y) := by
  obtain ⟨t, ht, hta, htz⟩ := build_tr_dsc_identity env dsc hang hzoom
  have hnaa : ¬ dsc.antialias = false := by rw [haa]; simp
  obtain ⟨r, hr, hcells⟩ := lv_draw_sw_transform_cells env area src src_w src_h src_stride dsc
    cf bufs t ht (by omega) (by omega) hw hh
    (fun y x c a => (1 ≤ area.x1 + x ∧ area.x1 + x + 1 < src_w ∧ 1 ≤ area.y1 + y ∧
        area.y1 + y + 1 < src_h) →
      flat_at env.depth (lv_img_cf_has_alpha cf) src src_stride (area.x1 + x) (area.y1 + y) →
      a = src_alpha env.depth (lv_img_cf_has_alpha cf) src src_stride (area.x1 + x)
          (area.y1 + y) ∧
      (src_alpha env.depth (lv_img_cf_has_alpha cf) src src_stride (area.x1 + x)
          (area.y1 + y) ≠ 0 →
        c = src_color env.depth (lv_img_cf_has_alpha cf) src src_stride (area.x1 + x)
          (area.y1 + y)))
    (by
      intro y x b hy0 hyh hx0 hxw hin hflat
      have hyc : is_coord (area.y1 + y) :=
        ⟨by have := hy1.1; omega, by have := hy2.2; omega⟩
      have hs := identity_sample area.x1 area.x2 (area.y1 + y) x hx1 hx2 hyc hw hx0 hxw
      rw [identity_row_args t area y hta htz hx1 hx2 hyc hx hw]
      unfold row_px
      simp only [if_neg hnaa]
      have hpx := aa_px_flat env src src_w src_h src_stride _ _ _ _ (lv_img_cf_has_alpha cf) x
        _ _ hs.1 hs.2 hin.1 hin.2.1 hin.2.2.1 hin.2.2.2 hflat
      refine ⟨?_, ?_⟩
      · rw [hpx.1]; rfl
      · intro hne
        rw [hpx.2 hne]; rfl)
  refine ⟨r, hr, ?_⟩
  intro x y h1 h2 h3 h4 h5 h6 h7 h8 hflat
  have h := hcells (y - area.y1) (x - area.x1) (by omega) (by omega) (by omega) (by omega)
  have ex : area.x1 + (x - area.x1) = x := by ring
  have ey : area.y1 + (y - area.y1) = y := by ring
  rw [ex, ey] at h
  exact h ⟨h5, h6, h7, h8⟩ hflat

theorem flat_src_flat : flat_at ColorDepth.d32 true flat_src 3 1 1 := by
  intro dx dy h
  rcases h with ⟨rfl, rfl | rfl⟩ | ⟨rfl, rfl | rfl⟩ <;> decide

/-- Witness of C2 (amended): a 3 x 3 image with alpha channel whose pixels
are all equal, onto the area (0,0)-(2,2); the centre pixel (1, 1), cell 4,
receives the alpha 200 and the colour of the source pixel. -/
theorem identity_aa_flat_witness :
    ∃ r, lv_draw_sw_transform scenario_env ⟨0, 0, 2, 2⟩ flat_src 3 3 3
        (draw_dsc_of 0 256 true) lv_img_cf_t.LV_IMG_CF_TRUE_COLOR_ALPHA scenario_bufs = some r ∧
      r.abuf 4 = 200 ∧ r.cbuf 4 = 3357414410 := by
  obtain ⟨r, hr, h⟩ := identity_aa_flat scenario_env ⟨0, 0, 2, 2⟩ flat_src 3 3 3
    (draw_dsc_of 0 256 true) lv_img_cf_t.LV_IMG_CF_TRUE_COLOR_ALPHA scenario_bufs rfl rfl rfl
    (by decide) (by decide) (by decide) (by decide) (by decide) (by decide) (by decide)
    (by decide)
  have h11 := h 1 1 (by decide) (by decide) (by decide) (by decide) (by decide) (by decide)
    (by decide) (by decide) flat_src_flat
  have ea : src_alpha scenario_env.depth
      (lv_img_cf_has_alpha lv_img_cf_t.LV_IMG_CF_TRUE_COLOR_ALPHA) flat_src 3 1 1 = 200 := by
    decide
  have ec : src_color scenario_env.depth
      (lv_img_cf_has_alpha lv_img_cf_t.LV_IMG_CF_TRUE_COLOR_ALPHA) flat_src 3 1 1
        = 3357414410 := by
    decide
  have ei : ((1 : Int) - (⟨0, 0, 2, 2⟩ : lv_area_t).y1)
      * ((⟨0, 0, 2, 2⟩ : lv_area_t).x2 - (⟨0, 0, 2, 2⟩ : lv_area_t).x1 + 1)
      + (1 - (⟨0, 0, 2, 2⟩ : lv_area_t).x1) = 4 := by decide
  rw [ei, ea, ec] at h11
  exact ⟨r, hr, h11.1, h11.2 (by decide)⟩

/-! ## The antialiased sampler: feathering at the edge -/

/-- The alpha of the edge branch when a directional neighbour of an
in-bounds base pixel is outside the image: the first test of line 323
holds exactly when the horizontal neighbour is outside, and otherwise the
test of line 326 holds; the final `else` is not reached. -/
theorem edge_opa_feather (src_w src_h xi yi xn yn fx fy a : Int)
    (hxn : xn = -1 ∨ xn = 1) (hyn : yn = -1 ∨ yn = 1)
    (hin : 0 ≤ xi ∧ xi < src_w ∧ 0 ≤ yi ∧ yi < src_h)
    (hout : (xi + xn < 0 ∨ xi + xn > src_w - 1) ∨ (yi + yn < 0 ∨ yi + yn > src_h - 1)) :
    edge_opa src_w src_h xi yi xn yn fx fy a =
      if xi + xn < 0 ∨ xi + xn > src_w - 1 then a * (255 - fx) / 256 % 256
      else a * (255 - fy) / 256 % 256 := by
  unfold edge_opa
  by_cases hh : xi + xn < 0 ∨ xi + xn > src_w - 1
  · rw [if_pos hh, if_pos (by rcases hxn with h | h <;> subst h <;> omega)]
  · rw [if_neg hh, if_neg (by rcases hxn with h | h <;> subst h <;> omega),
      if_pos (by rcases hyn with h | h <;> subst h <;> omega)]

theorem feather_le (a fr : Int) (ha0 : 0 ≤ a) (ha1 : a ≤ 255) (hf0 : 0 ≤ fr) (hf1 : fr ≤ 254) :
    a * (255 - fr) / 256 % 256 = a * (255 - fr) / 256 ∧ a * (255 - fr) / 256 ≤ a := by
  have h1 : 0 ≤ a * (255 - fr) := Int.mul_nonneg ha0 (by omega)
  have h2 : a * (255 - fr) ≤ 255 * a := by nlinarith
  omega

theorem src_alpha_range (d : ColorDepth) (has_alpha : Bool) (src : Int → Int)
    (src_stride col row : Int) :
    0 ≤ src_alpha d has_alpha src src_stride col row ∧
      src_alpha d has_alpha src src_stride col row ≤ 255 := by
  unfold src_alpha
  cases has_alpha with
  | false => simp
  | true =>
    simp only [if_true]
    exact byte_range _ _

/-- The stores of `argb_and_rgb_aa` for a sample whose base pixel is inside
the image and one of whose directional neighbours is outside. -/
theorem aa_px_edge (env : Env) (src : Int → Int)
    (src_w src_h src_stride xs_ups ys_ups xs_step ys_step : Int) (has_alpha : Bool)
    (x xs ys : Int)
    (hxs : sample_ups xs_ups xs_step x = xs) (hys : sample_ups ys_ups ys_step x = ys)
    (hin : 0 ≤ xs / 256 ∧ xs / 256 < src_w ∧ 0 ≤ ys / 256 ∧ ys / 256 < src_h)
    (hout : (xs / 256 + next_dir (xs % 256) < 0 ∨ xs / 256 + next_dir (xs % 256) > src_w - 1) ∨
      (ys / 256 + next_dir (ys % 256) < 0 ∨ ys / 256 + next_dir (ys % 256) > src_h - 1)) :
    argb_and_rgb_aa_px env src src_w src_h src_stride xs_ups ys_ups xs_step ys_step has_alpha x =
      ⟨some (src_color env.depth has_alpha src src_stride (xs / 256) (ys / 256)),
       some (if xs / 256 + next_dir (xs % 256) < 0 ∨ xs / 256 + next_dir (xs % 256) > src_w - 1
         then src_alpha env.depth has_alpha src src_stride (xs / 256) (ys / 256)
           * (255 - remap_fract (xs % 256)) / 256 % 256
         else src_alpha env.depth has_alpha src src_stride (xs / 256) (ys / 256)
           * (255 - remap_fract (ys % 256)) / 256 % 256)⟩ := by
  have ho : ¬ out_of_image src_w src_h (xs / 256) (ys / 256) := by unfold out_of_image; omega
  have hn : ¬ (xs / 256 + next_dir (xs % 256) ≥ 0 ∧ xs / 256 + next_dir (xs % 256) ≤ src_w - 1 ∧
      ys / 256 + next_dir (ys % 256) ≥ 0 ∧ ys / 256 + next_dir (ys % 256) ≤ src_h - 1) := by
    omega
  have hps : (if has_alpha = true then LV_IMG_PX_SIZE_ALPHA_BYTE env.depth
      else color_size env.depth) = src_px_size env.depth has_alpha := rfl
  have he := edge_opa_feather src_w src_h (xs / 256) (ys / 256) (next_dir (xs % 256))
    (next_dir (ys % 256)) (remap_fract (xs % 256)) (remap_fract (ys % 256))
    (src_alpha env.depth has_alpha src src_stride (xs / 256) (ys / 256))
    (next_dir_cases _) (next_dir_cases _) hin hout
  unfold argb_and_rgb_aa_px
  simp only [hxs, hys, if_neg ho, if_neg hn, hps]
  have ea : (if has_alpha = true then
      byte src (ys / 256 * src_stride * src_px_size env.depth has_alpha
        + xs / 256 * src_px_size env.depth has_alpha + (LV_IMG_PX_SIZE_ALPHA_BYTE env.depth - 1))
      else 255) = src_alpha env.depth has_alpha src src_stride (xs / 256) (ys / 256) := rfl
  rw [ea, he]
  rfl

/-- C11: for a sample whose base pixel is inside the image and whose
horizontal or vertical directional neighbour is outside, `argb_and_rgb_aa`
writes the base pixel's own colour and the alpha
`(a * (255 - xs_fract)) >> 8` when the horizontal neighbour is outside (also
when both are) and `(a * (255 - ys_fract)) >> 8` otherwise, with `a` the base
alpha (`0xFF` without alpha channel) and the remapped fractions; one of the
tests of lines 323 and 326 holds, so the final `else` is not reached, and
the written alpha does not exceed `a`. -/
theorem edge_feathering (env : Env) (src : Int → Int)
    (src_w src_h src_stride xs_ups ys_ups xs_step ys_step x_end off : Int) (bufs : Bufs)
    (has_alpha : Bool) (x xs ys : Int)
    (hx0 : 0 ≤ x) (hx : x < x_end) (hend : x_end ≤ 32767)
    (hxs : xs = sample_ups xs_ups xs_step x) (hys : ys = sample_ups ys_ups ys_step x)
    (hin : 0 ≤ xs / 256 ∧ xs / 256 < src_w ∧ 0 ≤ ys / 256 ∧ ys / 256 < src_h)
    (hout : (xs / 256 + next_dir (xs % 256) < 0 ∨ xs / 256 + next_dir (xs % 256) > src_w - 1) ∨
      (ys / 256 + next_dir (ys % 256) < 0 ∨ ys / 256 + next_dir (ys % 256) > src_h - 1)) :
    ∃ r, argb_and_rgb_aa env src src_w src_h src_stride xs_ups ys_ups xs_step ys_step x_end off
        bufs has_alpha = some r ∧
      r.cbuf (off + x) = src_color env.depth has_alpha src src_stride (xs / 256) (ys / 256) ∧
      r.abuf (off + x) =
        (if xs / 256 + next_dir (xs % 256) < 0 ∨ xs / 256 + next_dir (xs % 256) > src_w - 1
          then src_alpha env.depth has_alpha src src_stride (xs / 256) (ys / 256)
            * (255 - remap_fract (xs % 256)) / 256
          else src_alpha env.depth has_alpha src src_stride (xs / 256) (ys / 256)
            * (255 - remap_fract (ys % 256)) / 256) ∧
      (((xs / 256 = 0 ∧ next_dir (xs % 256) < 0) ∨
          (xs / 256 = src_w - 1 ∧ next_dir (xs % 256) > 0)) ∨
        ((ys / 256 = 0 ∧ next_dir (ys % 256) < 0) ∨
          (ys / 256 = src_h - 1 ∧ next_dir (ys % 256) > 0))) ∧
      r.abuf (off + x) ≤ src_alpha env.depth has_alpha src src_stride (xs / 256) (ys / 256) := by
  have hpx := aa_px_edge env src src_w src_h src_stride xs_ups ys_ups xs_step ys_step has_alpha
    x xs ys hxs.symm hys.symm hin hout
  have ha := src_alpha_range env.depth has_alpha src src_stride (xs / 256) (ys / 256)
  have hrx := remap_fract_range (xs % 256) (by omega) (by omega)
  have hry := remap_fract_range (ys % 256) (by omega) (by omega)
  have hfx := feather_le _ (remap_fract (xs % 256)) ha.1 ha.2 hrx.1 hrx.2
  have hfy := feather_le _ (remap_fract (ys % 256)) ha.1 ha.2 hry.1 hry.2
  have hab : ∀ r : Bufs, r = row_loop (argb_and_rgb_aa_px env src src_w src_h src_stride xs_ups
      ys_ups xs_step ys_step has_alpha) off x_end.toNat bufs → r.abuf (off + x) =
        (if xs / 256 + next_dir (xs % 256) < 0 ∨ xs / 256 + next_dir (xs % 256) > src_w - 1
          then src_alpha env.depth has_alpha src src_stride (xs / 256) (ys / 256)
            * (255 - remap_fract (xs % 256)) / 256
          else src_alpha env.depth has_alpha src src_stride (xs / 256) (ys / 256)
            * (255 - remap_fract (ys % 256)) / 256) := by
    intro r hr
    rw [hr, row_loop_abuf_at _ _ _ _ _ hx0 hx, hpx]
    simp only [Option.getD_some]
    split
    · exact hfx.1
    · exact hfy.1
  refine ⟨_, argb_and_rgb_aa_some env src src_w src_h src_stride xs_ups ys_ups xs_step ys_step
    x_end off bufs has_alpha hend, ?_, hab _ rfl, ?_, ?_⟩
  · rw [row_loop_cbuf_at _ _ _ _ _ hx0 hx, hpx]
    simp only [Option.getD_some]
  · rcases next_dir_cases (xs % 256) with h | h <;>
      rcases next_dir_cases (ys % 256) with h' | h' <;> rw [h, h'] at hout ⊢ <;> omega
  · rw [hab _ rfl]
    split
    · exact hfx.2
    · exact hfy.2

/-- Witness of C11: the scenario image sampled at (16, 300), in the leftmost
column of row 1 with the left neighbour outside. -/
theorem edge_feathering_witness :
    ∃ r, argb_and_rgb_aa scenario_env scenario_src 2 2 2 16 300 0 0 1 0 scenario_bufs true
        = some r ∧
      r.cbuf (0 + 0) = src_color scenario_env.depth true scenario_src 2 (16 / 256) (300 / 256) ∧
      r.abuf (0 + 0) =
        (if 16 / 256 + next_dir (16 % 256) < 0 ∨ 16 / 256 + next_dir (16 % 256) > 2 - 1
          then src_alpha scenario_env.depth true scenario_src 2 (16 / 256) (300 / 256)
            * (255 - remap_fract (16 % 256)) / 256
          else src_alpha scenario_env.depth true scenario_src 2 (16 / 256) (300 / 256)
            * (255 - remap_fract (300 % 256)) / 256) ∧
      ((((16 : Int) / 256 = 0 ∧ next_dir (16 % 256) < 0) ∨
          ((16 : Int) / 256 = 2 - 1 ∧ next_dir (16 % 256) > 0)) ∨
        (((300 : Int) / 256 = 0 ∧ next_dir (300 % 256) < 0) ∨
          ((300 : Int) / 256 = 2 - 1 ∧ next_dir (300 % 256) > 0))) ∧
      r.abuf (0 + 0) ≤ src_alpha scenario_env.depth true scenario_src 2 (16 / 256) (300 / 256) :=
  edge_feathering scenario_env scenario_src 2 2 2 16 300 0 0 1 0 scenario_bufs true 0 16 300
    (by decide) (by decide) (by decide) (by decide) (by decide) (by decide) (by decide)

/-! ## The antialiased sampler: inside the image -/

/-- The stores of `argb_and_rgb_aa` on an image with alpha channel for a
sample whose base pixel and both directional neighbours are inside the
image. -/
theorem aa_px_inner (env : Env) (src : Int → Int)
    (src_w src_h src_stride xs_ups ys_ups xs_step ys_step : Int) (has_alpha : Bool)
    (hha : has_alpha = true) (x xs ys : Int)
    (hxs : sample_ups xs_ups xs_step x = xs) (hys : sample_ups ys_ups ys_step x = ys)
    (hin : 0 ≤ xs / 256 ∧ xs / 256 < src_w ∧ 0 ≤ ys / 256 ∧ ys / 256 < src_h)
    (hnb : 0 ≤ xs / 256 + next_dir (xs % 256) ∧ xs / 256 + next_dir (xs % 256) < src_w ∧
      0 ≤ ys / 256 + next_dir (ys % 256) ∧ ys / 256 + next_dir (ys % 256) < src_h) :
    argb_and_rgb_aa_px env src src_w src_h src_stride xs_ups ys_ups xs_step ys_step has_alpha x =
      (if (blend_opa (src_alpha env.depth has_alpha src src_stride (xs / 256)
              (ys / 256 + next_dir (ys % 256)))
            (src_alpha env.depth has_alpha src src_stride (xs / 256) (ys / 256))
            (remap_fract (ys % 256))
          + blend_opa (src_alpha env.depth has_alpha src src_stride
              (xs / 256 + next_dir (xs % 256)) (ys / 256))
            (src_alpha env.depth has_alpha src src_stride (xs / 256) (ys / 256))
            (remap_fract (xs % 256))) / 2 % 256 = 0
      then ⟨none, some 0⟩
      else
        ⟨some (if src_color env.depth has_alpha src src_stride (xs / 256) (ys / 256)
              = src_color env.depth has_alpha src src_stride (xs / 256)
                (ys / 256 + next_dir (ys % 256)) ∧
            src_color env.depth has_alpha src src_stride (xs / 256) (ys / 256)
              = src_color env.depth has_alpha src src_stride (xs / 256 + next_dir (xs % 256))
                (ys / 256)
          then src_color env.depth has_alpha src src_stride (xs / 256) (ys / 256)
          else env.lv_color_mix
            (env.lv_color_mix
              (src_color env.depth has_alpha src src_stride (xs / 256 + next_dir (xs % 256))
                (ys / 256))
              (src_color env.depth has_alpha src src_stride (xs / 256) (ys / 256))
              (remap_fract (xs % 256)))
            (env.lv_color_mix
              (src_color env.depth has_alpha src src_stride (xs / 256)
                (ys / 256 + next_dir (ys % 256)))
              (src_color env.depth has_alpha src src_stride (xs / 256) (ys / 256))
              (remap_fract (ys % 256)))
            LV_OPA_50),
         some ((blend_opa (src_alpha env.depth has_alpha src src_stride (xs / 256)
              (ys / 256 + next_dir (ys % 256)))
            (src_alpha env.depth has_alpha src src_stride (xs / 256) (ys / 256))
            (remap_fract (ys % 256))
          + blend_opa (src_alpha env.depth has_alpha src src_stride
              (xs / 256 + next_dir (xs % 256)) (ys / 256))
            (src_alpha env.depth has_alpha src src_stride (xs / 256) (ys / 256))
            (remap_fract (xs % 256))) / 2 % 256)⟩) := by
  have ho : ¬ out_of_image src_w src_h (xs / 256) (ys / 256) := by unfold out_of_image; omega
  have hn : xs / 256 + next_dir (xs % 256) ≥ 0 ∧ xs / 256 + next_dir (xs % 256) ≤ src_w - 1 ∧
      ys / 256 + next_dir (ys % 256) ≥ 0 ∧ ys / 256 + next_dir (ys % 256) ≤ src_h - 1 := by
    omega
  have hps : (if has_alpha = true then LV_IMG_PX_SIZE_ALPHA_BYTE env.depth
      else color_size env.depth) = src_px_size env.depth has_alpha := rfl
  have eh : ys / 256 * src_stride * src_px_size env.depth has_alpha
      + xs / 256 * src_px_size env.depth has_alpha
      + next_dir (xs % 256) * src_px_size env.depth has_alpha
      = px_offset (src_px_size env.depth has_alpha) src_stride
        (xs / 256 + next_dir (xs % 256)) (ys / 256) := by
    unfold px_offset; ring
  have ev : ys / 256 * src_stride * src_px_size env.depth has_alpha
      + xs / 256 * src_px_size env.depth has_alpha
      + next_dir (ys % 256) * src_stride * src_px_size env.depth has_alpha
      = px_offset (src_px_size env.depth has_alpha) src_stride
        (xs / 256) (ys / 256 + next_dir (ys % 256)) := by
    unfold px_offset; ring
  have eb : ys / 256 * src_stride * src_px_size env.depth has_alpha
      + xs / 256 * src_px_size env.depth has_alpha
      = px_offset (src_px_size env.depth has_alpha) src_stride (xs / 256) (ys / 256) := rfl
  unfold argb_and_rgb_aa_px
  simp only [hxs, hys, if_neg ho, if_pos hn, hps]
  rw [eh, ev, eb]
  subst hha
  simp only [if_true, src_alpha, src_color]
  split <;> rename_i h0
  · rw [h0]
  · rfl

/-- The blended neighbour alpha: the formula without the 8-bit truncation,
and its range between the two alphas. -/
theorem blend_opa_range (an ab f : Int) (han : 0 ≤ an ∧ an ≤ 255) (hab : 0 ≤ ab ∧ ab ≤ 255)
    (hf : 0 ≤ f ∧ f ≤ 254) :
    blend_opa an ab f = (if an = ab then ab else (an * f + ab * (256 - f)) / 256) ∧
      min an ab ≤ blend_opa an ab f ∧ blend_opa an ab f ≤ max an ab := by
  unfold blend_opa
  by_cases h : an = ab
  · subst h
    simp
  · rw [if_pos h, if_neg h]
    have e1 : an * f + ab * (256 - f) = 256 * ab + (an - ab) * f := by ring
    have e2 : an * f + ab * (256 - f) = 256 * an + (ab - an) * (256 - f) := by ring
    rcases le_total an ab with hle | hle
    · have p1 : 0 ≤ (ab - an) * (256 - f) := Int.mul_nonneg (by omega) (by omega)
      have p2 : 0 ≤ (ab - an) * f := Int.mul_nonneg (by omega) (by omega)
      have p3 : (an - ab) * f = -((ab - an) * f) := by ring
      rw [min_eq_left hle, max_eq_right hle]
      generalize an * f + ab * (256 - f) = P at e1 e2 ⊢
      generalize (ab - an) * (256 - f) = Q1 at e2 p1
      generalize (ab - an) * f = Q2 at p2 p3
      generalize (an - ab) * f = Q3 at e1 p3
      omega
    · have p1 : 0 ≤ (an - ab) * f := Int.mul_nonneg (by omega) (by omega)
      have p2 : 0 ≤ (an - ab) * (256 - f) := Int.mul_nonneg (by omega) (by omega)
      have p3 : (ab - an) * (256 - f) = -((an - ab) * (256 - f)) := by ring
      rw [min_eq_right hle, max_eq_left hle]
      generalize an * f + ab * (256 - f) = P at e1 e2 ⊢
      generalize (an - ab) * f = Q1 at e1 p1
      generalize (an - ab) * (256 - f) = Q2 at p2 p3
      generalize (ab - an) * (256 - f) = Q3 at e2 p3
      omega

/-- The alpha `argb_and_rgb_aa` stores on an image with alpha channel for a
sample whose base pixel and both directional neighbours are inside the
image. -/
theorem aa_px_inner_alpha (env : Env) (src : Int → Int)
    (src_w src_h src_stride xs_ups ys_ups xs_step ys_step : Int) (x xs ys : Int)
    (hxs : sample_ups xs_ups xs_step x = xs) (hys : sample_ups ys_ups ys_step x = ys)
    (hin : 0 ≤ xs / 256 ∧ xs / 256 < src_w ∧ 0 ≤ ys / 256 ∧ ys / 256 < src_h)
    (hnb : 0 ≤ xs / 256 + next_dir (xs % 256) ∧ xs / 256 + next_dir (xs % 256) < src_w ∧
      0 ≤ ys / 256 + next_dir (ys % 256) ∧ ys / 256 + next_dir (ys % 256) < src_h) :
    (argb_and_rgb_aa_px env src src_w src_h src_stride xs_ups ys_ups xs_step ys_step true
        x).alpha =
      some ((blend_opa (src_alpha env.depth true src src_stride (xs / 256)
              (ys / 256 + next_dir (ys % 256)))
            (src_alpha env.depth true src src_stride (xs / 256) (ys / 256))
            (remap_fract (ys % 256))
          + blend_opa (src_alpha env.depth true src src_stride
              (xs / 256 + next_dir (xs % 256)) (ys / 256))
            (src_alpha env.depth true src src_stride (xs / 256) (ys / 256))
            (remap_fract (xs % 256))) / 2 % 256) := by
  rw [aa_px_inner env src src_w src_h src_stride xs_ups ys_ups xs_step ys_step true rfl x xs ys
    hxs hys hin hnb]
  split <;> rename_i h0
  · rw [h0]
  · rfl

/-- C13: in `argb_and_rgb_aa` on a source with alpha channel, with the base
pixel and both directional neighbours inside the image, the written alpha
is `floor((v + h) / 2)`, where `v` is `a_base` if `a_ver = a_base` and
otherwise `(a_ver * ys_fract + a_base * (256 - ys_fract)) >> 8`, and `h`
likewise with `a_hor` and `xs_fract`; the value needs no 8-bit truncation,
lies between the smallest and the largest of the three alphas and is
`a_base` when the three are equal. -/
theorem aa_alpha_average (env : Env) (src : Int → Int)
    (src_w src_h src_stride xs_ups ys_ups xs_step ys_step x_end off : Int) (bufs : Bufs)
    (x xs ys a_base a_hor a_ver : Int)
    (hx0 : 0 ≤ x) (hx : x < x_end) (hend : x_end ≤ 32767)
    (hxs : xs = sample_ups xs_ups xs_step x) (hys : ys = sample_ups ys_ups ys_step x)
    (hin : 0 ≤ xs / 256 ∧ xs / 256 < src_w ∧ 0 ≤ ys / 256 ∧ ys / 256 < src_h)
    (hnb : 0 ≤ xs / 256 + next_dir (xs % 256) ∧ xs / 256 + next_dir (xs % 256) < src_w ∧
      0 ≤ ys / 256 + next_dir (ys % 256) ∧ ys / 256 + next_dir (ys % 256) < src_h)
    (hb : a_base = src_alpha env.depth true src src_stride (xs / 256) (ys / 256))
    (hh : a_hor = src_alpha env.depth true src src_stride (xs / 256 + next_dir (xs % 256))
      (ys / 256))
    (hv : a_ver = src_alpha env.depth true src src_stride (xs / 256)
      (ys / 256 + next_dir (ys % 256))) :
    ∃ r, argb_and_rgb_aa env src src_w src_h src_stride xs_ups ys_ups xs_step ys_step x_end off
        bufs true = some r ∧
      r.abuf (off + x) =
        ((if a_ver = a_base then a_base
            else (a_ver * remap_fract (ys % 256) + a_base * (256 - remap_fract (ys % 256))) / 256)
          + (if a_hor = a_base then a_base
            else (a_hor * remap_fract (xs % 256) + a_base * (256 - remap_fract (xs % 256))) / 256))
          / 2 ∧
      0 ≤ r.abuf (off + x) ∧ r.abuf (off + x) ≤ 255 ∧
      min a_base (min a_hor a_ver) ≤ r.abuf (off + x) ∧
      r.abuf (off + x) ≤ max a_base (max a_hor a_ver) ∧
      (a_hor = a_base → a_ver = a_base → r.abuf (off + x) = a_base) := by
  have rb := src_alpha_range env.depth true src src_stride (xs / 256) (ys / 256)
  have rh := src_alpha_range env.depth true src src_stride (xs / 256 + next_dir (xs % 256))
    (ys / 256)
  have rv := src_alpha_range env.depth true src src_stride (xs / 256)
    (ys / 256 + next_dir (ys % 256))
  rw [← hb] at rb
  rw [← hh] at rh
  rw [← hv] at rv
  have hrx := remap_fract_range (xs % 256) (by omega) (by omega)
  have hry := remap_fract_range (ys % 256) (by omega) (by omega)
  have bv := blend_opa_range a_ver a_base (remap_fract (ys % 256)) rv rb hry
  have bh := blend_opa_range a_hor a_base (remap_fract (xs % 256)) rh rb hrx
  have hpx := aa_px_inner_alpha env src src_w src_h src_stride xs_ups ys_ups xs_step ys_step
    x xs ys hxs.symm hys.symm hin hnb
  rw [← hb, ← hh, ← hv] at hpx
  have hab : (row_loop (argb_and_rgb_aa_px env src src_w src_h src_stride xs_ups ys_ups xs_step
      ys_step true) off x_end.toNat bufs).abuf (off + x) =
      (blend_opa a_ver a_base (remap_fract (ys % 256))
        + blend_opa a_hor a_base (remap_fract (xs % 256))) / 2 % 256 := by
    rw [row_loop_abuf_at _ _ _ _ _ hx0 hx, hpx]
    rfl
  refine ⟨_, argb_and_rgb_aa_some env src src_w src_h src_stride xs_ups ys_ups xs_step ys_step
    x_end off bufs true hend, ?_⟩
  rw [hab, ← bv.1, ← bh.1]
  obtain ⟨_, bv1, bv2⟩ := bv
  obtain ⟨_, bh1, bh2⟩ := bh
  generalize blend_opa a_ver a_base (remap_fract (ys % 256)) = V at bv1 bv2 ⊢
  generalize blend_opa a_hor a_base (remap_fract (xs % 256)) = H at bh1 bh2 ⊢
  refine ⟨?_, ?_, ?_, ?_, ?_, ?_⟩
  · omega
  · omega
  · omega
  · omega
  · omega
  · intro e1 e2
    subst e1 e2
    omega

/-- Witness of C13: the scenario image sampled at (200, 200): base pixel
(0, 0) with alpha 255, horizontal neighbour (1, 0) with alpha 255, vertical
neighbour (0, 1) with alpha 128. -/
theorem aa_alpha_average_witness :
    ∃ r, argb_and_rgb_aa scenario_env scenario_src 2 2 2 200 200 0 0 1 0 scenario_bufs true
        = some r ∧
      r.abuf (0 + 0) =
        ((if (128 : Int) = 255 then 255
            else (128 * remap_fract (200 % 256) + 255 * (256 - remap_fract (200 % 256))) / 256)
          + (if (255 : Int) = 255 then 255
            else (255 * remap_fract (200 % 256) + 255 * (256 - remap_fract (200 % 256))) / 256))
          / 2 ∧
      0 ≤ r.abuf (0 + 0) ∧ r.abuf (0 + 0) ≤ 255 ∧
      min (255 : Int) (min 255 128) ≤ r.abuf (0 + 0) ∧
      r.abuf (0 + 0) ≤ max (255 : Int) (max 255 128) ∧
      ((255 : Int) = 255 → (128 : Int) = 255 → r.abuf (0 + 0) = 255) :=
  aa_alpha_average scenario_env scenario_src 2 2 2 200 200 0 0 1 0 scenario_bufs 0 200 200
    255 255 128 (by decide) (by decide) (by decide) (by decide) (by decide) (by decide)
    (by decide) (by decide) (by decide) (by decide)

/-- Counterexample to C12: base pixel (0, 0), horizontal neighbour (1, 0)
and vertical neighbour (0, 1) are inside the image and all have alpha 255,
the base colour is 0 and the neighbours hold colour 255; sampled at
(255, 255) with a linear colour mix, the written colour is 254, not the
base colour. -/
theorem equal_alpha_mix_counterexample :
    src_alpha lerp_env.depth true mix_src 2 0 0 = 255 ∧
    src_alpha lerp_env.depth true mix_src 2 (0 + next_dir (255 % 256)) 0 = 255 ∧
    src_alpha lerp_env.depth true mix_src 2 0 (0 + next_dir (255 % 256)) = 255 ∧
    src_color lerp_env.depth true mix_src 2 0 0 = 0 ∧
    ∃ r, argb_and_rgb_aa lerp_env mix_src 2 2 2 255 255 0 0 1 0 scenario_bufs true = some r ∧
      r.cbuf 0 = 254 := by
  refine ⟨by decide, by decide, by decide, by decide, _,
    argb_and_rgb_aa_some _ _ _ _ _ _ _ _ _ _ _ _ _ (by decide), ?_⟩
  decide

/-- C12 (amended): in `argb_and_rgb_aa` on a source with alpha channel, for
a sample whose base pixel, horizontal neighbour and vertical neighbour are
inside the image and hold the same colour value, the written colour is the
base pixel's colour unchanged, whatever the fractions and the colour mix
are, whenever the written alpha is not 0; and when the three alphas are
equal the written alpha is that alpha. -/
theorem equal_colours_skip_mix (env : Env) (src : Int → Int)
    (src_w src_h src_stride xs_ups ys_ups xs_step ys_step x_end off : Int) (bufs : Bufs)
    (x xs ys : Int)
    (hx0 : 0 ≤ x) (hx : x < x_end) (hend : x_end ≤ 32767)
    (hxs : xs = sample_ups xs_ups xs_step x) (hys : ys = sample_ups ys_ups ys_step x)
    (hin : 0 ≤ xs / 256 ∧ xs / 256 < src_w ∧ 0 ≤ ys / 256 ∧ ys / 256 < src_h)
    (hnb : 0 ≤ xs / 256 + next_dir (xs % 256) ∧ xs / 256 + next_dir (xs % 256) < src_w ∧
      0 ≤ ys / 256 + next_dir (ys % 256) ∧ ys / 256 + next_dir (ys % 256) < src_h)
    (hch : src_color env.depth true src src_stride (xs / 256 + next_dir (xs % 256)) (ys / 256)
      = src_color env.depth true src src_stride (xs / 256) (ys / 256))
    (hcv : src_color env.depth true src src_stride (xs / 256) (ys / 256 + next_dir (ys % 256))
      = src_color env.depth true src src_stride (xs / 256) (ys / 256)) :
    ∃ r, argb_and_rgb_aa env src src_w src_h src_stride xs_ups ys_ups xs_step ys_step x_end off
        bufs true = some r ∧
      (r.abuf (off + x) ≠ 0 →
        r.cbuf (off + x) = src_color env.depth true src src_stride (xs / 256) (ys / 256)) ∧
      (∀ a, src_alpha env.depth true src src_stride (xs / 256) (ys / 256) = a →
        src_alpha env.depth true src src_stride (xs / 256 + next_dir (xs % 256)) (ys / 256) = a →
        src_alpha env.depth true src src_stride (xs / 256) (ys / 256 + next_dir (ys % 256)) = a →
        r.abuf (off + x) = a) := by
  have hpx := aa_px_inner env src src_w src_h src_stride xs_ups ys_ups xs_step ys_step true rfl
    x xs ys hxs.symm hys.symm hin hnb
  have hal := aa_px_inner_alpha env src src_w src_h src_stride xs_ups ys_ups xs_step ys_step
    x xs ys hxs.symm hys.symm hin hnb
  rw [hch, hcv] at hpx
  refine ⟨_, argb_and_rgb_aa_some env src src_w src_h src_stride xs_ups ys_ups xs_step ys_step
    x_end off bufs true hend, ?_, ?_⟩
  · rw [row_loop_abuf_at _ _ _ _ _ hx0 hx, row_loop_cbuf_at _ _ _ _ _ hx0 hx, hal, hpx]
    intro hne
    simp only [Option.getD_some] at hne
    rw [if_neg hne]
    simp only [and_self, if_true, Option.getD_some]
  · intro a e1 e2 e3
    rw [row_loop_abuf_at _ _ _ _ _ hx0 hx, hal, e1, e2, e3, blend_opa_same, blend_opa_same]
    have ha := src_alpha_range env.depth true src src_stride (xs / 256) (ys / 256)
    rw [e1] at ha
    simp only [Option.getD_some]
    omega

/-- Witness of C12 (amended): the image with nine equal pixels sampled at
(450, 300), base pixel (1, 1). -/
theorem equal_colours_skip_mix_witness :
    ∃ r, argb_and_rgb_aa scenario_env flat_src 3 3 3 450 300 0 0 1 0 scenario_bufs true = some r ∧
      (r.abuf (0 + 0) ≠ 0 →
        r.cbuf (0 + 0) = src_color scenario_env.depth true flat_src 3 (450 / 256) (300 / 256)) ∧
      (∀ a, src_alpha scenario_env.depth true flat_src 3 (450 / 256) (300 / 256) = a →
        src_alpha scenario_env.depth true flat_src 3 (450 / 256 + next_dir (450 % 256)) (300 / 256)
          = a →
        src_alpha scenario_env.depth true flat_src 3 (450 / 256) (300 / 256 + next_dir (300 % 256))
          = a →
        r.abuf (0 + 0) = a) :=
  equal_colours_skip_mix scenario_env flat_src 3 3 3 450 300 0 0 1 0 scenario_bufs 0 450 300
    (by decide) (by decide) (by decide) (by decide) (by decide) (by decide) (by decide)
    (by decide) (by decide)

/-! ## The antialiased sampler: direction and fraction -/

/-- C14: for every 8-bit fraction `f` the neighbour direction is -1 (the
previous pixel) exactly when `f < 0x80` and +1 (the next pixel) otherwise;
the remapped fraction lies in `0..255`, is 0 at `f = 0x7F` and at
`f = 0x80`, strictly decreases in `f` on `[0, 0x7F]` and strictly increases
on `[0x80, 0xFF]`; both axes of `argb_and_rgb_aa` use this direction and
this remap. -/
theorem neighbour_and_remap (f g : Int) (hf0 : 0 ≤ f) (hf1 : f ≤ 255) (hg0 : 0 ≤ g)
    (hg1 : g ≤ 255) :
    (next_dir f = -1 ↔ f < 128) ∧ (next_dir f = 1 ↔ 128 ≤ f) ∧
    0 ≤ remap_fract f ∧ remap_fract f ≤ 255 ∧
    remap_fract 127 = 0 ∧ remap_fract 128 = 0 ∧
    (f < g → g ≤ 127 → remap_fract g < remap_fract f) ∧
    (128 ≤ f → f < g → remap_fract f < remap_fract g) := by
  unfold next_dir remap_fract
  refine ⟨?_, ?_, ?_, ?_, by decide, by decide, ?_, ?_⟩
  · by_cases h : f < 128
    · simp [h]
    · simp [h]
  · by_cases h : f < 128
    · simp [h]
    · simp [h]; omega
  · split <;> omega
  · split <;> omega
  · intro h1 h2
    rw [if_pos (by omega), if_pos (by omega)]
    omega
  · intro h1 h2
    rw [if_neg (by omega), if_neg (by omega)]
    omega

/-- Witness of C14: the fractions 0x20 and 0x60. -/
theorem neighbour_and_remap_witness :
    (next_dir 32 = -1 ↔ (32 : Int) < 128) ∧ (next_dir 32 = 1 ↔ (128 : Int) ≤ 32) ∧
    0 ≤ remap_fract 32 ∧ remap_fract 32 ≤ 255 ∧
    remap_fract 127 = 0 ∧ remap_fract 128 = 0 ∧
    ((32 : Int) < 96 → (96 : Int) ≤ 127 → remap_fract 96 < remap_fract 32) ∧
    ((128 : Int) ≤ 32 → (32 : Int) < 96 → remap_fract 32 < remap_fract 96) :=
  neighbour_and_remap 32 96 (by decide) (by decide) (by decide) (by decide)

/-! ## The descriptor: the split of the angle -/

theorem tdiv_10 (a : Int) :
    Int.tdiv a 10 = if 0 ≤ a then a / 10 else -((-a) / 10) := by
  by_cases h : 0 ≤ a
  · rw [if_pos h, Int.tdiv_eq_ediv h (by norm_num)]
  · rw [if_neg h]
    have e : a = -(-a) := by ring
    rw [e, Int.neg_tdiv, Int.tdiv_eq_ediv (by omega) (by norm_num)]
    simp

/-- The descriptor in terms of the angle split: the sine and cosine
coefficients are the interpolation with the weights `10 - angle_rem` and
`angle_rem`. -/
theorem build_tr_dsc_split (env : Env) (dsc : lv_draw_img_dsc_t) (hz : dsc.zoom ≠ 0) :
    ∃ t, build_tr_dsc env dsc = some t ∧ t.angle = wrap32 (-dsc.angle) ∧
      t.sinma = Int.tdiv (add32
          (mul32 (env.lv_trigo_sin (angle_low t.angle)) (sub32 10 (angle_rem t.angle)))
          (mul32 (env.lv_trigo_sin (add32 (angle_low t.angle) 1)) (angle_rem t.angle))) 10
        / 2 ^ (env.LV_TRIGO_SHIFT - 10) ∧
      t.cosma = Int.tdiv (add32
          (mul32 (env.lv_trigo_sin (add32 (angle_low t.angle) 90))
            (sub32 10 (angle_rem t.angle)))
          (mul32 (env.lv_trigo_sin (add32 (add32 (angle_low t.angle) 1) 90))
            (angle_rem t.angle))) 10
        / 2 ^ (env.LV_TRIGO_SHIFT - 10) := by
  unfold build_tr_dsc
  rw [if_neg hz]
  exact ⟨_, rfl, rfl, rfl, rfl⟩

/-- Counterexample to C15: for the draw angle 5 the negated angle is -5,
whose floor of the tenth is -1, but `angle_low` is 0 and `angle_rem` is
-5. -/
theorem angle_split_counterexample :
    ∃ t, build_tr_dsc periodic_env (draw_dsc_of 5 256 false) = some t ∧
      t.angle = -5 ∧ t.angle / 10 = -1 ∧ angle_low t.angle = 0 ∧ angle_rem t.angle = -5 := by
  refine ⟨_, rfl, ?_, ?_, ?_, ?_⟩ <;> decide

/-- C15 (amended): for every 16-bit draw angle and non-zero zoom the
descriptor is built from the split of `a = -draw_angle` into
`angle_low = a / 10` truncated toward zero and `angle_rem`, with the
interpolation weights `10 - angle_rem` and `angle_rem`; the split satisfies
`a = 10 * angle_low + angle_rem` and `-9 ≤ angle_rem ≤ 9`, `angle_rem` has
the sign of `a`, and for `a ≥ 0` (draw angle at most 0) `angle_low` is
`floor(a / 10)`, `0 ≤ angle_rem ≤ 9` and both weights are non-negative. -/
theorem angle_split (env : Env) (dsc : lv_draw_img_dsc_t)
    (ha : is_coord dsc.angle) (hz : dsc.zoom ≠ 0) :
    ∃ t, build_tr_dsc env dsc = some t ∧ t.angle = -dsc.angle ∧
      t.sinma = Int.tdiv (add32
          (mul32 (env.lv_trigo_sin (angle_low t.angle)) (sub32 10 (angle_rem t.angle)))
          (mul32 (env.lv_trigo_sin (add32 (angle_low t.angle) 1)) (angle_rem t.angle))) 10
        / 2 ^ (env.LV_TRIGO_SHIFT - 10) ∧
      t.cosma = Int.tdiv (add32
          (mul32 (env.lv_trigo_sin (add32 (angle_low t.angle) 90))
            (sub32 10 (angle_rem t.angle)))
          (mul32 (env.lv_trigo_sin (add32 (add32 (angle_low t.angle) 1) 90))
            (angle_rem t.angle))) 10
        / 2 ^ (env.LV_TRIGO_SHIFT - 10) ∧
      t.angle = 10 * angle_low t.angle + angle_rem t.angle ∧
      angle_low t.angle = Int.tdiv t.angle 10 ∧
      -9 ≤ angle_rem t.angle ∧ angle_rem t.angle ≤ 9 ∧
      (0 ≤ t.angle → 0 ≤ angle_rem t.angle) ∧ (t.angle ≤ 0 → angle_rem t.angle ≤ 0) ∧
      (0 ≤ t.angle → angle_low t.angle = t.angle / 10 ∧
        0 ≤ 10 - angle_rem t.angle ∧ 0 ≤ angle_rem t.angle) := by
  obtain ⟨t, ht, hta, hs, hc⟩ := build_tr_dsc_split env dsc hz
  have hneg : t.angle = -dsc.angle := by
    rw [hta]
    unfold is_coord at ha
    exact wrap32_of_range (by omega) (by omega)
  have hr : -32767 ≤ t.angle ∧ t.angle ≤ 32768 := by
    unfold is_coord at ha
    omega
  have hlow : angle_low t.angle = if 0 ≤ t.angle then t.angle / 10 else -((-t.angle) / 10) :=
    tdiv_10 t.angle
  have hrem : angle_rem t.angle = t.angle - 10 * angle_low t.angle := by
    unfold angle_rem sub32 mul32 wrap32
    rw [hlow]
    split <;> omega
  refine ⟨t, ht, hneg, hs, hc, ?_, rfl, ?_, ?_, ?_, ?_, ?_⟩
  · omega
  · rw [hrem, hlow]; split <;> omega
  · rw [hrem, hlow]; split <;> omega
  · intro h; rw [hrem, hlow, if_pos h]; omega
  · intro h; rw [hrem, hlow]; split <;> omega
  · intro h; rw [hrem, hlow, if_pos h]; omega

/-- Witness of C15 (amended): the draw angle -1234. -/
theorem angle_split_witness :
    ∃ t, build_tr_dsc periodic_env (draw_dsc_of (-1234) 256 false) = some t ∧
      t.angle = -(draw_dsc_of (-1234) 256 false).angle ∧
      t.sinma = Int.tdiv (add32
          (mul32 (periodic_env.lv_trigo_sin (angle_low t.angle)) (sub32 10 (angle_rem t.angle)))
          (mul32 (periodic_env.lv_trigo_sin (add32 (angle_low t.angle) 1))
            (angle_rem t.angle))) 10
        / 2 ^ (periodic_env.LV_TRIGO_SHIFT - 10) ∧
      t.cosma = Int.tdiv (add32
          (mul32 (periodic_env.lv_trigo_sin (add32 (angle_low t.angle) 90))
            (sub32 10 (angle_rem t.angle)))
          (mul32 (periodic_env.lv_trigo_sin (add32 (add32 (angle_low t.angle) 1) 90))
            (angle_rem t.angle))) 10
        / 2 ^ (periodic_env.LV_TRIGO_SHIFT - 10) ∧
      t.angle = 10 * angle_low t.angle + angle_rem t.angle ∧
      angle_low t.angle = Int.tdiv t.angle 10 ∧
      -9 ≤ angle_rem t.angle ∧ angle_rem t.angle ≤ 9 ∧
      (0 ≤ t.angle → 0 ≤ angle_rem t.angle) ∧ (t.angle ≤ 0 → angle_rem t.angle ≤ 0) ∧
      (0 ≤ t.angle → angle_low t.angle = t.angle / 10 ∧
        0 ≤ 10 - angle_rem t.angle ∧ 0 ≤ angle_rem t.angle) :=
  angle_split periodic_env (draw_dsc_of (-1234) 256 false) (by decide) (by decide)

/-! ## The point transform: the four formulas -/

/-- The four formulas are the four branches of `transform_point_upscaled`. -/
theorem transform_point_upscaled_branches (t : point_transform_dsc_t) (xin yin : Int) :
    transform_point_upscaled t xin yin =
      if t.angle = 0 ∧ t.zoom = LV_IMG_ZOOM_NONE then tp_identity xin yin
      else if t.angle = 0 then tp_zoom t xin yin
      else if t.zoom = LV_IMG_ZOOM_NONE then tp_rotate t xin yin
      else tp_rotate_zoom t xin yin := by
  unfold transform_point_upscaled tp_identity tp_zoom tp_rotate tp_rotate_zoom
  rfl

/-- C17: at the inverse zoom 256 the rotation-only formula (shift by 2)
gives the same point as the combined rotation and zoom formula (shift by
10) whenever the two products with the zoom do not overflow 32 bits, and
the identity fast path gives the same point as the zoom-only formula. -/
theorem specialised_paths_agree (t : point_transform_dsc_t) (xin yin : Int)
    (hz : t.zoom = 256)
    (hx : -2147483648 ≤ sub32 (mul32 t.cosma (sub32 xin t.pivot.x))
        (mul32 t.sinma (sub32 yin t.pivot.y)) * 256 ∧
      sub32 (mul32 t.cosma (sub32 xin t.pivot.x))
        (mul32 t.sinma (sub32 yin t.pivot.y)) * 256 ≤ 2147483647)
    (hy : -2147483648 ≤ add32 (mul32 t.sinma (sub32 xin t.pivot.x))
        (mul32 t.cosma (sub32 yin t.pivot.y)) * 256 ∧
      add32 (mul32 t.sinma (sub32 xin t.pivot.x))
        (mul32 t.cosma (sub32 yin t.pivot.y)) * 256 ≤ 2147483647) :
    tp_rotate t xin yin = tp_rotate_zoom t xin yin ∧
    tp_identity xin yin = tp_zoom t xin yin := by
  constructor
  · unfold tp_rotate tp_rotate_zoom
    simp only [hz]
    generalize sub32 (mul32 t.cosma (sub32 xin t.pivot.x))
      (mul32 t.sinma (sub32 yin t.pivot.y)) = d at hx
    generalize add32 (mul32 t.sinma (sub32 xin t.pivot.x))
      (mul32 t.cosma (sub32 yin t.pivot.y)) = e at hy
    have e1 : mul32 d 256 / 1024 = d / 4 := by
      unfold mul32
      rw [wrap32_of_range hx.1 hx.2]
      omega
    have e2 : mul32 e 256 / 1024 = e / 4 := by
      unfold mul32
      rw [wrap32_of_range hy.1 hy.2]
      omega
    rw [e1, e2]
  · unfold tp_identity tp_zoom
    simp only [hz]
    have k : ∀ v p : Int, shl8 v = add32 (mul32 (sub32 v p) 256) (shl8 p) := by
      intro v p
      unfold shl8 add32 mul32 sub32 wrap32
      omega
    rw [← k xin t.pivot.x, ← k yin t.pivot.y]

/-- Witness of C17: a descriptor with coefficients 300 and 900, pivot
(5, -7) and the input (40, 25). -/
theorem specialised_paths_agree_witness :
    tp_rotate ⟨300, 900, 256, -450, ⟨5, -7⟩⟩ 40 25
      = tp_rotate_zoom ⟨300, 900, 256, -450, ⟨5, -7⟩⟩ 40 25 ∧
    tp_identity 40 25 = tp_zoom ⟨300, 900, 256, -450, ⟨5, -7⟩⟩ 40 25 :=
  specialised_paths_agree ⟨300, 900, 256, -450, ⟨5, -7⟩⟩ 40 25 rfl (by decide) (by decide)

/-! ## The descriptor: the identity fast path -/

theorem inverse_zoom_256 (z : Int) (h1 : 1 ≤ z) : (65536 / z = 256 ↔ z = 256) := by
  constructor
  · intro h
    have e := Int.ediv_add_emod 65536 z
    have r0 := Int.emod_nonneg 65536 (show z ≠ 0 by omega)
    have r1 := Int.emod_lt_of_pos 65536 (show 0 < z by omega)
    rw [h] at e
    omega
  · intro h
    subst h
    decide

/-- C18: for a 16-bit draw angle and a zoom in `1..65535` the descriptor is
built, and the test of the identity fast path (line 339) holds if and only
if the draw angle is 0 and the draw zoom is 256; then the output is
`(xin << 8, yin << 8)` whatever the pivot is, and otherwise one of the
three other formulas is used; the inverse zoom `65536 / zoom` is 256 only
for the zoom 256. -/
theorem identity_fast_path_selection (env : Env) (dsc : lv_draw_img_dsc_t)
    (ha : is_coord dsc.angle) (hz1 : 1 ≤ dsc.zoom) (hz2 : dsc.zoom ≤ 65535) :
    ∃ t, build_tr_dsc env dsc = some t ∧
      ((t.angle = 0 ∧ t.zoom = LV_IMG_ZOOM_NONE) ↔ (dsc.angle = 0 ∧ dsc.zoom = 256)) ∧
      ((dsc.angle = 0 ∧ dsc.zoom = 256) →
        ∀ xin yin, transform_point_upscaled t xin yin = (shl8 xin, shl8 yin)) ∧
      (¬ (dsc.angle = 0 ∧ dsc.zoom = 256) →
        ∀ xin yin, transform_point_upscaled t xin yin =
          if t.angle = 0 then tp_zoom t xin yin
          else if t.zoom = LV_IMG_ZOOM_NONE then tp_rotate t xin yin
          else tp_rotate_zoom t xin yin) ∧
      (65536 / dsc.zoom = 256 ↔ dsc.zoom = 256) := by
  obtain ⟨t, ht, hta, htz, _⟩ := build_tr_dsc_fields env dsc (by omega)
  have hang : t.angle = -dsc.angle := by
    rw [hta]
    unfold is_coord at ha
    exact wrap32_of_range (by omega) (by omega)
  have hzoom : t.zoom = 65536 / dsc.zoom := by
    rw [htz, Int.tdiv_eq_ediv (by norm_num) (by omega)]
    norm_num
  have hq := inverse_zoom_256 dsc.zoom hz1
  have hiff : (t.angle = 0 ∧ t.zoom = LV_IMG_ZOOM_NONE) ↔ (dsc.angle = 0 ∧ dsc.zoom = 256) := by
    unfold LV_IMG_ZOOM_NONE
    rw [hang, hzoom, hq]
    constructor <;> intro h <;> exact ⟨by omega, h.2⟩
  refine ⟨t, ht, hiff, ?_, ?_, hq⟩
  · intro h xin yin
    rw [transform_point_upscaled_branches, if_pos (hiff.2 h)]
    rfl
  · intro h xin yin
    rw [transform_point_upscaled_branches, if_neg (fun h' => h (hiff.1 h'))]

/-- Witness of C18: draw angle 0 and zoom 512. -/
theorem identity_fast_path_selection_witness :
    ∃ t, build_tr_dsc scenario_env (draw_dsc_of 0 512 false) = some t ∧
      ((t.angle = 0 ∧ t.zoom = LV_IMG_ZOOM_NONE) ↔
        ((draw_dsc_of 0 512 false).angle = 0 ∧ (draw_dsc_of 0 512 false).zoom = 256)) ∧
      (((draw_dsc_of 0 512 false).angle = 0 ∧ (draw_dsc_of 0 512 false).zoom = 256) →
        ∀ xin yin, transform_point_upscaled t xin yin = (shl8 xin, shl8 yin)) ∧
      (¬ ((draw_dsc_of 0 512 false).angle = 0 ∧ (draw_dsc_of 0 512 false).zoom = 256) →
        ∀ xin yin, transform_point_upscaled t xin yin =
          if t.angle = 0 then tp_zoom t xin yin
          else if t.zoom = LV_IMG_ZOOM_NONE then tp_rotate t xin yin
          else tp_rotate_zoom t xin yin) ∧
      (65536 / (draw_dsc_of 0 512 false).zoom = 256 ↔ (draw_dsc_of 0 512 false).zoom = 256) :=
  identity_fast_path_selection scenario_env (draw_dsc_of 0 512 false) (by decide) (by decide)
    (by decide)

/-! ## The driver: the sample of a destination pixel -/

/-- The coordinate at which the driver samples cell `x` of row `y` under the
identity transform, for an area at least two cells wide: the centre of the
pixel on the x axis, but the upper edge of the pixel on the y axis. -/
theorem identity_sample_coords (env : Env) (dsc : lv_draw_img_dsc_t) (a : lv_area_t)
    (y x : Int) (hang : dsc.angle = 0) (hzoom : dsc.zoom = 256)
    (hx1 : is_coord a.x1) (hx2 : is_coord a.x2) (hy : is_coord (a.y1 + y)) (hlt : a.x1 < a.x2)
    (hw : a.x2 - a.x1 + 1 ≤ 32767) (hx0 : 0 ≤ x) (hx : x < a.x2 - a.x1 + 1) :
    ∃ t, build_tr_dsc env dsc = some t ∧
      sample_ups (row_args t a (lv_area_get_width a) y).xs_ups
        (row_args t a (lv_area_get_width a) y).xs_step_256 x = 256 * (a.x1 + x) + 128 ∧
      sample_ups (row_args t a (lv_area_get_width a) y).ys_ups
        (row_args t a (lv_area_get_width a) y).ys_step_256 x = 256 * (a.y1 + y) := by
  obtain ⟨t, ht, hta, htz⟩ := build_tr_dsc_identity env dsc hang hzoom
  have hW : lv_area_get_width a = a.x2 - a.x1 + 1 := wrap16_of_range (by omega) (by omega)
  refine ⟨t, ht, ?_⟩
  rw [hW, identity_row_args t a y hta htz hx1 hx2 hy (by omega) hw]
  simp only [if_pos hlt]
  unfold is_coord at hx1 hx2 hy
  constructor
  · unfold sample_ups add32 mul32 wrap32; omega
  · unfold sample_ups add32 mul32 wrap32; omega

/-- C16, the code at the failing input: identity transform, area
(0,0)-(1,1), destination pixel (0, 0).  The x coordinate of the sample is
128, the centre of the pixel, but the y coordinate is 0 with the 8-bit
fraction 0, not `0x80`. -/
theorem pixel_centre_failing_input :
    ∃ t, build_tr_dsc scenario_env (draw_dsc_of 0 256 true) = some t ∧
      sample_ups (row_args t ⟨0, 0, 1, 1⟩ (lv_area_get_width ⟨0, 0, 1, 1⟩) 0).xs_ups
        (row_args t ⟨0, 0, 1, 1⟩ (lv_area_get_width ⟨0, 0, 1, 1⟩) 0).xs_step_256 0
        = 256 * 0 + 128 ∧
      sample_ups (row_args t ⟨0, 0, 1, 1⟩ (lv_area_get_width ⟨0, 0, 1, 1⟩) 0).ys_ups
        (row_args t ⟨0, 0, 1, 1⟩ (lv_area_get_width ⟨0, 0, 1, 1⟩) 0).ys_step_256 0 = 0 ∧
      sample_ups (row_args t ⟨0, 0, 1, 1⟩ (lv_area_get_width ⟨0, 0, 1, 1⟩) 0).ys_ups
        (row_args t ⟨0, 0, 1, 1⟩ (lv_area_get_width ⟨0, 0, 1, 1⟩) 0).ys_step_256 0 % 256
        ≠ 128 := by
  refine ⟨_, rfl, ?_, ?_, ?_⟩ <;> decide

/-! ## The driver: divisions -/

/-- The driver returns for every non-zero zoom and every area whose
`dest_w` is not negative. -/
theorem lv_draw_sw_transform_returns (env : Env) (area : lv_area_t) (src : Int → Int)
    (src_w src_h src_stride : Int) (dsc : lv_draw_img_dsc_t) (cf : lv_img_cf_t) (bufs : Bufs)
    (hz : dsc.zoom ≠ 0) (hw : 0 ≤ lv_area_get_width area) :
    ∃ r, lv_draw_sw_transform env area src src_w src_h src_stride dsc cf bufs = some r := by
  obtain ⟨t, ht, _⟩ := build_tr_dsc_fields env dsc hz
  have hW := (wrap16_range (area.x2 - area.x1 + 1)).2
  obtain ⟨r, hr, _⟩ := rows_loop_spec
    (transform_row env t area src src_w src_h src_stride dsc cf (lv_area_get_width area))
    (lv_area_get_width area) hw (fun _ _ _ _ => True) (lv_area_get_height area).toNat
    (by
      intro y _ off b
      obtain ⟨b2, e, hf, _⟩ := transform_row_cells env t area src src_w src_h src_stride dsc cf
        (lv_area_get_width area) y off b hw hW
      exact ⟨b2, e, hf, fun _ _ _ => trivial⟩)
    bufs (lv_area_get_height area).toNat (le_refl _)
  refine ⟨r, ?_⟩
  unfold lv_draw_sw_transform
  simp only [ht, hr, Option.map_some']

/-- Counterexample to C19: with the zoom 256 and the destination area
(0,0)-(32767,0), of width 32768, a source without alpha channel and no
antialiasing, the call does not return: `dest_w` wraps to -32768 and
`rgb_no_aa` fills a row of negative length. -/
theorem division_by_zero_only_for_zero_zoom_counterexample :
    (draw_dsc_of 0 256 false).zoom ≠ 0 ∧ (1 : Int) ≤ 32767 - 0 + 1 ∧
    lv_area_get_width ⟨0, 0, 32767, 0⟩ = -32768 ∧
    lv_draw_sw_transform scenario_env ⟨0, 0, 32767, 0⟩ scenario_src 2 2 2
      (draw_dsc_of 0 256 false) lv_img_cf_t.LV_IMG_CF_TRUE_COLOR scenario_bufs = none := by
  refine ⟨by decide, by decide, by decide, ?_⟩
  rfl

/-- C19 (amended): for a non-zero zoom every division of
`lv_draw_sw_transform` has a non-zero divisor: the descriptor is built with
the inverse zoom `65536 / zoom`; in every row and for every `dest_w` the
divisions by `dest_w - 1`, by 2 and by 256 are executed with a non-zero
divisor, and for `dest_w = 1` both steps are 0 without the division by
`dest_w - 1`, which would not return; the call
returns for every destination area whose width is between 1 and 32767, so
that it fits `dest_w`; with the zoom 0 the call does not return. -/
theorem division_by_zero_only_for_zero_zoom (env : Env) (area : lv_area_t) (src : Int → Int)
    (src_w src_h src_stride : Int) (dsc : lv_draw_img_dsc_t) (cf : lv_img_cf_t) (bufs : Bufs)
    (hz : dsc.zoom ≠ 0) :
    (∃ t, build_tr_dsc env dsc = some t ∧ div_checked (256 * 256) dsc.zoom = some t.zoom) ∧
    (∀ t dest_w y, row_args_checked t area dest_w y = some (row_args t area dest_w y)) ∧
    (∀ t y, (row_args t area 1 y).xs_step_256 = 0 ∧ (row_args t area 1 y).ys_step_256 = 0) ∧
    (∀ v, div_checked v (1 - 1) = none) ∧
    (1 ≤ area.x2 - area.x1 + 1 → area.x2 - area.x1 + 1 ≤ 32767 →
      ∃ r, lv_draw_sw_transform env area src src_w src_h src_stride dsc cf bufs = some r) ∧
    lv_draw_sw_transform env area src src_w src_h src_stride
      ⟨dsc.angle, 0, dsc.pivot, dsc.antialias⟩ cf bufs = none := by
  refine ⟨?_, ?_, ?_, fun _ => rfl, ?_, ?_⟩
  · obtain ⟨t, ht, _, htz, _⟩ := build_tr_dsc_fields env dsc hz
    exact ⟨t, ht, by rw [div_checked_of_ne _ _ hz, htz]⟩
  · intro t dest_w y
    exact row_args_checked_eq t area dest_w y
  · intro t y
    unfold row_args
    simp only [if_neg (show ¬ ((1 : Int) > 1) by decide), and_self]
  · intro h1 h2
    have hW : lv_area_get_width area = area.x2 - area.x1 + 1 :=
      wrap16_of_range (by omega) (by omega)
    exact lv_draw_sw_transform_returns env area src src_w src_h src_stride dsc cf bufs hz
      (by omega)
  · unfold lv_draw_sw_transform build_tr_dsc
    simp only [if_true]

/-- Witness of C19 (amended): a single-cell area with the zoom 300 and the
draw angle 450. -/
theorem division_by_zero_only_for_zero_zoom_witness :
    (∃ t, build_tr_dsc periodic_env (draw_dsc_of 450 300 true) = some t ∧
      div_checked (256 * 256) (draw_dsc_of 450 300 true).zoom = some t.zoom) ∧
    (∀ t dest_w y, row_args_checked t ⟨3, 4, 3, 4⟩ dest_w y
      = some (row_args t ⟨3, 4, 3, 4⟩ dest_w y)) ∧
    (∀ t y, (row_args t ⟨3, 4, 3, 4⟩ 1 y).xs_step_256 = 0 ∧
      (row_args t ⟨3, 4, 3, 4⟩ 1 y).ys_step_256 = 0) ∧
    (∀ v, div_checked v (1 - 1) = none) ∧
    ((1 : Int) ≤ 3 - 3 + 1 → (3 : Int) - 3 + 1 ≤ 32767 →
      ∃ r, lv_draw_sw_transform periodic_env ⟨3, 4, 3, 4⟩ scenario_src 2 2 2
        (draw_dsc_of 450 300 true) lv_img_cf_t.LV_IMG_CF_TRUE_COLOR scenario_bufs = some r) ∧
    lv_draw_sw_transform periodic_env ⟨3, 4, 3, 4⟩ scenario_src 2 2 2
      ⟨(draw_dsc_of 450 300 true).angle, 0, (draw_dsc_of 450 300 true).pivot,
        (draw_dsc_of 450 300 true).antialias⟩ lv_img_cf_t.LV_IMG_CF_TRUE_COLOR scenario_bufs
      = none :=
  division_by_zero_only_for_zero_zoom periodic_env ⟨3, 4, 3, 4⟩ scenario_src 2 2 2
    (draw_dsc_of 450 300 true) lv_img_cf_t.LV_IMG_CF_TRUE_COLOR scenario_bufs (by decide)

/-! ## The samplers: two runs -/

/-- What `argb_no_aa` stores at an index: always an alpha, and a colour
exactly when the sample is inside the image. -/
theorem argb_no_aa_px_det (env : Env) (src : Int → Int)
    (src_w src_h src_stride xs ys sx sy x : Int) :
    ∃ a, (argb_no_aa_px env src src_w src_h src_stride xs ys sx sy x).alpha = some a ∧
      (out_of_image src_w src_h (sample_ups xs sx x / 256) (sample_ups ys sy x / 256) →
        (argb_no_aa_px env src src_w src_h src_stride xs ys sx sy x).color = none) ∧
      (¬ out_of_image src_w src_h (sample_ups xs sx x / 256) (sample_ups ys sy x / 256) →
        ∃ c, (argb_no_aa_px env src src_w src_h src_stride xs ys sx sy x).color = some c) := by
  unfold argb_no_aa_px
  by_cases ho : out_of_image src_w src_h (sample_ups xs sx x / 256) (sample_ups ys sy x / 256)
  · simp [ho]
  · simp [ho]

/-- What `rgb_no_aa` stores at an index: alpha 0 and no colour for a sample
outside the image, a colour and no alpha (the alpha stays the `0xFF` of the
fill) for a sample inside. -/
theorem rgb_no_aa_px_det (env : Env) (src : Int → Int)
    (src_w src_h src_stride xs ys sx sy x : Int) :
    (out_of_image src_w src_h (sample_ups xs sx x / 256) (sample_ups ys sy x / 256) →
      (rgb_no_aa_px env src src_w src_h src_stride xs ys sx sy x).alpha = some 0 ∧
      (rgb_no_aa_px env src src_w src_h src_stride xs ys sx sy x).color = none) ∧
    (¬ out_of_image src_w src_h (sample_ups xs sx x / 256) (sample_ups ys sy x / 256) →
      (rgb_no_aa_px env src src_w src_h src_stride xs ys sx sy x).alpha = none ∧
      ∃ c, (rgb_no_aa_px env src src_w src_h src_stride xs ys sx sy x).color = some c) := by
  unfold rgb_no_aa_px
  by_cases ho : out_of_image src_w src_h (sample_ups xs sx x / 256) (sample_ups ys sy x / 256)
  · simp [ho]
  · simp [ho]

/-- What `argb_and_rgb_aa` stores at an index: always an alpha, and a colour
except for a sample outside the image and for a sample on an image with
alpha channel whose two directional neighbours are inside the image and
whose blended alpha is 0. -/
theorem argb_and_rgb_aa_px_det (env : Env) (src : Int → Int)
    (src_w src_h src_stride xs ys sx sy : Int) (has_alpha : Bool) (x : Int) :
    ∃ a, (argb_and_rgb_aa_px env src src_w src_h src_stride xs ys sx sy has_alpha x).alpha
        = some a ∧
      ((out_of_image src_w src_h (sample_ups xs sx x / 256) (sample_ups ys sy x / 256) ∨
          (has_alpha = true ∧
            neighbours_inside src_w src_h (sample_ups xs sx x) (sample_ups ys sy x) ∧ a = 0)) →
        (argb_and_rgb_aa_px env src src_w src_h src_stride xs ys sx sy has_alpha x).color
          = none) ∧
      (¬ (out_of_image src_w src_h (sample_ups xs sx x / 256) (sample_ups ys sy x / 256) ∨
          (has_alpha = true ∧
            neighbours_inside src_w src_h (sample_ups xs sx x) (sample_ups ys sy x) ∧ a = 0)) →
        ∃ c, (argb_and_rgb_aa_px env src src_w src_h src_stride xs ys sx sy has_alpha x).color
          = some c) := by
  unfold argb_and_rgb_aa_px neighbours_inside
  simp only []
  by_cases ho : out_of_image src_w src_h (sample_ups xs sx x / 256) (sample_ups ys sy x / 256)
  · rw [if_pos ho]
    exact ⟨0, rfl, fun _ => rfl, fun h => absurd (Or.inl ho) h⟩
  · rw [if_neg ho]
    split <;> rename_i hn
    · cases has_alpha with
      | false =>
        refine ⟨255, rfl, ?_, fun _ => ⟨_, rfl⟩⟩
        intro h
        rcases h with h | h
        · exact absurd h ho
        · exact absurd h.1 (by decide)
      | true =>
        simp only [if_true]
        split <;> rename_i h0
        · refine ⟨_, rfl, fun _ => rfl, ?_⟩
          intro h
          exact absurd (Or.inr ⟨trivial, hn, h0⟩) h
        · refine ⟨_, rfl, ?_, fun _ => ⟨_, rfl⟩⟩
          intro h
          rcases h with h | h
          · exact absurd h ho
          · exact absurd h.2.2 h0
    · refine ⟨_, rfl, ?_, fun _ => ⟨_, rfl⟩⟩
      intro h
      rcases h with h | h
      · exact absurd h ho
      · exact absurd h.2.1 hn

/-- Two runs of a sampler loop whose iteration always stores an alpha, and
stores a colour exactly outside `S`, agree on the row up to the cells of
`S`. -/
theorem row_loop_agree (px : Int → PxOut) (S : Int → Int → Prop)
    (hdet : ∀ x, ∃ a, (px x).alpha = some a ∧ (S x a → (px x).color = none) ∧
      (¬ S x a → ∃ c, (px x).color = some c))
    (off x_end : Int) (b1 b2 : Bufs) :
    rows_agree off x_end (fun x => S x ((row_loop px off x_end.toNat b1).abuf (off + x)))
      b1 b2 (row_loop px off x_end.toNat b1) (row_loop px off x_end.toNat b2) := by
  constructor
  · intro x hx0 hx
    obtain ⟨a, ha, hnone, hsome⟩ := hdet x
    have e1 : (row_loop px off x_end.toNat b1).abuf (off + x) = a := by
      rw [row_loop_abuf_at _ _ _ _ _ hx0 hx, ha]; rfl
    have e2 : (row_loop px off x_end.toNat b2).abuf (off + x) = a := by
      rw [row_loop_abuf_at _ _ _ _ _ hx0 hx, ha]; rfl
    refine ⟨by rw [e1, e2], ?_, ?_⟩
    · intro hs
      simp only [e1] at hs
      obtain ⟨c, hc⟩ := hsome hs
      rw [row_loop_cbuf_at _ _ _ _ _ hx0 hx, row_loop_cbuf_at _ _ _ _ _ hx0 hx, hc]
      rfl
    · intro hs
      simp only [e1] at hs
      rw [row_loop_cbuf_at _ _ _ _ _ hx0 hx, row_loop_cbuf_at _ _ _ _ _ hx0 hx, hnone hs]
      exact ⟨rfl, rfl⟩
  · intro i hi
    have f1 := row_loop_frame px off x_end.toNat b1 (off + i) (by omega)
    have f2 := row_loop_frame px off x_end.toNat b2 (off + i) (by omega)
    exact ⟨f1.1, f1.2, f2.1, f2.2⟩

/-- Counterexample to C20: two runs that differ only in the old contents of
the buffers (7 and 8).  With `argb_no_aa` and the sample of index 0 at
column 4, outside the image, cell 0 of `cbuf` is 7 after the first run and
8 after the second; with `argb_and_rgb_aa` and the sample (383, 383), whose
base pixel (1, 1) and neighbours are inside the image and whose blended
alpha is 0, likewise. -/
theorem rows_overwritten_counterexample :
    (∃ r1 r2,
      argb_no_aa scenario_env scenario_src 2 2 2 1024 0 0 0 1 0 scenario_bufs = some r1 ∧
      argb_no_aa scenario_env scenario_src 2 2 2 1024 0 0 0 1 0 scenario_bufs2 = some r2 ∧
      r1.cbuf 0 = 7 ∧ r2.cbuf 0 = 8) ∧
    (∃ r1 r2,
      argb_and_rgb_aa scenario_env scenario_src 2 2 2 383 383 0 0 1 0 scenario_bufs true
        = some r1 ∧
      argb_and_rgb_aa scenario_env scenario_src 2 2 2 383 383 0 0 1 0 scenario_bufs2 true
        = some r2 ∧
      r1.abuf 0 = 0 ∧ r1.cbuf 0 = 7 ∧ r2.cbuf 0 = 8) := by
  refine ⟨⟨_, _, argb_no_aa_some _ _ _ _ _ _ _ _ _ _ _ _ (by decide),
      argb_no_aa_some _ _ _ _ _ _ _ _ _ _ _ _ (by decide), by decide, by decide⟩,
    ⟨_, _, argb_and_rgb_aa_some _ _ _ _ _ _ _ _ _ _ _ _ _ (by decide),
      argb_and_rgb_aa_some _ _ _ _ _ _ _ _ _ _ _ _ _ (by decide), by decide, by decide,
      by decide⟩⟩

/-- C20 (amended): for each of the three samplers and `1 ≤ x_end ≤ 32767`,
two runs that differ only in the old contents of `cbuf` and `abuf` both
return and produce the same `abuf[x]` for every `x` in `[0, x_end)`, and the
same `cbuf[x]` for every such `x` except the cells whose colour the sampler
does not write: the cells whose sample is outside the image and, in
`argb_and_rgb_aa` on a source with alpha channel, the cells whose two
directional neighbours are inside the image and whose blended alpha is 0;
these cells keep their old colour; the entries from `x_end` on are left
unchanged. -/
theorem rows_overwritten (env : Env) (src : Int → Int)
    (src_w src_h src_stride xs_ups ys_ups xs_step ys_step x_end off : Int) (b1 b2 : Bufs)
    (has_alpha : Bool) (h1 : 1 ≤ x_end) (hend : x_end ≤ 32767) :
    (∃ r1 r2,
      rgb_no_aa env src src_w src_h src_stride xs_ups ys_ups xs_step ys_step x_end off b1
        = some r1 ∧
      rgb_no_aa env src src_w src_h src_stride xs_ups ys_ups xs_step ys_step x_end off b2
        = some r2 ∧
      rows_agree off x_end
        (fun x => out_of_image src_w src_h (sample_ups xs_ups xs_step x / 256)
          (sample_ups ys_ups ys_step x / 256)) b1 b2 r1 r2) ∧
    (∃ r1 r2,
      argb_no_aa env src src_w src_h src_stride xs_ups ys_ups xs_step ys_step x_end off b1
        = some r1 ∧
      argb_no_aa env src src_w src_h src_stride xs_ups ys_ups xs_step ys_step x_end off b2
        = some r2 ∧
      rows_agree off x_end
        (fun x => out_of_image src_w src_h (sample_ups xs_ups xs_step x / 256)
          (sample_ups ys_ups ys_step x / 256)) b1 b2 r1 r2) ∧
    (∃ r1 r2,
      argb_and_rgb_aa env src src_w src_h src_stride xs_ups ys_ups xs_step ys_step x_end off b1
        has_alpha = some r1 ∧
      argb_and_rgb_aa env src src_w src_h src_stride xs_ups ys_ups xs_step ys_step x_end off b2
        has_alpha = some r2 ∧
      rows_agree off x_end
        (fun x => out_of_image src_w src_h (sample_ups xs_ups xs_step x / 256)
            (sample_ups ys_ups ys_step x / 256) ∨
          (has_alpha = true ∧
            neighbours_inside src_w src_h (sample_ups xs_ups xs_step x)
              (sample_ups ys_ups ys_step x) ∧
            r1.abuf (off + x) = 0)) b1 b2 r1 r2) := by
  refine ⟨?_, ?_, ?_⟩
  · obtain ⟨r1, e1, f1, v1⟩ := rgb_no_aa_row env src src_w src_h src_stride xs_ups ys_ups
      xs_step ys_step x_end off b1 (by omega) hend
    obtain ⟨r2, e2, f2, v2⟩ := rgb_no_aa_row env src src_w src_h src_stride xs_ups ys_ups
      xs_step ys_step x_end off b2 (by omega) hend
    refine ⟨r1, r2, e1, e2, ?_, ?_⟩
    · intro x hx0 hx
      have hd := rgb_no_aa_px_det env src src_w src_h src_stride xs_ups ys_ups xs_step ys_step x
      rw [(v1 x hx0 hx).1, (v1 x hx0 hx).2, (v2 x hx0 hx).1, (v2 x hx0 hx).2]
      refine ⟨rfl, ?_, ?_⟩
      · intro hs
        obtain ⟨_, c, hc⟩ := hd.2 hs
        rw [hc]
        rfl
      · intro hs
        rw [(hd.1 hs).2]
        exact ⟨rfl, rfl⟩
    · intro i hi
      have g1 := f1 (off + i) (Or.inr (by omega))
      have g2 := f2 (off + i) (Or.inr (by omega))
      exact ⟨g1.1, g1.2, g2.1, g2.2⟩
  · exact ⟨_, _, argb_no_aa_some env src src_w src_h src_stride xs_ups ys_ups xs_step ys_step
        x_end off b1 hend,
      argb_no_aa_some env src src_w src_h src_stride xs_ups ys_ups xs_step ys_step
        x_end off b2 hend,
      row_loop_agree _ (fun x _ => out_of_image src_w src_h (sample_ups xs_ups xs_step x / 256)
          (sample_ups ys_ups ys_step x / 256))
        (argb_no_aa_px_det env src src_w src_h src_stride xs_ups ys_ups xs_step ys_step)
        off x_end b1 b2⟩
  · exact ⟨_, _, argb_and_rgb_aa_some env src src_w src_h src_stride xs_ups ys_ups xs_step
        ys_step x_end off b1 has_alpha hend,
      argb_and_rgb_aa_some env src src_w src_h src_stride xs_ups ys_ups xs_step ys_step
        x_end off b2 has_alpha hend,
      row_loop_agree _ (fun x a => out_of_image src_w src_h (sample_ups xs_ups xs_step x / 256)
            (sample_ups ys_ups ys_step x / 256) ∨
          (has_alpha = true ∧
            neighbours_inside src_w src_h (sample_ups xs_ups xs_step x)
              (sample_ups ys_ups ys_step x) ∧ a = 0))
        (argb_and_rgb_aa_px_det env src src_w src_h src_stride xs_ups ys_ups xs_step ys_step
          has_alpha) off x_end b1 b2⟩

/-- Witness of C20 (amended): rows of two cells over the scenario image,
from buffers holding 7 and buffers holding 8. -/
theorem rows_overwritten_witness :
    (∃ r1 r2,
      rgb_no_aa scenario_env scenario_src 2 2 2 128 0 65536 0 2 0 scenario_bufs = some r1 ∧
      rgb_no_aa scenario_env scenario_src 2 2 2 128 0 65536 0 2 0 scenario_bufs2 = some r2 ∧
      rows_agree 0 2
        (fun x => out_of_image 2 2 (sample_ups 128 65536 x / 256) (sample_ups 0 0 x / 256))
        scenario_bufs scenario_bufs2 r1 r2) ∧
    (∃ r1 r2,
      argb_no_aa scenario_env scenario_src 2 2 2 128 0 65536 0 2 0 scenario_bufs = some r1 ∧
      argb_no_aa scenario_env scenario_src 2 2 2 128 0 65536 0 2 0 scenario_bufs2 = some r2 ∧
      rows_agree 0 2
        (fun x => out_of_image 2 2 (sample_ups 128 65536 x / 256) (sample_ups 0 0 x / 256))
        scenario_bufs scenario_bufs2 r1 r2) ∧
    (∃ r1 r2,
      argb_and_rgb_aa scenario_env scenario_src 2 2 2 128 0 65536 0 2 0 scenario_bufs
        true = some r1 ∧
      argb_and_rgb_aa scenario_env scenario_src 2 2 2 128 0 65536 0 2 0 scenario_bufs2
        true = some r2 ∧
      rows_agree 0 2
        (fun x => out_of_image 2 2 (sample_ups 128 65536 x / 256) (sample_ups 0 0 x / 256) ∨
          (true = true ∧ neighbours_inside 2 2 (sample_ups 128 65536 x) (sample_ups 0 0 x) ∧
            r1.abuf (0 + x) = 0))
        scenario_bufs scenario_bufs2 r1 r2) :=
  rows_overwritten scenario_env scenario_src 2 2 2 128 0 65536 0 2 0 scenario_bufs
    scenario_bufs2 true (by decide) (by decide)

end LvDrawSwTransform
